import Mathlib

/-!
# AI-Code-Mentor: the issue detector and the feedback generator

A shallow embedding of `detectIssues` (`src/utils/codeAnalyzer.js`), of `generateFeedback`
(`src/utils/feedbackGenerator.js`), of their copies in `src/App.js` and of the JavaScript
string and regular-expression operations they rely on, followed by theorems about them.

Modelling conventions.

* A JavaScript string is modelled by the list of its characters (`Str`).  The operations used
  by the program (`includes`, `split`, `startsWith`, `endsWith`, `trim` and the regular
  expressions, none of which has the `u` flag) only ever test a code unit for membership in
  `\w`, `\s`, the line terminators, or equality with an ASCII character, so a character outside
  the basic plane behaves like any other character that is neither a word character nor a space.
* The regular expressions of the program are sequences of assertions (`^`, `\b`) and of
  character classes carrying a greedy quantifier; `matchHere` is the backtracking matcher for
  such sequences.
* A JavaScript exception is an `Except.error`.  Two places of the program could raise one:
  `new RegExp(...)` on a dynamically built pattern, and a method call on `lines[i-1]` when that
  element is `undefined`.
-/

namespace CodeMentor

/-- A JavaScript string, as the list of its characters. -/
abbrev Str := List Char

/-- The exceptions the modelled fragment of JavaScript can raise. -/
inductive JsError where
  | syntaxError
  | typeError
  deriving DecidableEq, Repr

deriving instance DecidableEq for Except

/-! ## Character classes of ECMAScript regular expressions -/

/-- The class `\w` (without the `i` and `u` flags): ASCII letters, digits and the underscore. -/
def isWordChar (c : Char) : Bool :=
  c.isAlphanum || c == '_'

/-- A LineTerminator of ECMAScript: LF, CR, LS, PS. -/
def isLineTerminator (c : Char) : Bool :=
  c.toNat == 0x0A || c.toNat == 0x0D || c.toNat == 0x2028 || c.toNat == 0x2029

/-- A WhiteSpace of ECMAScript: TAB, VT, FF, ZWNBSP and the space separators (category Zs). -/
def isWhiteSpace (c : Char) : Bool :=
  c.toNat == 0x09 || c.toNat == 0x0B || c.toNat == 0x0C || c.toNat == 0x20 ||
  c.toNat == 0xA0 || c.toNat == 0x1680 || (0x2000 ≤ c.toNat && c.toNat ≤ 0x200A) ||
  c.toNat == 0x202F || c.toNat == 0x205F || c.toNat == 0x3000 || c.toNat == 0xFEFF

/-- The class `\s`, which is also the set of characters `String.prototype.trim` strips. -/
def isSpace (c : Char) : Bool :=
  isWhiteSpace c || isLineTerminator c

/-- The class `.` (without the `s` flag): anything but a line terminator. -/
def isDot (c : Char) : Bool :=
  !isLineTerminator c

/-! ## String operations -/

/-- The method `s.startsWith(p)`. -/
def startsWith (s p : Str) : Bool :=
  p.isPrefixOf s

/-- The method `s.endsWith(p)`. -/
def endsWith (s p : Str) : Bool :=
  p.reverse.isPrefixOf s.reverse

/-- The method `s.includes(p)`: `p` occurs in `s` at some position. -/
def includes : Str → Str → Bool
  | [], p => p.isPrefixOf []
  | c :: s, p => p.isPrefixOf (c :: s) || includes s p

/-- The method `s.trim()`: strips white space and line terminators from both ends. -/
def trim (s : Str) : Str :=
  ((s.dropWhile isSpace).reverse.dropWhile isSpace).reverse

/-- The method `s.split(sep)` for a one-character separator; the result is never empty. -/
def split (sep : Char) : Str → List Str
  | [] => [[]]
  | c :: s =>
    if c = sep then [] :: split sep s
    else
      match split sep s with
      | [] => [[c]]
      | l :: ls => (c :: l) :: ls

/-- The method `xs.findIndex(p)`: the index of the first element satisfying `p`, or `-1`. -/
def findIndex {α : Type} (p : α → Bool) : List α → Int
  | [] => -1
  | x :: xs => if p x then 0 else if findIndex p xs < 0 then -1 else findIndex p xs + 1

/-- JavaScript truthiness of a string: it is not empty. -/
def truthy (s : Str) : Bool :=
  !s.isEmpty

/-! ## Regular expressions -/

/-- Greedy quantifiers: exactly one, `*`, `+`. -/
inductive Quant where
  | one
  | star
  | plus

/-- The items a pattern of the program is a sequence of. -/
inductive Atom where
  /-- a character class with its quantifier -/
  | cls (p : Char → Bool) (q : Quant)
  /-- the assertion `^` (no `m` flag: start of input only) -/
  | bol
  /-- the assertion `\b` -/
  | wordBoundary

/-- A pattern: the sequence of its items. -/
abbrev Regex := List Atom

/-- A literal character. -/
def Atom.lit (c : Char) : Atom :=
  .cls (fun d => d == c) .one

/-- The pattern matching the characters of `s` literally. -/
def literal (s : Str) : Regex :=
  s.map Atom.lit

/-- Whether the character before (or after) the current position is a word character;
there is none at the ends of the input. -/
def isWordAt : Option Char → Bool
  | none => false
  | some c => isWordChar c

/-- Greedy repetition of the class `p` followed by the continuation `k`: take as many
characters as possible, giving one back at a time while the continuation fails. The first
argument of the continuation is the character before the position it starts at. -/
def greedy (p : Char → Bool) (k : Option Char → Str → Option Str) : Option Char → Str → Option Str
  | prev, [] => k prev []
  | prev, c :: s =>
    if p c then
      match greedy p k (some c) s with
      | some m => some (c :: m)
      | none => k prev (c :: s)
    else k prev (c :: s)

/-- The backtracking matcher: `matchHere re prev s` is the text `re` matches at the start of
`s`, where `prev` is the character before `s` in the input (`none` at its start). -/
def matchHere : Regex → Option Char → Str → Option Str
  | [], _, _ => some []
  | .bol :: re, prev, s =>
    if prev.isNone then matchHere re prev s else none
  | .wordBoundary :: re, prev, s =>
    if isWordAt prev != isWordAt s.head? then matchHere re prev s else none
  | .cls p .one :: re, _, s =>
    match s with
    | [] => none
    | c :: s => if p c then (matchHere re (some c) s).map (fun m => c :: m) else none
  | .cls p .star :: re, prev, s => greedy p (matchHere re) prev s
  | .cls p .plus :: re, _, s =>
    match s with
    | [] => none
    | c :: s => if p c then (greedy p (matchHere re) (some c) s).map (fun m => c :: m) else none

/-- The leftmost match of `re` in `s`, trying every start position in turn. -/
def search (re : Regex) : Option Char → Str → Option Str
  | prev, [] => matchHere re prev []
  | prev, c :: s =>
    match matchHere re prev (c :: s) with
    | some m => some m
    | none => search re (some c) s

/-- The method `re.test(s)`, and the truthiness of `s.match(re)` for `re` without the `g` flag. -/
def test (re : Regex) (s : Str) : Bool :=
  (search re none s).isSome

/-- The successive matches of a pattern with the `g` flag. `skip` is the number of characters
left to pass before `lastIndex` is reached: after a match of length `n` at some position the
next attempt is made `n` characters further, and one character further after an empty match. -/
def matchAllFrom (re : Regex) : Nat → Option Char → Str → List Str
  | 0, prev, [] =>
    match matchHere re prev [] with
    | some m => [m]
    | none => []
  | _ + 1, _, [] => []
  | 0, prev, c :: s =>
    match matchHere re prev (c :: s) with
    | some m => m :: matchAllFrom re (m.length - 1) (some c) s
    | none => matchAllFrom re 0 (some c) s
  | k + 1, _, c :: s => matchAllFrom re k (some c) s

/-- The value of `s.match(re) || []` for `re` with the `g` flag: all successive matches. -/
def matchAll (re : Regex) (s : Str) : List Str :=
  matchAllFrom re 0 none s

/-! ## The patterns of the program -/

/-- The pattern `/^\S+\s+/`. -/
def reIndentGate : Regex :=
  [.bol, .cls (fun c => !isSpace c) .plus, .cls isSpace .plus]

/-- The pattern `/range\(\w+\)/`. -/
def reRange : Regex :=
  literal "range(".toList ++ [.cls isWordChar .plus, .lit ')']

/-- The pattern `/(\w+)\s*=\s*.+/` (used with the `g` flag, so the group is not observed). -/
def reAssign : Regex :=
  [.cls isWordChar .plus, .cls isSpace .star, .lit '=', .cls isSpace .star, .cls isDot .plus]

/-- The pattern `/\w+\[\w+\]/`. -/
def reArrayAccess : Regex :=
  [.cls isWordChar .plus, .lit '[', .cls isWordChar .plus, .lit ']']

/-- The pattern `/int\s+\w+;/`. -/
def reIntDecl : Regex :=
  literal "int".toList ++ [.cls isSpace .plus, .cls isWordChar .plus, .lit ';']

/-- The pattern `/float\s+\w+;/`. -/
def reFloatDecl : Regex :=
  literal "float".toList ++ [.cls isSpace .plus, .cls isWordChar .plus, .lit ';']

/-- The pattern whose text is `\b`, then the characters of `varName`, then `\b`, for a
`varName` made of word characters: they stand for themselves. -/
def wordPattern (varName : Str) : Regex :=
  [.wordBoundary] ++ literal varName ++ [.wordBoundary]

/-- The constructor call ``new RegExp(`\\b${varName}\\b`, 'g')``. The pattern text is built
from `varName`; when `varName` consists of word characters only, the text denotes
`wordPattern varName`. Any other `varName` could bring pattern syntax into the text (and make
the constructor raise a SyntaxError): such a pattern is not interpreted and counts as an
error. -/
def wordRegExp (varName : Str) : Except JsError Regex :=
  if varName.all isWordChar then .ok (wordPattern varName)
  else .error .syntaxError

/-! ## Issues -/

/-- An issue record. The fallback issue has no `line` field. -/
structure Issue where
  type : String
  severity : String
  line : Option Int
  message : String
  explanation : String
  deriving DecidableEq, Repr

/-- The expression `code.split('\n').findIndex(l => p l) + 1`. -/
def lineOf (p : Str → Bool) (code : Str) : Int :=
  findIndex p (split '\n' code) + 1

/-! ## The Python battery -/

/-- Base case issues. -/
def baseCaseRule (code : Str) : List Issue :=
  if includes code "factorial".toList && includes code "n == 1".toList
      && !includes code "n <= 1".toList then
    [{ type := "logic"
       severity := "high"
       line := some (lineOf (fun l => includes l "n == 1".toList) code)
       message := "Incomplete base case in recursive function"
       explanation := "Your base case only handles n=1, but what happens when n=0? The function will recurse infinitely." }]
  else []

/-- The element `lines[i]`, for a use that calls a method on it: a TypeError when the element
is `undefined`. -/
def lineAt (lines : List Str) (i : Nat) : Except JsError Str :=
  match lines[i]? with
  | some l => .ok l
  | none => .error .typeError

/-- The two nested conditions of the body of the indentation loop at index `i`. -/
def indentationViolation (lines : List Str) (i : Nat) : Except JsError Bool := do
  let li ← lineAt lines i
  if truthy (trim li) && !startsWith li " ".toList && !startsWith li "def".toList
      && !startsWith li "#".toList then
    if i > 0 then
      let lp ← lineAt lines (i - 1)
      pure (endsWith (trim lp) ":".toList)
    else pure false
  else pure false

/-- The indentation loop over the indices still to visit: the index at which it pushes an
issue and breaks, if any. -/
def indentationLoop (lines : List Str) : List Nat → Except JsError (Option Nat)
  | [] => pure none
  | i :: rest => do
    if (← indentationViolation lines i) then pure (some i)
    else indentationLoop lines rest

/-- Indentation issues. -/
def indentationRule (code : Str) : Except JsError (List Issue) :=
  if test reIndentGate code && includes code "def ".toList then do
    let lines := split '\n' code
    match (← indentationLoop lines (List.range lines.length)) with
    | some i =>
      pure [{ type := "syntax"
              severity := "high"
              line := some ((i : Int) + 1)
              message := "Indentation error"
              explanation := "Python requires consistent indentation. Code inside a function or after a colon must be indented." }]
    | none => pure []
  else pure []

/-- Infinite loop detection. -/
def infiniteLoopRule (code : Str) : List Issue :=
  if includes code "while True".toList && !includes code "break".toList then
    [{ type := "logic"
       severity := "medium"
       line := some (lineOf (fun l => includes l "while True".toList) code)
       message := "Potential infinite loop"
       explanation := "You have a \"while True\" loop without a break statement. How will this loop ever stop?" }]
  else []

/-- Off-by-one in range. -/
def offByOneRule (code : Str) : List Issue :=
  if test reRange code then
    [{ type := "concept"
       severity := "low"
       line := some (lineOf (fun l => test reRange l) code)
       message := "Potential off-by-one error"
       explanation := "Remember: range(n) goes from 0 to n-1, not 0 to n. Is this what you intended?" }]
  else []

/-- The expression `match.split('=')[0].trim()`. -/
def varNameOf (m : Str) : Str :=
  trim ((split '=' m).headD [])

/-- The body of the callback of `varMatch.forEach`: what it pushes for the match `m`. -/
def unusedVariableStep (code m : Str) : Except JsError (List Issue) := do
  let varName := varNameOf m
  let re ← wordRegExp varName
  let usageCount := (matchAll re code).length
  if usageCount = 1 ∧ varName ≠ "_".toList then
    pure [{ type := "style"
            severity := "low"
            line := some (lineOf (fun l => includes l m) code)
            message := "Variable '" ++ String.mk varName ++ "' is assigned but never used"
            explanation := "Did you forget to use this variable, or is it unnecessary?" }]
  else pure []

/-- The call `varMatch.forEach(...)` over the matches still to visit. -/
def unusedVariableLoop (code : Str) : List Str → Except JsError (List Issue)
  | [] => pure []
  | m :: ms => do
    let here ← unusedVariableStep code m
    let rest ← unusedVariableLoop code ms
    pure (here ++ rest)

/-- Unused variable. When `code.match(...)` is `null` there is nothing to visit. -/
def unusedVariableRule (code : Str) : Except JsError (List Issue) :=
  unusedVariableLoop code (matchAll reAssign code)

/-- Missing return statement. -/
def missingReturnRule (code : Str) : List Issue :=
  if includes code "def ".toList && !includes code "return".toList
      && !includes code "print".toList then
    [{ type := "logic"
       severity := "medium"
       line := some (lineOf (fun l => includes l "def ".toList) code)
       message := "Function may not return a value"
       explanation := "Your function does not have a return statement. Should it return something?" }]
  else []

/-- The body of `if (language === 'python')`: the issues pushed, in order. -/
def pythonRules (code : Str) : Except JsError (List Issue) := do
  let indentation ← indentationRule code
  let unused ← unusedVariableRule code
  pure (baseCaseRule code ++ indentation ++ infiniteLoopRule code ++ offByOneRule code
    ++ unused ++ missingReturnRule code)

/-! ## The C and C++ battery -/

/-- The condition of the missing-semicolon check on a trimmed line; the two braces are
written by their hexadecimal escapes. -/
def lacksSemicolon (trimmed : Str) : Bool :=
  truthy trimmed &&
  !endsWith trimmed ";".toList &&
  !endsWith trimmed "\x7b".toList &&
  !endsWith trimmed "\x7d".toList &&
  !startsWith trimmed "#".toList &&
  !startsWith trimmed "//".toList &&
  !includes trimmed "if".toList &&
  !includes trimmed "for".toList &&
  !includes trimmed "while".toList

/-- Missing semicolon: the call `lines.forEach((line, idx) => ...)` from index `idx` on. -/
def missingSemicolonLoop : Nat → List Str → List Issue
  | _, [] => []
  | idx, line :: rest =>
    (if lacksSemicolon (trim line) then
      [{ type := "syntax"
         severity := "high"
         line := some ((idx : Int) + 1)
         message := "Missing semicolon"
         explanation := "In C/C++, most statements must end with a semicolon. Did you forget one here?" }]
    else []) ++ missingSemicolonLoop (idx + 1) rest

/-- Array access without bounds checking. -/
def arrayBoundsRule (code : Str) : List Issue :=
  if test reArrayAccess code && !includes code "if".toList && !includes code "while".toList then
    [{ type := "logic"
       severity := "medium"
       line := some 1
       message := "Potential array bounds violation"
       explanation := "Are you checking if the index is within valid bounds? Accessing outside array bounds causes undefined behavior in C/C++." }]
  else []

/-- Memory leak detection. -/
def memoryLeakRule (code : Str) : List Issue :=
  if (includes code "malloc".toList || includes code "new".toList)
      && !includes code "free".toList && !includes code "delete".toList then
    [{ type := "logic"
       severity := "high"
       line := some (lineOf (fun l => includes l "malloc".toList || includes l "new".toList) code)
       message := "Potential memory leak"
       explanation := "You allocated memory but never freed it. Every malloc() needs a free(), and every new needs a delete." }]
  else []

/-- Uninitialized variable. -/
def uninitializedRule (code : Str) : List Issue :=
  if test reIntDecl code || test reFloatDecl code then
    [{ type := "logic"
       severity := "medium"
       line := some 1
       message := "Potentially uninitialized variable"
       explanation := "In C/C++, variables are not automatically initialized. Always assign a value before using it." }]
  else []

/-- The body of `if (language === 'c' || language === 'cpp')`. -/
def cRules (code : Str) : List Issue :=
  missingSemicolonLoop 0 (split '\n' code) ++ arrayBoundsRule code ++ memoryLeakRule code
    ++ uninitializedRule code

/-! ## The C# battery -/

/-- Null reference. -/
def nullReferenceRule (code : Str) : List Issue :=
  if includes code ".".toList && !includes code "if".toList && !includes code "?.".toList then
    [{ type := "logic"
       severity := "medium"
       line := some 1
       message := "Potential null reference exception"
       explanation := "Are you checking if the object is null before accessing its members? Consider using null-conditional operator (?.) or null checks." }]
  else []

/-- Missing using statement for IDisposable. -/
def disposeRule (code : Str) : List Issue :=
  if (includes code "new StreamReader".toList || includes code "new FileStream".toList)
      && !includes code "using".toList then
    [{ type := "style"
       severity := "medium"
       line := some (lineOf
         (fun l => includes l "StreamReader".toList || includes l "FileStream".toList) code)
       message := "Resource not properly disposed"
       explanation := "Use a using statement to ensure resources are properly disposed. This prevents resource leaks." }]
  else []

/-- Catching generic Exception. -/
def genericCatchRule (code : Str) : List Issue :=
  if includes code "catch (Exception".toList then
    [{ type := "style"
       severity := "low"
       line := some (lineOf (fun l => includes l "catch (Exception".toList) code)
       message := "Catching generic Exception"
       explanation := "Consider catching more specific exception types. This makes your error handling more precise and maintainable." }]
  else []

/-- The body of `if (language === 'csharp')`. -/
def csharpRules (code : Str) : List Issue :=
  nullReferenceRule code ++ disposeRule code ++ genericCatchRule code

/-! ## The detector -/

/-- The issue pushed when no specific issue was found. -/
def successIssue : Issue :=
  { type := "success"
    severity := "none"
    line := none
    message := "No obvious issues detected!"
    explanation := "Your code structure looks good. Consider testing it with different inputs to verify it works as expected." }

/-- The array `issues` when the three language blocks have run: what the battery of
`language` pushed. -/
def ruleIssues (code : Str) (language : String) : Except JsError (List Issue) := do
  let python ← if language = "python" then pythonRules code else pure []
  let c := if language = "c" ∨ language = "cpp" then cRules code else []
  let csharp := if language = "csharp" then csharpRules code else []
  pure (python ++ c ++ csharp)

/-- The function `detectIssues(code, language)`. -/
def detectIssues (code : String) (language : String) : Except JsError (List Issue) := do
  let issues ← ruleIssues code.data language
  if issues.length = 0 then pure [successIssue] else pure issues

/-! ## The battery without exceptions -/

/-- The condition under which the indentation loop pushes at index `i`. -/
def violatesAt (lines : List Str) (i : Nat) : Bool :=
  match lines[i]? with
  | none => false
  | some li =>
    truthy (trim li) && !startsWith li " ".toList && !startsWith li "def".toList
      && !startsWith li "#".toList && decide (i > 0) &&
    match lines[i - 1]? with
    | none => false
    | some lp => endsWith (trim lp) ":".toList

/-! ## The battery as a list -/

/-- The indentation issue pushed for the line of index `i`. -/
def indentationIssue (i : Nat) : Issue :=
  { type := "syntax"
    severity := "high"
    line := some ((i : Int) + 1)
    message := "Indentation error"
    explanation := "Python requires consistent indentation. Code inside a function or after a colon must be indented." }

/-- What the indentation rule pushes. -/
def indentationIssues (code : Str) : List Issue :=
  if test reIndentGate code && includes code "def ".toList then
    match (List.range (split '\n' code).length).find? (violatesAt (split '\n' code)) with
    | some i => [indentationIssue i]
    | none => []
  else []

/-- The number of matches of the whole-word pattern of `varName` in `code`. -/
def usageCount (code varName : Str) : Nat :=
  (matchAll (wordPattern varName) code).length

/-- The unused-variable issue pushed for the match `m`. -/
def unusedIssue (code m : Str) : Issue :=
  { type := "style"
    severity := "low"
    line := some (lineOf (fun l => includes l m) code)
    message := "Variable '" ++ String.mk (varNameOf m) ++ "' is assigned but never used"
    explanation := "Did you forget to use this variable, or is it unnecessary?" }

/-- What the unused-variable rule pushes for the match `m`. -/
def unusedIssuesOf (code m : Str) : List Issue :=
  if usageCount code (varNameOf m) = 1 ∧ varNameOf m ≠ "_".toList then [unusedIssue code m]
  else []

/-- What the unused-variable rule pushes. -/
def unusedIssues (code : Str) : List Issue :=
  (matchAll reAssign code).flatMap (unusedIssuesOf code)

/-- What the Python battery pushes. -/
def pythonIssues (code : Str) : List Issue :=
  baseCaseRule code ++ indentationIssues code ++ infiniteLoopRule code ++ offByOneRule code
    ++ unusedIssues code ++ missingReturnRule code

/-- What the battery of `language` pushes. -/
def batteryIssues (code : Str) (language : String) : List Issue :=
  (if language = "python" then pythonIssues code else [])
    ++ (if language = "c" ∨ language = "cpp" then cRules code else [])
    ++ (if language = "csharp" then csharpRules code else [])

/-- The character before the position reached after reading `u`, `prev` being the character
before `u`. -/
def lastOr : Option Char → Str → Option Char
  | prev, [] => prev
  | _, c :: u => lastOr (some c) u

/-! ## Vocabulary of the specification -/

/-- An issue of a rule battery: its type is one of `logic`, `syntax`, `concept`, `style` and
its severity one of `high`, `medium`, `low`. -/
def IsRuleIssue (i : Issue) : Prop :=
  (i.type = "logic" ∨ i.type = "syntax" ∨ i.type = "concept" ∨ i.type = "style") ∧
  (i.severity = "high" ∨ i.severity = "medium" ∨ i.severity = "low")

/-- Whether `name` occurs as a whole word at the start of `s`, where `prev` is the character
before `s`: the characters of `name` are there, and neither the character before them nor the
character after them is a word character. -/
def wholeWordAt (name : Str) (prev : Option Char) (s : Str) : Bool :=
  name.isPrefixOf s && !isWordAt prev && !isWordAt (s.drop name.length).head?

/-- The number of positions of `s` at which `name` occurs as a whole word. -/
def wholeWordOccurrencesFrom (name : Str) : Option Char → Str → Nat
  | prev, [] => if wholeWordAt name prev [] then 1 else 0
  | prev, c :: s =>
    (if wholeWordAt name prev (c :: s) then 1 else 0) + wholeWordOccurrencesFrom name (some c) s

/-- The number of occurrences of `name` in `code` as a whole word. -/
def wholeWordOccurrences (name code : Str) : Nat :=
  wholeWordOccurrencesFrom name none code


/-! ## The feedback generator (`src/utils/feedbackGenerator.js`) -/

/-- A teaching entry. The field `exampleText` is the field `example` of the program. -/
structure Teaching where
  concept : String
  explanation : String
  exampleText : String
  deriving DecidableEq, Repr

/-- The feedback record. -/
structure Feedback where
  summary : String
  teaching : List Teaching
  questions : List String
  nextSteps : List String
  deriving DecidableEq, Repr

/-- The first statement of the callback of `issues.forEach`: the base-case trigger. -/
def pushBaseCase (skillLevel : String) (feedback : Feedback) (issue : Issue) : Feedback :=
  if issue.type = "logic" ∧ includes issue.message.data "base case".toList = true then
    if skillLevel = "beginner" then
      { feedback with
        teaching := feedback.teaching ++
          [{ concept := "Recursive Base Cases"
             explanation := "Every recursive function needs a base case - a condition where it stops calling itself. Your base case should handle ALL stopping conditions, not just one value."
             exampleText := "For factorial, both 0! and 1! equal 1, so use: if n <= 1: return 1" }]
        questions := feedback.questions ++
          ["What would happen if someone calls factorial(0)? Walk through the steps."] }
    else
      { feedback with
        teaching := feedback.teaching ++
          [{ concept := "Edge Case Handling"
             explanation := "Your base case needs to handle edge cases. Consider: what are all the valid inputs that should stop the recursion?"
             exampleText := "n <= 1 covers both 0 and 1, preventing infinite recursion." }] }
  else feedback

/-- The second statement of the callback: the infinite-loop trigger. -/
def pushInfiniteLoop (feedback : Feedback) (issue : Issue) : Feedback :=
  if issue.type = "logic" ∧ includes issue.message.data "infinite loop".toList = true then
    { feedback with
      teaching := feedback.teaching ++
        [{ concept := "Loop Termination"
           explanation := "Every loop needs a way to exit. Without a break statement or a condition that becomes false, your loop will run forever."
           exampleText := "Add a break statement when a certain condition is met, or use a condition that will eventually become false." }]
      questions := feedback.questions ++
        ["Under what condition should this loop stop? How can you express that in code?"] }
  else feedback

/-- The third statement of the callback: the memory-leak trigger. -/
def pushMemoryLeak (feedback : Feedback) (issue : Issue) : Feedback :=
  if issue.type = "logic" ∧ includes issue.message.data "memory leak".toList = true then
    { feedback with
      teaching := feedback.teaching ++
        [{ concept := "Memory Management"
           explanation := "In C/C++, memory you allocate must be manually freed. Failing to do so causes memory leaks."
           exampleText := "int* ptr = new int[10]; // ... use it ... delete[] ptr;" }]
      questions := feedback.questions ++
        ["Where in your code should you free the allocated memory?"] }
  else feedback

/-- The fourth statement of the callback: the semicolon trigger. -/
def pushSemicolon (skillLevel : String) (feedback : Feedback) (issue : Issue) : Feedback :=
  if issue.type = "syntax" ∧ includes issue.message.data "semicolon".toList = true then
    if skillLevel = "beginner" then
      { feedback with
        teaching := feedback.teaching ++
          [{ concept := "Statement Terminators"
             explanation := "In C/C++/Java/C#, most statements end with a semicolon. It tells the compiler where one statement ends and another begins."
             exampleText := "int x = 5; // semicolon required" }] }
    else feedback
  else feedback

/-- The fifth statement of the callback: the null-reference trigger. -/
def pushNullReference (feedback : Feedback) (issue : Issue) : Feedback :=
  if includes issue.message.data "null reference".toList = true then
    { feedback with
      teaching := feedback.teaching ++
        [{ concept := "Null Safety"
           explanation := "In C#, accessing members of a null object throws a NullReferenceException. Always check for null or use null-safe operators."
           exampleText := "string result = myObject?.ToString() ?? \"default\";" }]
      questions := feedback.questions ++
        ["What happens if the object is null when you try to access its properties?"] }
  else feedback

/-- The body of the callback of `issues.forEach`: the feedback after the pushes made for
`issue`. Its five statements run in turn, on the same issue. -/
def pushTeaching (skillLevel : String) (feedback : Feedback) (issue : Issue) : Feedback :=
  let feedback := pushBaseCase skillLevel feedback issue
  let feedback := pushInfiniteLoop feedback issue
  let feedback := pushMemoryLeak feedback issue
  let feedback := pushSemicolon skillLevel feedback issue
  pushNullReference feedback issue

/-- The function `generateFeedback(issues, skillLevel)`. The count `highSeverity` is written
into the summary in decimal. -/
def generateFeedback (issues : List Issue) (skillLevel : String) : Feedback :=
  let feedback : Feedback := { summary := "", teaching := [], questions := [], nextSteps := [] }
  let highSeverity := (issues.filter (fun i => i.severity == "high")).length
  let hasLogicIssues := issues.any (fun i => i.type == "logic")
  if issues[0]?.map Issue.type = some "success" then
    { feedback with
      summary :=
        if skillLevel = "beginner" then "Great work! Your code looks solid. Keep practicing!"
        else "Code structure is sound. Consider edge cases and optimization."
      nextSteps :=
        ["Test your code with various inputs",
         "Think about edge cases (empty input, very large numbers, etc.)",
         "Consider time and space complexity"] }
  else
    let feedback :=
      { feedback with
        summary :=
          if highSeverity > 0 then
            if skillLevel = "beginner" then
              "I found " ++ toString highSeverity ++ " critical issue"
                ++ (if highSeverity > 1 then "s" else "")
                ++ " that will prevent your code from running correctly. Let's work through them together!"
            else
              toString highSeverity ++ " critical issue"
                ++ (if highSeverity > 1 then "s" else "")
                ++ " detected. Review the base cases and control flow."
          else "Your code runs, but there are some improvements we can make." }
    let feedback := issues.foldl (pushTeaching skillLevel) feedback
    { feedback with
      nextSteps :=
        if hasLogicIssues then
          ["Fix the logical issues identified above",
           "Test your code with edge cases",
           "Add comments explaining your logic"]
        else
          ["Run your code with test cases",
           "Consider code readability and style",
           "Think about performance optimization"] }

/-- The function `getSeverityColor(severity)`. -/
def getSeverityColor (severity : String) : String :=
  if severity = "high" then "text-red-600 bg-red-50 border-red-200"
  else if severity = "medium" then "text-yellow-600 bg-yellow-50 border-yellow-200"
  else if severity = "low" then "text-blue-600 bg-blue-50 border-blue-200"
  else "text-green-600 bg-green-50 border-green-200"

/-! ## The pushes of the feedback generator as lists -/

/-- The feedback record before anything is pushed. -/
def emptyFeedback : Feedback :=
  { summary := "", teaching := [], questions := [], nextSteps := [] }

/-- The teaching entries the callback pushes for `issue`. -/
def teachingOf (skillLevel : String) (issue : Issue) : List Teaching :=
  (pushTeaching skillLevel emptyFeedback issue).teaching

/-- The questions the callback pushes for `issue`. -/
def questionsOf (skillLevel : String) (issue : Issue) : List String :=
  (pushTeaching skillLevel emptyFeedback issue).questions

/-- A statement of the callback only appends to the teaching entries and to the questions,
and what it appends does not depend on the feedback so far. -/
def Appends (f : Feedback → Feedback) : Prop :=
  ∀ feedback : Feedback,
    f feedback =
      { summary := feedback.summary
        teaching := feedback.teaching ++ (f emptyFeedback).teaching
        questions := feedback.questions ++ (f emptyFeedback).questions
        nextSteps := feedback.nextSteps }

/-! ## The copies embedded in the UI component (`src/App.js`) -/

/-- The function `detectIssues(code, lang)` of `App.js`. It has the Python block only, which is
the Python block of `codeAnalyzer.js` with the parameter named `lang`, statement for statement,
hence `pythonRules`; the fallback follows it. -/
def App.detectIssues (code : String) (lang : String) : Except JsError (List Issue) := do
  let issues ← if lang = "python" then pythonRules code.data else pure []
  if issues.length = 0 then pure [successIssue] else pure issues

/-- The body of the callback of `issues.forEach` in `App.js`: the base-case statement and the
infinite-loop statement, which are those of `feedbackGenerator.js`, and no other. -/
def App.pushTeaching (level : String) (feedback : Feedback) (issue : Issue) : Feedback :=
  let feedback := pushBaseCase level feedback issue
  pushInfiniteLoop feedback issue

/-- The function `generateFeedback(issues, level)` of `App.js`. -/
def App.generateFeedback (issues : List Issue) (level : String) : Feedback :=
  let feedback : Feedback := { summary := "", teaching := [], questions := [], nextSteps := [] }
  let highSeverity := (issues.filter (fun i => i.severity == "high")).length
  let hasLogicIssues := issues.any (fun i => i.type == "logic")
  if issues[0]?.map Issue.type = some "success" then
    { feedback with
      summary :=
        if level = "beginner" then "Great work! Your code looks solid. Keep practicing!"
        else "Code structure is sound. Consider edge cases and optimization."
      nextSteps :=
        ["Test your code with various inputs",
         "Think about edge cases (empty input, very large numbers, etc.)",
         "Consider time and space complexity"] }
  else
    let feedback :=
      { feedback with
        summary :=
          if highSeverity > 0 then
            if level = "beginner" then
              "I found " ++ toString highSeverity ++ " critical issue"
                ++ (if highSeverity > 1 then "s" else "")
                ++ " that will prevent your code from running correctly. Let's work through them together!"
            else
              toString highSeverity ++ " critical issue"
                ++ (if highSeverity > 1 then "s" else "")
                ++ " detected. Review the base cases and control flow."
          else "Your code runs, but there are some improvements we can make." }
    let feedback := issues.foldl (App.pushTeaching level) feedback
    { feedback with
      nextSteps :=
        if hasLogicIssues then
          ["Fix the logical issues identified above",
           "Test your code with edge cases",
           "Add comments explaining your logic"]
        else
          ["Run your code with test cases",
           "Consider code readability and style",
           "Think about performance optimization"] }

/-! ## Vocabulary of the specification, continued -/

/-- The concept of the teaching entry that the wording of a detector message calls for, for a
beginner; `none` for a message that calls for no entry. -/
def conceptFor (message : String) : Option String :=
  if message = "Incomplete base case in recursive function" then some "Recursive Base Cases"
  else if message = "Potential infinite loop" then some "Loop Termination"
  else if message = "Potential memory leak" then some "Memory Management"
  else if message = "Missing semicolon" then some "Statement Terminators"
  else if message = "Potential null reference exception" then some "Null Safety"
  else none

/-- The line of 0-based index `i` is misindented: `i` is at least 1, the line is not blank and
starts neither with a space nor with `def` nor with `#`, and the line before it, once trimmed,
ends with a colon. -/
def MisindentedAt (lines : List Str) (i : Nat) : Prop :=
  1 ≤ i ∧ ∃ line before, lines[i]? = some line ∧ lines[i - 1]? = some before ∧
    trim line ≠ [] ∧ startsWith line " ".toList = false ∧
    startsWith line "def".toList = false ∧ startsWith line "#".toList = false ∧
    endsWith (trim before) ":".toList = true

/-- Whether a space is directly followed by the letter `r` somewhere in `s`. -/
def spaceBeforeR : Str → Bool
  | [] => false
  | c :: s => (c == ' ' && s.head? == some 'r') || spaceBeforeR s

/-- An issue with the given type and message, and nothing else. -/
def probe (type message : String) : Issue :=
  { type := type, severity := "", line := none, message := message, explanation := "" }

/-- The issue carries a line number between 1 and the number of lines of the code. -/
def LineInRange (code : Str) (x : Issue) : Prop :=
  ∃ k : Nat, x.line = some (k : Int) ∧ 1 ≤ k ∧ k ≤ (split '\n' code).length

/-- Whether one of the three triggers that `App.js` lacks fires on the issue: the memory-leak,
the semicolon or the null-reference trigger. -/
def extraTrigger (issue : Issue) : Bool :=
  (issue.type == "logic" && includes issue.message.data "memory leak".toList) ||
  (issue.type == "syntax" && includes issue.message.data "semicolon".toList) ||
  includes issue.message.data "null reference".toList

/-! ## The C, C++ and C# batteries as lists -/

/-- The missing-semicolon issue pushed for the line of index `idx`. -/
def semicolonIssue (idx : Nat) : Issue :=
  { type := "syntax"
    severity := "high"
    line := some ((idx : Int) + 1)
    message := "Missing semicolon"
    explanation := "In C/C++, most statements must end with a semicolon. Did you forget one here?" }
theorem lineAt_of_lt {lines : List Str} {i : Nat} (h : i < lines.length) :
    lineAt lines i = .ok (lines[i]) := by
  simp [lineAt, List.getElem?_eq_getElem h]

theorem indentationViolation_of_lt {lines : List Str} {i : Nat} (h : i < lines.length) :
    indentationViolation lines i = .ok (violatesAt lines i) := by
  have h1 : i - 1 < lines.length := by omega
  simp only [indentationViolation, violatesAt, lineAt_of_lt h, lineAt_of_lt h1,
    List.getElem?_eq_getElem h, List.getElem?_eq_getElem h1, bind, Except.bind, pure, Except.pure]
  split_ifs <;> simp_all

theorem indentationLoop_eq (lines : List Str) :
    ∀ is : List Nat, (∀ i ∈ is, i < lines.length) →
      indentationLoop lines is = .ok (is.find? (violatesAt lines)) := by
  intro is
  induction is with
  | nil => intro _; rfl
  | cons i rest ih =>
    intro h
    have hi : i < lines.length := h i (List.mem_cons_self _ _)
    have hrest := ih (fun j hj => h j (List.mem_cons_of_mem _ hj))
    simp only [indentationLoop, indentationViolation_of_lt hi, bind, Except.bind, List.find?_cons]
    cases hv : violatesAt lines i <;> simp [hrest, pure, Except.pure]

/-! ## Character classes -/

theorem isWordChar_toNat {c : Char} (h : isWordChar c = true) :
    (48 ≤ c.toNat ∧ c.toNat ≤ 57) ∨ (65 ≤ c.toNat ∧ c.toNat ≤ 90) ∨
      (97 ≤ c.toNat ∧ c.toNat ≤ 122) ∨ c.toNat = 95 := by
  simp only [isWordChar, Char.isAlphanum, Char.isAlpha, Char.isUpper, Char.isLower, Char.isDigit,
    Bool.or_eq_true, Bool.and_eq_true, decide_eq_true_eq, beq_iff_eq] at h
  rcases h with ((⟨h1, h2⟩ | ⟨h1, h2⟩) | ⟨h1, h2⟩) | h
  · right; left; exact ⟨h1, h2⟩
  · right; right; left; exact ⟨h1, h2⟩
  · left; exact ⟨h1, h2⟩
  · right; right; right; subst h; rfl

theorem not_isSpace_of_isWordChar {c : Char} (h : isWordChar c = true) : isSpace c = false := by
  have := isWordChar_toNat h
  simp only [isSpace, isWhiteSpace, isLineTerminator, Bool.or_eq_false_iff, beq_eq_false_iff_ne,
    Bool.and_eq_false_iff, decide_eq_false_iff_not, ne_eq]
  omega

theorem ne_of_isWordChar {c d : Char} (h : isWordChar c = true) (hd : isWordChar d = false) :
    c ≠ d := by
  rintro rfl; simp [h] at hd

theorem ne_of_isSpace {c d : Char} (h : isSpace c = true) (hd : isSpace d = false) :
    c ≠ d := by
  rintro rfl; simp [h] at hd

/-! ## Shape of a match -/

theorem greedy_some {p : Char → Bool} {k : Option Char → Str → Option Str} :
    ∀ (s : Str) (prev : Option Char) (m : Str), greedy p k prev s = some m →
      ∃ a b prev1 s1, m = a ++ b ∧ (∀ c ∈ a, p c = true) ∧ k prev1 s1 = some b := by
  intro s
  induction s with
  | nil =>
    intro prev m h
    exact ⟨[], m, prev, [], rfl, by simp, h⟩
  | cons c s ih =>
    intro prev m h
    simp only [greedy] at h
    by_cases hp : p c = true
    · simp only [hp, if_true] at h
      cases hg : greedy p k (some c) s with
      | none =>
        rw [hg] at h
        exact ⟨[], m, prev, c :: s, rfl, by simp, h⟩
      | some m1 =>
        rw [hg] at h
        obtain ⟨a, b, prev1, s1, rfl, ha, hk⟩ := ih _ _ hg
        refine ⟨c :: a, b, prev1, s1, ?_, ?_, hk⟩
        · simpa using h.symm
        · intro d hd
          rcases List.mem_cons.1 hd with rfl | hd
          · exact hp
          · exact ha d hd
    · simp only [hp] at h
      exact ⟨[], m, prev, c :: s, rfl, by simp, h⟩

/-- A match of the assignment pattern is a non-empty run of word characters, a run of spaces,
an equals sign, and the rest. -/
theorem matchHere_reAssign {prev : Option Char} {s m : Str}
    (h : matchHere reAssign prev s = some m) :
    ∃ w sp rest, m = w ++ sp ++ '=' :: rest ∧ w ≠ [] ∧ (∀ c ∈ w, isWordChar c = true) ∧
      (∀ c ∈ sp, isSpace c = true) := by
  cases s with
  | nil => simp [reAssign, matchHere] at h
  | cons c s =>
    simp only [reAssign, matchHere] at h
    by_cases hc : isWordChar c = true
    · simp only [hc, if_true, Option.map_eq_some'] at h
      obtain ⟨m1, hg, rfl⟩ := h
      obtain ⟨a, b, prev1, s1, rfl, ha, hk⟩ := greedy_some _ _ _ hg
      obtain ⟨sp, b2, prev2, s2, rfl, hsp, hk2⟩ := greedy_some _ _ _ hk
      cases s2 with
      | nil => simp at hk2
      | cons d s2 =>
        dsimp only at hk2
        by_cases hd : (d == '=') = true
        · simp only [hd, if_true, Option.map_eq_some'] at hk2
          obtain ⟨rest, _, rfl⟩ := hk2
          have hd' : d = '=' := by simpa using hd
          subst hd'
          refine ⟨c :: a, sp, rest, by simp, by simp, ?_, hsp⟩
          intro x hx
          rcases List.mem_cons.1 hx with rfl | hx
          · exact hc
          · exact ha x hx
        · simp [hd] at hk2
    · simp [hc] at h

theorem mem_matchAllFrom {re : Regex} :
    ∀ (s : Str) (k : Nat) (prev : Option Char) (m : Str), m ∈ matchAllFrom re k prev s →
      ∃ prev1 s1, matchHere re prev1 s1 = some m := by
  intro s
  induction s with
  | nil =>
    intro k prev m h
    cases k with
    | zero =>
      simp only [matchAllFrom] at h
      cases hm : matchHere re prev [] with
      | none => simp [hm] at h
      | some m1 =>
        simp only [hm, List.mem_singleton] at h
        exact ⟨prev, [], by rw [hm, h]⟩
    | succ k => simp [matchAllFrom] at h
  | cons c s ih =>
    intro k prev m h
    cases k with
    | zero =>
      simp only [matchAllFrom] at h
      cases hm : matchHere re prev (c :: s) with
      | none =>
        rw [hm] at h
        exact ih _ _ _ h
      | some m1 =>
        rw [hm] at h
        rcases List.mem_cons.1 h with rfl | h
        · exact ⟨prev, c :: s, hm⟩
        · exact ih _ _ _ h
    | succ k =>
      simp only [matchAllFrom] at h
      exact ih _ _ _ h

/-! ## The extracted variable name -/

theorem split_headD_append (sep : Char) :
    ∀ (u v : Str), (∀ x ∈ u, x ≠ sep) → (split sep (u ++ sep :: v)).headD [] = u := by
  intro u
  induction u with
  | nil => intro v _; simp [split]
  | cons x u ih =>
    intro v h
    have hx : x ≠ sep := h x (List.mem_cons_self _ _)
    have := ih v (fun y hy => h y (List.mem_cons_of_mem _ hy))
    simp only [List.cons_append, split, hx, if_false]
    cases hs : split sep (u ++ sep :: v) with
    | nil => simp [hs] at this; simp [this]
    | cons l ls => simp [hs] at this; simp [this]

theorem dropWhile_append_of_all {p : Char → Bool} :
    ∀ (a b : Str), (∀ c ∈ a, p c = true) → (a ++ b).dropWhile p = b.dropWhile p := by
  intro a
  induction a with
  | nil => intro b _; rfl
  | cons x a ih =>
    intro b h
    simp [List.dropWhile, h x (List.mem_cons_self _ _),
      ih b (fun y hy => h y (List.mem_cons_of_mem _ hy))]

theorem dropWhile_of_head {p : Char → Bool} {a : Str} (h : ∀ c, a.head? = some c → p c = false) :
    a.dropWhile p = a := by
  cases a with
  | nil => rfl
  | cons x a => simp [List.dropWhile, h x rfl]

theorem trim_word_append {w sp : Str} (hw : ∀ c ∈ w, isWordChar c = true)
    (hsp : ∀ c ∈ sp, isSpace c = true) : trim (w ++ sp) = w := by
  have hws : ∀ c ∈ w, isSpace c = false := fun c hc => not_isSpace_of_isWordChar (hw c hc)
  unfold trim
  cases w with
  | nil =>
    have h1 : sp.dropWhile isSpace = [] := List.dropWhile_eq_nil_iff.2 hsp
    simp [h1]
  | cons x w =>
    have h1 : ((x :: w) ++ sp).dropWhile isSpace = (x :: w) ++ sp := by
      simp [List.dropWhile, hws x (List.mem_cons_self _ _)]
    rw [h1, List.reverse_append, dropWhile_append_of_all _ _ (by simpa using hsp)]
    rw [dropWhile_of_head, List.reverse_reverse]
    intro c hc
    apply hws
    have : c ∈ (x :: w).reverse := List.mem_of_mem_head? hc
    rcases List.mem_reverse.1 this with h2
    exact h2

theorem varNameOf_match {prev : Option Char} {s m : Str}
    (h : matchHere reAssign prev s = some m) :
    varNameOf m ≠ [] ∧ ∀ c ∈ varNameOf m, isWordChar c = true := by
  obtain ⟨w, sp, rest, rfl, hne, hw, hsp⟩ := matchHere_reAssign h
  have hsplit : (split '=' (w ++ sp ++ '=' :: rest)).headD [] = w ++ sp := by
    apply split_headD_append
    intro x hx
    rcases List.mem_append.1 hx with hx | hx
    · exact ne_of_isWordChar (hw x hx) (by decide)
    · exact ne_of_isSpace (hsp x hx) (by decide)
  rw [varNameOf, hsplit, trim_word_append hw hsp]
  exact ⟨hne, hw⟩

theorem varNameOf_mem_matchAll {code m : Str} (h : m ∈ matchAll reAssign code) :
    varNameOf m ≠ [] ∧ ∀ c ∈ varNameOf m, isWordChar c = true := by
  obtain ⟨prev, s, hm⟩ := mem_matchAllFrom _ _ _ _ h
  exact varNameOf_match hm

theorem indentationRule_eq (code : Str) :
    indentationRule code = .ok (indentationIssues code) := by
  unfold indentationRule indentationIssues
  split_ifs with h
  · simp only [bind, Except.bind,
      indentationLoop_eq (split '\n' code) _ (fun i hi => List.mem_range.1 hi)]
    cases (List.range (split '\n' code).length).find? (violatesAt (split '\n' code)) <;> rfl
  · rfl

theorem unusedVariableStep_eq {code m : Str} (h : ∀ c ∈ varNameOf m, isWordChar c = true) :
    unusedVariableStep code m = .ok (unusedIssuesOf code m) := by
  have hall : (varNameOf m).all isWordChar = true := List.all_eq_true.2 h
  simp only [unusedVariableStep, wordRegExp, hall, if_true, bind, Except.bind, unusedIssuesOf,
    usageCount, unusedIssue]
  split_ifs <;> rfl

theorem unusedVariableLoop_eq (code : Str) :
    ∀ ms : List Str, (∀ m ∈ ms, ∀ c ∈ varNameOf m, isWordChar c = true) →
      unusedVariableLoop code ms = .ok (ms.flatMap (unusedIssuesOf code)) := by
  intro ms
  induction ms with
  | nil => intro _; rfl
  | cons m ms ih =>
    intro h
    simp only [unusedVariableLoop, unusedVariableStep_eq (h m (List.mem_cons_self _ _)),
      ih (fun x hx => h x (List.mem_cons_of_mem _ hx)), bind, Except.bind, pure, Except.pure,
      List.flatMap_cons]

theorem unusedVariableRule_eq (code : Str) :
    unusedVariableRule code = .ok (unusedIssues code) :=
  unusedVariableLoop_eq code _ (fun _ hm => (varNameOf_mem_matchAll hm).2)

theorem pythonRules_eq (code : Str) : pythonRules code = .ok (pythonIssues code) := by
  simp only [pythonRules, indentationRule_eq, unusedVariableRule_eq, bind, Except.bind,
    pure, Except.pure, pythonIssues]

theorem ruleIssues_eq (code : Str) (language : String) :
    ruleIssues code language = .ok (batteryIssues code language) := by
  unfold ruleIssues batteryIssues
  by_cases h : language = "python"
  · simp only [h, if_true, pythonRules_eq, bind, Except.bind, pure, Except.pure]
  · simp only [h, if_false, bind, Except.bind, pure, Except.pure]

theorem detectIssues_eq (code : String) (language : String) :
    detectIssues code language =
      .ok (if batteryIssues code.data language = [] then [successIssue]
        else batteryIssues code.data language) := by
  simp only [detectIssues, ruleIssues_eq, bind, Except.bind, pure, Except.pure,
    List.length_eq_zero]
  split_ifs <;> rfl

/-! ## Types and severities of the pushed issues -/

theorem baseCaseRule_kind {code : Str} {i : Issue} (h : i ∈ baseCaseRule code) :
    i.type = "logic" ∧ i.severity = "high" ∧
      i.message = "Incomplete base case in recursive function" := by
  unfold baseCaseRule at h
  split_ifs at h
  · rw [List.mem_singleton] at h; subst h; exact ⟨rfl, rfl, rfl⟩
  · simp at h

theorem indentationIssues_kind {code : Str} {i : Issue} (h : i ∈ indentationIssues code) :
    i.type = "syntax" ∧ i.severity = "high" ∧ i.message = "Indentation error" := by
  unfold indentationIssues at h
  split_ifs at h
  · split at h
    · rw [List.mem_singleton] at h; subst h; exact ⟨rfl, rfl, rfl⟩
    · simp at h
  · simp at h

theorem infiniteLoopRule_kind {code : Str} {i : Issue} (h : i ∈ infiniteLoopRule code) :
    i.type = "logic" ∧ i.severity = "medium" ∧ i.message = "Potential infinite loop" := by
  unfold infiniteLoopRule at h
  split_ifs at h
  · rw [List.mem_singleton] at h; subst h; exact ⟨rfl, rfl, rfl⟩
  · simp at h

theorem offByOneRule_kind {code : Str} {i : Issue} (h : i ∈ offByOneRule code) :
    i.type = "concept" ∧ i.severity = "low" ∧ i.message = "Potential off-by-one error" := by
  unfold offByOneRule at h
  split_ifs at h
  · rw [List.mem_singleton] at h; subst h; exact ⟨rfl, rfl, rfl⟩
  · simp at h

theorem mem_unusedIssues {code : Str} {i : Issue} :
    i ∈ unusedIssues code ↔
      ∃ m ∈ matchAll reAssign code, usageCount code (varNameOf m) = 1 ∧
        varNameOf m ≠ "_".toList ∧ i = unusedIssue code m := by
  unfold unusedIssues unusedIssuesOf
  rw [List.mem_flatMap]
  constructor
  · rintro ⟨m, hm, hi⟩
    split_ifs at hi with hc
    · exact ⟨m, hm, hc.1, hc.2, List.mem_singleton.1 hi⟩
    · simp at hi
  · rintro ⟨m, hm, h1, h2, rfl⟩
    exact ⟨m, hm, by rw [if_pos ⟨h1, h2⟩]; exact List.mem_singleton.2 rfl⟩

theorem unusedIssues_kind {code : Str} {i : Issue} (h : i ∈ unusedIssues code) :
    i.type = "style" ∧ i.severity = "low" := by
  obtain ⟨m, _, _, _, rfl⟩ := mem_unusedIssues.1 h
  exact ⟨rfl, rfl⟩

theorem missingReturnRule_kind {code : Str} {i : Issue} (h : i ∈ missingReturnRule code) :
    i.type = "logic" ∧ i.severity = "medium" ∧ i.message = "Function may not return a value" := by
  unfold missingReturnRule at h
  split_ifs at h
  · rw [List.mem_singleton] at h; subst h; exact ⟨rfl, rfl, rfl⟩
  · simp at h

theorem mem_pythonIssues {code : Str} {i : Issue} :
    i ∈ pythonIssues code ↔
      i ∈ baseCaseRule code ∨ i ∈ indentationIssues code ∨ i ∈ infiniteLoopRule code ∨
        i ∈ offByOneRule code ∨ i ∈ unusedIssues code ∨ i ∈ missingReturnRule code := by
  simp only [pythonIssues, List.mem_append, or_assoc]

theorem pythonIssues_kind {code : Str} {i : Issue} (h : i ∈ pythonIssues code) :
    IsRuleIssue i := by
  rcases mem_pythonIssues.1 h with h | h | h | h | h | h
  · obtain ⟨h1, h2, _⟩ := baseCaseRule_kind h; simp [IsRuleIssue, h1, h2]
  · obtain ⟨h1, h2, _⟩ := indentationIssues_kind h; simp [IsRuleIssue, h1, h2]
  · obtain ⟨h1, h2, _⟩ := infiniteLoopRule_kind h; simp [IsRuleIssue, h1, h2]
  · obtain ⟨h1, h2, _⟩ := offByOneRule_kind h; simp [IsRuleIssue, h1, h2]
  · obtain ⟨h1, h2⟩ := unusedIssues_kind h; simp [IsRuleIssue, h1, h2]
  · obtain ⟨h1, h2, _⟩ := missingReturnRule_kind h; simp [IsRuleIssue, h1, h2]

theorem missingSemicolonLoop_kind {i : Issue} :
    ∀ (lines : List Str) (idx : Nat), i ∈ missingSemicolonLoop idx lines →
      i.type = "syntax" ∧ i.severity = "high" ∧ i.message = "Missing semicolon" := by
  intro lines
  induction lines with
  | nil => intro idx h; simp [missingSemicolonLoop] at h
  | cons l rest ih =>
    intro idx h
    simp only [missingSemicolonLoop, List.mem_append] at h
    rcases h with h | h
    · split_ifs at h
      · rw [List.mem_singleton] at h; subst h; exact ⟨rfl, rfl, rfl⟩
      · simp at h
    · exact ih _ h

theorem arrayBoundsRule_kind {code : Str} {i : Issue} (h : i ∈ arrayBoundsRule code) :
    i.type = "logic" ∧ i.severity = "medium" ∧
      i.message = "Potential array bounds violation" := by
  unfold arrayBoundsRule at h
  split_ifs at h
  · rw [List.mem_singleton] at h; subst h; exact ⟨rfl, rfl, rfl⟩
  · simp at h

theorem memoryLeakRule_kind {code : Str} {i : Issue} (h : i ∈ memoryLeakRule code) :
    i.type = "logic" ∧ i.severity = "high" ∧ i.message = "Potential memory leak" := by
  unfold memoryLeakRule at h
  split_ifs at h
  · rw [List.mem_singleton] at h; subst h; exact ⟨rfl, rfl, rfl⟩
  · simp at h

theorem uninitializedRule_kind {code : Str} {i : Issue} (h : i ∈ uninitializedRule code) :
    i.type = "logic" ∧ i.severity = "medium" ∧
      i.message = "Potentially uninitialized variable" := by
  unfold uninitializedRule at h
  split_ifs at h
  · rw [List.mem_singleton] at h; subst h; exact ⟨rfl, rfl, rfl⟩
  · simp at h

theorem cRules_kind {code : Str} {i : Issue} (h : i ∈ cRules code) : IsRuleIssue i := by
  simp only [cRules, List.mem_append] at h
  rcases h with ((h | h) | h) | h
  · obtain ⟨h1, h2, _⟩ := missingSemicolonLoop_kind _ _ h; simp [IsRuleIssue, h1, h2]
  · obtain ⟨h1, h2, _⟩ := arrayBoundsRule_kind h; simp [IsRuleIssue, h1, h2]
  · obtain ⟨h1, h2, _⟩ := memoryLeakRule_kind h; simp [IsRuleIssue, h1, h2]
  · obtain ⟨h1, h2, _⟩ := uninitializedRule_kind h; simp [IsRuleIssue, h1, h2]

theorem nullReferenceRule_kind {code : Str} {i : Issue} (h : i ∈ nullReferenceRule code) :
    i.type = "logic" ∧ i.severity = "medium" ∧
      i.message = "Potential null reference exception" := by
  unfold nullReferenceRule at h
  split_ifs at h
  · rw [List.mem_singleton] at h; subst h; exact ⟨rfl, rfl, rfl⟩
  · simp at h

theorem disposeRule_kind {code : Str} {i : Issue} (h : i ∈ disposeRule code) :
    i.type = "style" ∧ i.severity = "medium" ∧ i.message = "Resource not properly disposed" := by
  unfold disposeRule at h
  split_ifs at h
  · rw [List.mem_singleton] at h; subst h; exact ⟨rfl, rfl, rfl⟩
  · simp at h

theorem genericCatchRule_kind {code : Str} {i : Issue} (h : i ∈ genericCatchRule code) :
    i.type = "style" ∧ i.severity = "low" ∧ i.message = "Catching generic Exception" := by
  unfold genericCatchRule at h
  split_ifs at h
  · rw [List.mem_singleton] at h; subst h; exact ⟨rfl, rfl, rfl⟩
  · simp at h

theorem csharpRules_kind {code : Str} {i : Issue} (h : i ∈ csharpRules code) :
    IsRuleIssue i := by
  simp only [csharpRules, List.mem_append] at h
  rcases h with (h | h) | h
  · obtain ⟨h1, h2, _⟩ := nullReferenceRule_kind h; simp [IsRuleIssue, h1, h2]
  · obtain ⟨h1, h2, _⟩ := disposeRule_kind h; simp [IsRuleIssue, h1, h2]
  · obtain ⟨h1, h2, _⟩ := genericCatchRule_kind h; simp [IsRuleIssue, h1, h2]

theorem batteryIssues_kind {code : Str} {language : String} {i : Issue}
    (h : i ∈ batteryIssues code language) : IsRuleIssue i := by
  simp only [batteryIssues, List.mem_append] at h
  rcases h with (h | h) | h
  · split_ifs at h
    · exact pythonIssues_kind h
    · simp at h
  · split_ifs at h
    · exact cRules_kind h
    · simp at h
  · split_ifs at h
    · exact csharpRules_kind h
    · simp at h

theorem IsRuleIssue.type_ne_success {i : Issue} (h : IsRuleIssue i) : i.type ≠ "success" := by
  intro hs
  rcases h.1 with h | h | h | h <;> rw [h] at hs <;> exact absurd hs (by decide)

theorem IsRuleIssue.severity_ne_none {i : Issue} (h : IsRuleIssue i) : i.severity ≠ "none" := by
  intro hs
  rcases h.2 with h | h | h <;> rw [h] at hs <;> exact absurd hs (by decide)

theorem batteryIssues_ne_success {code : Str} {language : String} :
    batteryIssues code language ≠ [successIssue] := by
  intro heq
  have hmem : successIssue ∈ batteryIssues code language := by
    rw [heq]; exact List.mem_singleton.2 rfl
  exact (batteryIssues_kind hmem).type_ne_success rfl

theorem batteryIssues_python (code : Str) : batteryIssues code "python" = pythonIssues code := by
  simp [batteryIssues]

/-- The result of the detector on Python code in terms of the issues of the Python battery. -/
theorem detectIssues_python (code : String) :
    detectIssues code "python" =
      .ok (if pythonIssues code.data = [] then [successIssue] else pythonIssues code.data) := by
  rw [detectIssues_eq, batteryIssues_python]

/-- Membership in the result of the detector on Python code, for an issue that is not of type
`success`. -/
theorem mem_detectIssues_python {code : String} {i : Issue} (hi : i.type ≠ "success") :
    (∃ issues, detectIssues code "python" = .ok issues ∧ i ∈ issues) ↔
      i ∈ pythonIssues code.data := by
  rw [detectIssues_python]
  constructor
  · rintro ⟨issues, h, hmem⟩
    have h' := (Except.ok.inj h).symm
    subst h'
    split_ifs at hmem with he
    · rw [List.mem_singleton] at hmem
      subst hmem
      exact absurd rfl hi
    · exact hmem
  · intro h
    refine ⟨_, rfl, ?_⟩
    rw [if_neg (List.ne_nil_of_mem h)]
    exact h

/-! ## The indentation loop -/

theorem violatesAt_succ {lines : List Str} {i : Nat} {prevLine nextLine : Str}
    (hprev : lines[i]? = some prevLine) (hnext : lines[i + 1]? = some nextLine)
    (hcolon : endsWith (trim prevLine) ":".toList = true) (hblank : trim nextLine ≠ [])
    (hspace : startsWith nextLine " ".toList = false)
    (hd : startsWith nextLine "def".toList = false)
    (hhash : startsWith nextLine "#".toList = false) :
    violatesAt lines (i + 1) = true := by
  have ht : truthy (trim nextLine) = true := by
    cases h : trim nextLine with
    | nil => exact absurd h hblank
    | cons _ _ => rfl
  simp only [violatesAt, hnext, Nat.add_sub_cancel, hprev, ht, hspace, hd, hhash, hcolon]
  simp

theorem indentationIssues_of_violation {code : Str} {j : Nat}
    (hgate : test reIndentGate code = true) (hdef : includes code "def ".toList = true)
    (hj : j < (split '\n' code).length) (hv : violatesAt (split '\n' code) j = true) :
    ∃ k, indentationIssues code = [indentationIssue k] := by
  unfold indentationIssues
  rw [hgate, hdef]
  cases hf : (List.range (split '\n' code).length).find? (violatesAt (split '\n' code)) with
  | some k => exact ⟨k, rfl⟩
  | none =>
    rw [List.find?_eq_none] at hf
    exact absurd hv (hf j (List.mem_range.2 hj))

/-! ## Substrings and lines -/

theorem includes_of_isPrefixOf {s p : Str} (h : p.isPrefixOf s = true) : includes s p = true := by
  cases s with
  | nil => exact h
  | cons c s => simp only [includes, h, Bool.true_or]

theorem includes_cons_of_includes {s p : Str} (c : Char) (h : includes s p = true) :
    includes (c :: s) p = true := by
  simp only [includes, h, Bool.or_true]

theorem exists_split (sep : Char) (s : Str) : ∃ l ls, split sep s = l :: ls := by
  cases s with
  | nil => exact ⟨[], [], rfl⟩
  | cons c s =>
    simp only [split]
    split_ifs
    · exact ⟨_, _, rfl⟩
    · cases split sep s with
      | nil => exact ⟨_, _, rfl⟩
      | cons l ls => exact ⟨_, _, rfl⟩

theorem split_cons_of_ne {sep c : Char} {s l : Str} {ls : List Str} (hc : c ≠ sep)
    (h : split sep s = l :: ls) : split sep (c :: s) = (c :: l) :: ls := by
  simp only [split, hc, if_false, h]

/-- A text without separator that starts `s` starts the first piece of `s`. -/
theorem isPrefixOf_head_split (sep : Char) :
    ∀ (p s : Str), (∀ x ∈ p, x ≠ sep) → p.isPrefixOf s = true →
      ∃ l ls, split sep s = l :: ls ∧ p.isPrefixOf l = true := by
  intro p
  induction p with
  | nil =>
    intro s _ _
    obtain ⟨l, ls, h⟩ := exists_split sep s
    exact ⟨l, ls, h, by simp⟩
  | cons x p ih =>
    intro s hp h
    cases s with
    | nil => simp at h
    | cons c s =>
      simp only [List.isPrefixOf_cons₂, Bool.and_eq_true, beq_iff_eq] at h
      obtain ⟨rfl, h⟩ := h
      obtain ⟨l, ls, hs, hl⟩ := ih s (fun y hy => hp y (List.mem_cons_of_mem _ hy)) h
      refine ⟨x :: l, ls, split_cons_of_ne (hp x (List.mem_cons_self _ _)) hs, ?_⟩
      simp [hl]

/-- A text without newline that occurs in the code occurs in one of its lines. -/
theorem exists_line_includes (sep : Char) (p : Str) (hp : ∀ x ∈ p, x ≠ sep) :
    ∀ s : Str, includes s p = true → ∃ l ∈ split sep s, includes l p = true := by
  intro s
  induction s with
  | nil =>
    intro h
    exact ⟨[], List.mem_singleton.2 rfl, h⟩
  | cons c s ih =>
    intro h
    simp only [includes, Bool.or_eq_true] at h
    rcases h with h | h
    · obtain ⟨l, ls, hs, hl⟩ := isPrefixOf_head_split sep p (c :: s) hp h
      exact ⟨l, by rw [hs]; exact List.mem_cons_self _ _, includes_of_isPrefixOf hl⟩
    · obtain ⟨l, hl, hin⟩ := ih h
      by_cases hc : c = sep
      · refine ⟨l, ?_, hin⟩
        simp only [split, hc, if_true]
        exact List.mem_cons_of_mem _ hl
      · obtain ⟨l0, ls, hs⟩ := exists_split sep s
        rw [split_cons_of_ne hc hs]
        rw [hs] at hl
        rcases List.mem_cons.1 hl with rfl | hl
        · exact ⟨c :: l, List.mem_cons_self _ _, includes_cons_of_includes c hin⟩
        · exact ⟨l, List.mem_cons_of_mem _ hl, hin⟩

/-- When some element satisfies `p`, `findIndex` is the index of the first one that does. -/
theorem findIndex_of_exists {α : Type} (p : α → Bool) :
    ∀ xs : List α, (∃ x ∈ xs, p x = true) →
      ∃ k : Nat, findIndex p xs = (k : Int) ∧ (∃ x, xs[k]? = some x ∧ p x = true) ∧
        ∀ j < k, ∀ y, xs[j]? = some y → p y = false := by
  intro xs
  induction xs with
  | nil => rintro ⟨x, hx, _⟩; simp at hx
  | cons a xs ih =>
    rintro ⟨x, hx, hpx⟩
    by_cases ha : p a = true
    · refine ⟨0, by simp [findIndex, ha], ⟨a, by simp, ha⟩, ?_⟩
      intro j hj; omega
    · have hex : ∃ x ∈ xs, p x = true := by
        rcases List.mem_cons.1 hx with rfl | hx
        · exact absurd hpx ha
        · exact ⟨x, hx, hpx⟩
      obtain ⟨k, hk, hat, hbefore⟩ := ih hex
      refine ⟨k + 1, ?_, ?_, ?_⟩
      · simp only [findIndex, ha, hk]
        have : ¬ ((k : Int) < 0) := by omega
        simp [this]
      · simpa using hat
      · intro j hj y hy
        cases j with
        | zero =>
          simp only [List.getElem?_cons_zero, Option.some.injEq] at hy
          subst hy
          simpa using ha
        | succ j =>
          simp only [List.getElem?_cons_succ] at hy
          exact hbefore j (by omega) y hy

/-- The line number computed for a text without newline that occurs in the code is the
1-based number of the first line in which it occurs. -/
theorem lineOf_includes {code p : Str} (hp : ∀ x ∈ p, x ≠ '\n') (h : includes code p = true) :
    ∃ k : Nat, lineOf (fun l => includes l p) code = (k : Int) + 1 ∧
      (∃ l, (split '\n' code)[k]? = some l ∧ includes l p = true) ∧
      ∀ j < k, ∀ l, (split '\n' code)[j]? = some l → includes l p = false := by
  obtain ⟨k, hk, hat, hbefore⟩ :=
    findIndex_of_exists (fun l => includes l p) (split '\n' code)
      (exists_line_includes '\n' p hp code h)
  exact ⟨k, by rw [lineOf, hk], hat, hbefore⟩

/-! ## Membership in the result -/

theorem mem_fallback_iff {issues : List Issue} {x : Issue} (hx : x.type ≠ "success") :
    x ∈ (if issues = [] then [successIssue] else issues) ↔ x ∈ issues := by
  split_ifs with h
  · rw [h, List.mem_singleton]
    constructor
    · rintro rfl; exact absurd rfl hx
    · intro h'; simp at h'
  · rfl

theorem infiniteLoopRule_cond {code : Str} {x : Issue} (h : x ∈ infiniteLoopRule code) :
    (includes code "while True".toList = true ∧ includes code "break".toList = false) ∧
      x.line = some (lineOf (fun l => includes l "while True".toList) code) := by
  unfold infiniteLoopRule at h
  split_ifs at h with hc
  · rw [List.mem_singleton] at h
    subst h
    rw [Bool.and_eq_true, Bool.not_eq_true'] at hc
    exact ⟨hc, rfl⟩
  · simp at h

theorem infiniteLoopRule_fires {code : Str} (h1 : includes code "while True".toList = true)
    (h2 : includes code "break".toList = false) : ∃ x, infiniteLoopRule code = [x] := by
  unfold infiniteLoopRule
  rw [h1, h2]
  exact ⟨_, rfl⟩

theorem missingReturnRule_cond {code : Str} {x : Issue} (h : x ∈ missingReturnRule code) :
    includes code "def ".toList = true ∧ includes code "return".toList = false ∧
      includes code "print".toList = false := by
  unfold missingReturnRule at h
  split_ifs at h with hc
  · simp only [Bool.and_eq_true, Bool.not_eq_true'] at hc
    exact ⟨hc.1.1, hc.1.2, hc.2⟩
  · simp at h

theorem missingReturnRule_fires {code : Str} (h1 : includes code "def ".toList = true)
    (h2 : includes code "return".toList = false) (h3 : includes code "print".toList = false) :
    ∃ x, missingReturnRule code = [x] := by
  unfold missingReturnRule
  rw [h1, h2, h3]
  exact ⟨_, rfl⟩

/-- Among the issues of the Python battery, only the infinite-loop rule pushes one of type
`logic`, severity `medium` and message `Potential infinite loop`. -/
theorem mem_infiniteLoopRule_of_mem {code : Str} {x : Issue} (h : x ∈ pythonIssues code)
    (ht : x.type = "logic") (hs : x.severity = "medium")
    (hm : x.message = "Potential infinite loop") : x ∈ infiniteLoopRule code := by
  rcases mem_pythonIssues.1 h with h' | h' | h' | h' | h' | h'
  · have := (baseCaseRule_kind h').2.1; rw [hs] at this; exact absurd this (by decide)
  · have := (indentationIssues_kind h').1; rw [ht] at this; exact absurd this (by decide)
  · exact h'
  · have := (offByOneRule_kind h').1; rw [ht] at this; exact absurd this (by decide)
  · have := (unusedIssues_kind h').1; rw [ht] at this; exact absurd this (by decide)
  · have := (missingReturnRule_kind h').2.2; rw [hm] at this; exact absurd this (by decide)

/-- Among the issues of the Python battery, only the missing-return rule pushes one of type
`logic`, severity `medium` and message `Function may not return a value`. -/
theorem mem_missingReturnRule_of_mem {code : Str} {x : Issue} (h : x ∈ pythonIssues code)
    (ht : x.type = "logic") (hs : x.severity = "medium")
    (hm : x.message = "Function may not return a value") : x ∈ missingReturnRule code := by
  rcases mem_pythonIssues.1 h with h' | h' | h' | h' | h' | h'
  · have := (baseCaseRule_kind h').2.1; rw [hs] at this; exact absurd this (by decide)
  · have := (indentationIssues_kind h').1; rw [ht] at this; exact absurd this (by decide)
  · have := (infiniteLoopRule_kind h').2.2; rw [hm] at this; exact absurd this (by decide)
  · have := (offByOneRule_kind h').1; rw [ht] at this; exact absurd this (by decide)
  · have := (unusedIssues_kind h').1; rw [ht] at this; exact absurd this (by decide)
  · exact h'

/-! ## The whole-word pattern -/

theorem matchHere_literal (re : Regex) :
    ∀ (u : Str) (prev : Option Char) (s : Str),
      matchHere (literal u ++ re) prev s =
        if u.isPrefixOf s = true then
          (matchHere re (lastOr prev u) (s.drop u.length)).map (fun m => u ++ m)
        else none := by
  intro u
  induction u with
  | nil => intro prev s; simp [literal, lastOr]
  | cons x u ih =>
    intro prev s
    cases s with
    | nil => simp [literal, Atom.lit, matchHere]
    | cons c s =>
      show matchHere (Atom.cls (fun d => d == x) .one :: (literal u ++ re)) prev (c :: s) = _
      simp only [matchHere, ih, List.isPrefixOf_cons₂, Bool.and_eq_true, beq_iff_eq, lastOr,
        List.length_cons, List.drop_succ_cons]
      by_cases hc : c = x
      · subst hc
        by_cases hu : u.isPrefixOf s = true
        · simp [hu, Option.map_map, Function.comp_def]
        · simp [hu]
      · have hc' : ¬ x = c := fun h => hc h.symm
        simp [hc, hc']

theorem lastOr_of_ne_nil :
    ∀ (u : Str) (prev : Option Char), u ≠ [] → ∃ c ∈ u, lastOr prev u = some c := by
  intro u
  induction u with
  | nil => intro _ h; exact absurd rfl h
  | cons x u ih =>
    intro prev _
    cases u with
    | nil => exact ⟨x, List.mem_singleton.2 rfl, rfl⟩
    | cons y u =>
      obtain ⟨c, hc, h⟩ := ih (some x) (by simp)
      exact ⟨c, List.mem_cons_of_mem _ hc, h⟩

/-- The whole-word pattern of a non-empty run of word characters matches at a position exactly
when the run occurs there as a whole word, and then it matches the run. -/
theorem matchHere_word {name : Str} (hne : name ≠ []) (hw : ∀ c ∈ name, isWordChar c = true)
    (prev : Option Char) (s : Str) :
    matchHere (wordPattern name) prev s =
      if wholeWordAt name prev s = true then some name else none := by
  obtain ⟨z, hz, hlast⟩ := lastOr_of_ne_nil name prev hne
  have hzw : isWordAt (lastOr prev name) = true := by rw [hlast]; exact hw z hz
  have hwb : ∀ (p : Option Char) (r : Str), matchHere [.wordBoundary] p r =
      if (isWordAt p != isWordAt r.head?) = true then some [] else none := by
    intro p r; simp only [matchHere]
  show matchHere (.wordBoundary :: (literal name ++ [.wordBoundary])) prev s = _
  simp only [matchHere, matchHere_literal, hwb, wholeWordAt]
  by_cases hp : name.isPrefixOf s = true
  · have hhead : isWordAt s.head? = true := by
      cases name with
      | nil => exact absurd rfl hne
      | cons x name =>
        cases s with
        | nil => simp at hp
        | cons c s =>
          simp only [List.isPrefixOf_cons₂, Bool.and_eq_true, beq_iff_eq] at hp
          rw [List.head?_cons, isWordAt, ← hp.1]
          exact hw x (List.mem_cons_self _ _)
    simp only [hp, hhead, hzw, if_true, Bool.true_and]
    cases isWordAt prev <;> cases isWordAt (List.drop name.length s).head? <;> simp
  · have hp' : name.isPrefixOf s = false := (Bool.not_eq_true _).mp hp
    simp only [hp', Bool.false_eq_true, if_false, Bool.false_and]
    simp

theorem wholeWordAt_of_isWordAt {name : Str} {prev : Option Char} {s : Str}
    (h : isWordAt prev = true) : wholeWordAt name prev s = false := by
  simp [wholeWordAt, h]

/-- The successive matches of the whole-word pattern are as many as the whole-word occurrences:
the positions passed over after a match are preceded by a word character and so hold none. -/
theorem length_matchAllFrom_word {name : Str} (hne : name ≠ [])
    (hw : ∀ c ∈ name, isWordChar c = true) :
    ∀ (s : Str) (k : Nat) (prev : Option Char),
      (0 < k → isWordAt prev = true ∧ ∀ c ∈ s.take (k - 1), isWordChar c = true) →
      (matchAllFrom (wordPattern name) k prev s).length =
        wholeWordOccurrencesFrom name prev s := by
  have hnil : ∀ prev, wholeWordAt name prev [] = false := by
    intro prev
    cases name with
    | nil => exact absurd rfl hne
    | cons x name => simp [wholeWordAt]
  intro s
  induction s with
  | nil =>
    intro k prev _
    cases k with
    | zero => simp [matchAllFrom, matchHere_word hne hw, hnil, wholeWordOccurrencesFrom]
    | succ k => simp [matchAllFrom, hnil, wholeWordOccurrencesFrom]
  | cons c s ih =>
    intro k prev hk
    cases k with
    | zero =>
      simp only [matchAllFrom, matchHere_word hne hw, wholeWordOccurrencesFrom]
      by_cases hm : wholeWordAt name prev (c :: s) = true
      · simp only [hm, if_true, List.length_cons]
        rw [ih (name.length - 1) (some c), Nat.add_comm]
        intro hpos
        cases name with
        | nil => exact absurd rfl hne
        | cons x name =>
          simp only [wholeWordAt, List.isPrefixOf_cons₂, Bool.and_eq_true, beq_iff_eq] at hm
          obtain ⟨⟨⟨hx, hpre⟩, _⟩, _⟩ := hm
          refine ⟨by rw [isWordAt, ← hx]; exact hw x (List.mem_cons_self _ _), ?_⟩
          intro d hd
          have hpre' : name <+: s := List.isPrefixOf_iff_prefix.1 hpre
          obtain ⟨t, rfl⟩ := hpre'
          simp only [List.length_cons, Nat.add_sub_cancel] at hd
          have hd' : d ∈ name := by
            have hsub : List.take (name.length - 1) (name ++ t) <+: name := by
              rw [List.take_append_of_le_length (Nat.sub_le _ _)]
              exact List.take_prefix _ _
            exact hsub.subset hd
          exact hw d (List.mem_cons_of_mem _ hd')
      · have hm' : wholeWordAt name prev (c :: s) = false := (Bool.not_eq_true _).mp hm
        simp only [hm', Bool.false_eq_true, if_false, Nat.zero_add]
        exact ih 0 (some c) (fun h => absurd h (by decide))
    | succ k =>
      obtain ⟨hprev, htake⟩ := hk (Nat.succ_pos _)
      simp only [matchAllFrom, wholeWordOccurrencesFrom, wholeWordAt_of_isWordAt hprev,
        Bool.false_eq_true, if_false, Nat.zero_add]
      apply ih
      intro hpos
      obtain ⟨k', rfl⟩ : ∃ k', k = k' + 1 := ⟨k - 1, by omega⟩
      simp only [Nat.add_sub_cancel, List.take_succ_cons] at htake
      refine ⟨htake c (List.mem_cons_self _ _), ?_⟩
      intro d hd
      exact htake d (List.mem_cons_of_mem _ hd)

/-- For a non-empty run of word characters, the usage count of the program is the number of
whole-word occurrences. -/
theorem usageCount_eq {name : Str} (hne : name ≠ []) (hw : ∀ c ∈ name, isWordChar c = true)
    (code : Str) : usageCount code name = wholeWordOccurrences name code :=
  length_matchAllFrom_word hne hw code 0 none (fun h => absurd h (by decide))

/-! ## The unused-variable issues -/

theorem flatMap_ite_eq_map_filter {α β : Type} (f : α → β) (c : α → Prop) [DecidablePred c]
    (d : α → Bool) :
    ∀ ms : List α, (∀ m ∈ ms, (c m ↔ d m = true)) →
      ms.flatMap (fun m => if c m then [f m] else []) = (ms.filter d).map f := by
  intro ms
  induction ms with
  | nil => intro _; rfl
  | cons m ms ih =>
    intro h
    have hm := h m (List.mem_cons_self _ _)
    have hrest := ih (fun x hx => h x (List.mem_cons_of_mem _ hx))
    rw [List.flatMap_cons, hrest]
    by_cases hc : c m
    · rw [if_pos hc, List.filter_cons_of_pos (hm.1 hc)]
      rfl
    · have hd : ¬ d m = true := fun hd => hc (hm.2 hd)
      rw [if_neg hc, List.filter_cons_of_neg hd]
      rfl

/-- The issues of the unused-variable rule in terms of whole-word occurrences. -/
theorem unusedIssues_eq (code : Str) :
    unusedIssues code =
      ((matchAll reAssign code).filter (fun m =>
        wholeWordOccurrences (varNameOf m) code == 1 && varNameOf m != "_".toList)).map
        (unusedIssue code) := by
  unfold unusedIssues unusedIssuesOf
  apply flatMap_ite_eq_map_filter
  intro m hm
  obtain ⟨hne, hw⟩ := varNameOf_mem_matchAll hm
  rw [usageCount_eq hne hw]
  simp

theorem filter_style_pythonIssues (code : Str) :
    (pythonIssues code).filter (fun x => x.type == "style") = unusedIssues code := by
  have hnil : ∀ l : List Issue, (∀ x ∈ l, x.type ≠ "style") →
      l.filter (fun x => x.type == "style") = [] := by
    intro l h
    rw [List.filter_eq_nil_iff]
    intro x hx hs
    exact h x hx (by simpa using hs)
  have h1 := hnil (baseCaseRule code) (fun x hx => by
    rw [(baseCaseRule_kind hx).1]; decide)
  have h2 := hnil (indentationIssues code) (fun x hx => by
    rw [(indentationIssues_kind hx).1]; decide)
  have h3 := hnil (infiniteLoopRule code) (fun x hx => by
    rw [(infiniteLoopRule_kind hx).1]; decide)
  have h4 := hnil (offByOneRule code) (fun x hx => by
    rw [(offByOneRule_kind hx).1]; decide)
  have h5 : (unusedIssues code).filter (fun x => x.type == "style") = unusedIssues code := by
    rw [List.filter_eq_self]
    intro x hx
    rw [(unusedIssues_kind hx).1]
    rfl
  have h6 := hnil (missingReturnRule code) (fun x hx => by
    rw [(missingReturnRule_kind hx).1]; decide)
  simp only [pythonIssues, List.filter_append, h1, h2, h3, h4, h5, h6, List.nil_append,
    List.append_nil]

/-- The name can be read back from the message of an unused-variable issue. -/
theorem unusedMessage_inj {a b : Str}
    (h : "Variable '" ++ String.mk a ++ "' is assigned but never used" =
      "Variable '" ++ String.mk b ++ "' is assigned but never used") : a = b := by
  have hd := congrArg String.data h
  simp only [String.data_append] at hd
  exact List.append_cancel_left (List.append_cancel_right hd)

theorem unusedMessage_head (a : Str) :
    ("Variable '" ++ String.mk a ++ "' is assigned but never used").data.head? = some 'V' := by
  simp only [String.data_append]
  rfl

/-- A message that does not start with `V` is not the message of an unused-variable issue. -/
theorem ne_unusedMessage {msg : String} {a : Str} (h : msg.data.head? ≠ some 'V') :
    msg ≠ "Variable '" ++ String.mk a ++ "' is assigned but never used" := by
  intro heq
  rw [heq, unusedMessage_head] at h
  exact h rfl

/-! ## The claims about the detector -/

/-- C1: for every code and language the detector returns a non-empty list that is either
exactly the single issue of type `success`, severity `none` and message
`No obvious issues detected!`, or contains no issue of type `success`; and it is the former
exactly when the battery of the language pushed nothing. -/
theorem detectIssues_success_exclusive (code language : String) :
    ∃ issues, detectIssues code language = .ok issues ∧ issues ≠ [] ∧
      ((issues = [successIssue] ∧ successIssue.type = "success" ∧
          successIssue.severity = "none" ∧
          successIssue.message = "No obvious issues detected!") ∨
        ∀ i ∈ issues, i.type ≠ "success") ∧
      (issues = [successIssue] ↔ ruleIssues code.data language = .ok []) := by
  rw [detectIssues_eq, ruleIssues_eq]
  by_cases h : batteryIssues code.data language = []
  · rw [if_pos h]
    exact ⟨_, rfl, by simp, Or.inl ⟨rfl, rfl, rfl, rfl⟩, ⟨fun _ => by rw [h], fun _ => rfl⟩⟩
  · refine ⟨_, rfl, ?_, ?_, ?_⟩
    · rw [if_neg h]; exact h
    · right
      rw [if_neg h]
      exact fun i hi => (batteryIssues_kind hi).type_ne_success
    · rw [if_neg h]
      constructor
      · intro heq; exact absurd heq batteryIssues_ne_success
      · intro heq; exact absurd (Except.ok.inj heq) h

/-- C2: when the result of the detector is not the single success fallback, every issue in it
has a severity among `high`, `medium`, `low` and a type among `logic`, `syntax`, `concept`,
`style`; and in every result an issue of severity `none` has type `success`. -/
theorem detectIssues_kinds (code language : String) :
    ∃ issues, detectIssues code language = .ok issues ∧
      (issues ≠ [successIssue] → ∀ i ∈ issues,
        (i.severity = "high" ∨ i.severity = "medium" ∨ i.severity = "low") ∧
        (i.type = "logic" ∨ i.type = "syntax" ∨ i.type = "concept" ∨ i.type = "style")) ∧
      (∀ i ∈ issues, i.severity = "none" → i.type = "success") := by
  rw [detectIssues_eq]
  refine ⟨_, rfl, ?_, ?_⟩
  · intro hne i hi
    split_ifs at hne hi with h
    · exact absurd rfl hne
    · exact ⟨(batteryIssues_kind hi).2, (batteryIssues_kind hi).1⟩
  · intro i hi hs
    split_ifs at hi with h
    · rw [List.mem_singleton] at hi; subst hi; rfl
    · exact absurd hs (batteryIssues_kind hi).severity_ne_none

/-- Witness of C2 on the scenario `x = 5`, `print('hi')`, whose result is not the fallback. -/
theorem detectIssues_kinds_witness :
    ∃ issues, detectIssues "x = 5\nprint('hi')" "python" = .ok issues ∧
      issues ≠ [successIssue] ∧ ∀ i ∈ issues,
        (i.severity = "high" ∨ i.severity = "medium" ∨ i.severity = "low") ∧
        (i.type = "logic" ∨ i.type = "syntax" ∨ i.type = "concept" ∨ i.type = "style") := by
  obtain ⟨issues, h, hk, _⟩ := detectIssues_kinds "x = 5\nprint('hi')" "python"
  have hne : issues ≠ [successIssue] := by
    intro heq
    rw [heq] at h
    exact absurd h (by decide)
  exact ⟨issues, h, hne, hk hne⟩

/-- C3: for a language other than `python`, `c`, `cpp` and `csharp` the detector does not raise
and returns exactly the single success fallback issue. -/
theorem detectIssues_other_language (code language : String)
    (hpy : language ≠ "python") (hc : language ≠ "c") (hcpp : language ≠ "cpp")
    (hcs : language ≠ "csharp") :
    detectIssues code language = .ok [successIssue] := by
  rw [detectIssues_eq]
  simp [batteryIssues, hpy, hc, hcpp, hcs]

/-- Witness of C3: JavaScript code containing what the Python and C rules look for. -/
theorem detectIssues_other_language_witness :
    detectIssues "while True: x = malloc(n == 1)" "javascript" = .ok [successIssue] :=
  detectIssues_other_language _ "javascript" (by decide) (by decide) (by decide) (by decide)

/-- C4: on the empty code string the detector returns exactly the single success fallback
issue, whatever the language. -/
theorem detectIssues_empty (language : String) :
    detectIssues "" language = .ok [successIssue] := by
  rw [detectIssues_eq]
  have hpy : pythonIssues [] = [] := by decide
  have hc : cRules [] = [] := by decide
  have hcs : csharpRules [] = [] := by decide
  have : batteryIssues "".data language = [] := by
    show batteryIssues [] language = []
    simp [batteryIssues, hpy, hc, hcs]
  rw [if_pos this]

/-- C5: the detector is total, it returns a list for every code and language. In the
unused-variable rule, the name extracted from any match of the assignment pattern is a
non-empty run of word characters, so the whole-word pattern is built without error; in the
indentation rule the guarded access to the previous line is in range, and the loop ends
without error. -/
theorem detectIssues_total (code language : String) :
    (∃ issues, detectIssues code language = .ok issues) ∧
    (∀ m ∈ matchAll reAssign code.data,
      varNameOf m ≠ [] ∧ (∀ c ∈ varNameOf m, isWordChar c = true) ∧
        ∃ re, wordRegExp (varNameOf m) = .ok re) ∧
    (∀ i, 0 < i → i < (split '\n' code.data).length →
      ∃ l, lineAt (split '\n' code.data) (i - 1) = .ok l) ∧
    (∃ r, indentationLoop (split '\n' code.data)
      (List.range (split '\n' code.data).length) = .ok r) := by
  refine ⟨⟨_, detectIssues_eq code language⟩, ?_, ?_, ?_⟩
  · intro m hm
    obtain ⟨hne, hw⟩ := varNameOf_mem_matchAll hm
    refine ⟨hne, hw, ?_⟩
    simp only [wordRegExp, List.all_eq_true.2 hw, if_true]
    exact ⟨_, rfl⟩
  · intro i _ hi
    exact ⟨_, lineAt_of_lt (by omega)⟩
  · exact ⟨_, indentationLoop_eq _ _ (fun i hi => List.mem_range.1 hi)⟩

/-- Witness of C5 on Python code with two assignments and a block opened by a colon. -/
theorem detectIssues_total_witness :
    (∃ issues, detectIssues "def f():\nx = 1\n_ = x" "python" = .ok issues) ∧
    (∀ m ∈ matchAll reAssign "def f():\nx = 1\n_ = x".data, varNameOf m ≠ []) ∧
    (∃ l, lineAt (split '\n' "def f():\nx = 1\n_ = x".data) (1 - 1) = .ok l) :=
  ⟨(detectIssues_total "def f():\nx = 1\n_ = x" "python").1,
   fun m hm => ((detectIssues_total "def f():\nx = 1\n_ = x" "python").2.1 m hm).1,
   (detectIssues_total "def f():\nx = 1\n_ = x" "python").2.2.1 1 (by decide) (by decide)⟩

/-- C6, as the code has it: Python code that contains `factorial` and `n == 1` and does not
contain `n <= 1` gets the issue of type `logic`, severity `high` and message
`Incomplete base case in recursive function`; code containing `n <= 1` never gets it. -/
theorem baseCase_issue (code : String) :
    (includes code.data "factorial".toList = true → includes code.data "n == 1".toList = true →
      includes code.data "n <= 1".toList = false →
      ∃ issues, detectIssues code "python" = .ok issues ∧
        ∃ x ∈ issues, x.type = "logic" ∧ x.severity = "high" ∧
          x.message = "Incomplete base case in recursive function") ∧
    (includes code.data "n <= 1".toList = true →
      ∃ issues, detectIssues code "python" = .ok issues ∧
        ∀ x ∈ issues, ¬(x.type = "logic" ∧ x.severity = "high" ∧
          x.message = "Incomplete base case in recursive function")) := by
  constructor
  · intro h1 h2 h3
    obtain ⟨x, hx⟩ : ∃ x, baseCaseRule code.data = [x] := by
      unfold baseCaseRule
      rw [h1, h2, h3]
      exact ⟨_, rfl⟩
    have hx' : x ∈ baseCaseRule code.data := by rw [hx]; exact List.mem_singleton.2 rfl
    have hk := baseCaseRule_kind hx'
    have hty : x.type ≠ "success" := by rw [hk.1]; decide
    obtain ⟨issues, h, hin⟩ :=
      (@mem_detectIssues_python code x hty).2 (mem_pythonIssues.2 (Or.inl hx'))
    exact ⟨issues, h, x, hin, hk⟩
  · intro h
    refine ⟨_, detectIssues_python code, ?_⟩
    intro x hx ⟨ht, hs, hm⟩
    have hx' : x ∈ pythonIssues code.data := by
      split_ifs at hx with he
      · rw [List.mem_singleton] at hx; subst hx; exact absurd ht (by decide)
      · exact hx
    rcases mem_pythonIssues.1 hx' with h' | h' | h' | h' | h' | h'
    · unfold baseCaseRule at h'
      rw [h] at h'
      simp at h'
    · have := (indentationIssues_kind h').1; rw [ht] at this; exact absurd this (by decide)
    · have := (infiniteLoopRule_kind h').2.1; rw [hs] at this; exact absurd this (by decide)
    · have := (offByOneRule_kind h').1; rw [ht] at this; exact absurd this (by decide)
    · have := (unusedIssues_kind h').1; rw [ht] at this; exact absurd this (by decide)
    · have := (missingReturnRule_kind h').2.1; rw [hs] at this; exact absurd this (by decide)

/-- Witness of C6 as amended: the factorial scenario of the specification gets the issue, and
its repaired version does not. -/
theorem baseCase_issue_witness :
    (∃ issues, detectIssues
        "def factorial(n):\n    if n == 1:\n        return 1\n    else:\n        return n * factorial(n - 1)\n\nprint(factorial(0))"
        "python" = .ok issues ∧
      ∃ x ∈ issues, x.type = "logic" ∧ x.severity = "high" ∧
        x.message = "Incomplete base case in recursive function") ∧
    (∃ issues, detectIssues "def factorial(n):\n    if n <= 1:\n        return 1" "python"
        = .ok issues ∧
      ∀ x ∈ issues, ¬(x.type = "logic" ∧ x.severity = "high" ∧
        x.message = "Incomplete base case in recursive function")) :=
  ⟨(baseCase_issue _).1 (by decide) (by decide) (by decide),
   (baseCase_issue "def factorial(n):\n    if n <= 1:\n        return 1").2 (by decide)⟩

/-- Counterexample to C6 as stated: a recursive function named `fact` contains `n == 1` and
not `n <= 1`, and the detector returns the success fallback only. -/
theorem baseCase_counterexample :
    includes "def fact(n):\n    if n == 1:\n        return 1\n    return n * fact(n - 1)".data
      "n == 1".toList = true ∧
    includes "def fact(n):\n    if n == 1:\n        return 1\n    return n * fact(n - 1)".data
      "n <= 1".toList = false ∧
    detectIssues "def fact(n):\n    if n == 1:\n        return 1\n    return n * fact(n - 1)"
      "python" = .ok [successIssue] ∧
    ¬ ∃ x ∈ [successIssue], x.type = "logic" ∧ x.severity = "high" ∧
        x.message = "Incomplete base case in recursive function" := by
  refine ⟨by decide, by decide, by decide, by decide⟩

/-- C7, as the code has it: for Python code that starts with one or more non-space characters
followed by a space character and that contains `def `, if some line ends, once trimmed, with
a colon and the next line is not blank and starts neither with a space nor with `def` nor with
`#`, the detector returns an issue of type `syntax`, severity `high` and message
`Indentation error`. -/
theorem indentation_issue (code : String) (i : Nat) (prevLine nextLine : Str)
    (hgate : test reIndentGate code.data = true)
    (hdef : includes code.data "def ".toList = true)
    (hprev : (split '\n' code.data)[i]? = some prevLine)
    (hnext : (split '\n' code.data)[i + 1]? = some nextLine)
    (hcolon : endsWith (trim prevLine) ":".toList = true)
    (hblank : trim nextLine ≠ [])
    (hspace : startsWith nextLine " ".toList = false)
    (hd : startsWith nextLine "def".toList = false)
    (hhash : startsWith nextLine "#".toList = false) :
    ∃ issues, detectIssues code "python" = .ok issues ∧
      ∃ x ∈ issues, x.type = "syntax" ∧ x.severity = "high" ∧
        x.message = "Indentation error" := by
  have hlt : i + 1 < (split '\n' code.data).length := by
    by_contra hge
    rw [List.getElem?_eq_none (by omega)] at hnext
    exact absurd hnext (by simp)
  obtain ⟨k, hk⟩ := indentationIssues_of_violation hgate hdef hlt
    (violatesAt_succ hprev hnext hcolon hblank hspace hd hhash)
  have hmem : indentationIssue k ∈ pythonIssues code.data :=
    mem_pythonIssues.2 (Or.inr (Or.inl (by rw [hk]; exact List.mem_singleton.2 rfl)))
  have hty : (indentationIssue k).type ≠ "success" := by
    show "syntax" ≠ "success"
    decide
  obtain ⟨issues, h, hin⟩ := (@mem_detectIssues_python code (indentationIssue k) hty).2 hmem
  exact ⟨issues, h, _, hin, rfl, rfl, rfl⟩

/-- Witness of C7 as amended: the body of a function left unindented. -/
theorem indentation_issue_witness :
    ∃ issues, detectIssues "def f():\nx = 1" "python" = .ok issues ∧
      ∃ x ∈ issues, x.type = "syntax" ∧ x.severity = "high" ∧
        x.message = "Indentation error" :=
  indentation_issue "def f():\nx = 1" 0 "def f():".data "x = 1".data (by decide) (by decide)
    (by decide) (by decide) (by decide) (by decide) (by decide) (by decide) (by decide)

/-- Counterexample to C7 as stated: the line `if x:` ends with a colon and the next line `y` is
not blank and starts neither with a space nor with `def` nor with `#`, and the detector returns
the success fallback only, because the code does not contain `def `. -/
theorem indentation_counterexample :
    (split '\n' "if x:\ny".data)[0]? = some "if x:".data ∧
    (split '\n' "if x:\ny".data)[1]? = some "y".data ∧
    endsWith (trim "if x:".data) ":".toList = true ∧
    trim "y".data ≠ [] ∧
    startsWith "y".data " ".toList = false ∧
    startsWith "y".data "def".toList = false ∧
    startsWith "y".data "#".toList = false ∧
    detectIssues "if x:\ny" "python" = .ok [successIssue] ∧
    ¬ ∃ x ∈ [successIssue], x.type = "syntax" ∧ x.severity = "high" ∧
        x.message = "Indentation error" := by
  refine ⟨by decide, by decide, by decide, by decide, by decide, by decide, by decide,
    by decide, by decide⟩

/-- C8: the result of the detector on Python code includes an issue of type `logic`, severity
`medium` and message `Potential infinite loop` if and only if the code contains `while True`
and does not contain `break`; the line of such an issue is the 1-based number of the first
line that contains `while True`. -/
theorem infiniteLoop_issue (code : String) :
    ∃ issues, detectIssues code "python" = .ok issues ∧
      ((∃ x ∈ issues, x.type = "logic" ∧ x.severity = "medium" ∧
          x.message = "Potential infinite loop") ↔
        (includes code.data "while True".toList = true ∧
          includes code.data "break".toList = false)) ∧
      (∀ x ∈ issues, x.type = "logic" → x.severity = "medium" →
        x.message = "Potential infinite loop" →
        ∃ k : Nat, x.line = some ((k : Int) + 1) ∧
          (∃ l, (split '\n' code.data)[k]? = some l ∧ includes l "while True".toList = true) ∧
          ∀ j < k, ∀ l, (split '\n' code.data)[j]? = some l →
            includes l "while True".toList = false) := by
  refine ⟨_, detectIssues_python code, ⟨?_, ?_⟩, ?_⟩
  · rintro ⟨x, hx, ht, hs, hm⟩
    have hx' := (mem_fallback_iff (by rw [ht]; decide)).1 hx
    exact (infiniteLoopRule_cond (mem_infiniteLoopRule_of_mem hx' ht hs hm)).1
  · rintro ⟨h1, h2⟩
    obtain ⟨x, hx⟩ := infiniteLoopRule_fires h1 h2
    have hmem : x ∈ infiniteLoopRule code.data := by rw [hx]; exact List.mem_singleton.2 rfl
    have hk := infiniteLoopRule_kind hmem
    refine ⟨x, ?_, hk⟩
    exact (mem_fallback_iff (by rw [hk.1]; decide)).2
      (mem_pythonIssues.2 (Or.inr (Or.inr (Or.inl hmem))))
  · intro x hx ht hs hm
    have hx' := (mem_fallback_iff (by rw [ht]; decide)).1 hx
    obtain ⟨⟨h1, _⟩, hline⟩ := infiniteLoopRule_cond (mem_infiniteLoopRule_of_mem hx' ht hs hm)
    obtain ⟨k, hk, hat, hbefore⟩ :=
      @lineOf_includes code.data "while True".toList (by decide) h1
    exact ⟨k, by rw [hline, hk], hat, hbefore⟩

/-- Witness of C8 on the scenario of the specification: the issue is there, on line 1. -/
theorem infiniteLoop_issue_witness :
    ∃ issues, detectIssues "while True:\n    print('go')" "python" = .ok issues ∧
      ∃ x ∈ issues, x.type = "logic" ∧ x.severity = "medium" ∧
        x.message = "Potential infinite loop" := by
  obtain ⟨issues, h, hiff, _⟩ := infiniteLoop_issue "while True:\n    print('go')"
  exact ⟨issues, h, hiff.2 ⟨by decide, by decide⟩⟩

/-- C10: the result of the detector on Python code includes an issue of type `logic`, severity
`medium` and message `Function may not return a value` if and only if the code contains `def `
and contains neither `return` nor `print`. -/
theorem missingReturn_issue (code : String) :
    ∃ issues, detectIssues code "python" = .ok issues ∧
      ((∃ x ∈ issues, x.type = "logic" ∧ x.severity = "medium" ∧
          x.message = "Function may not return a value") ↔
        (includes code.data "def ".toList = true ∧
          includes code.data "return".toList = false ∧
          includes code.data "print".toList = false)) := by
  refine ⟨_, detectIssues_python code, ?_, ?_⟩
  · rintro ⟨x, hx, ht, hs, hm⟩
    have hx' := (mem_fallback_iff (by rw [ht]; decide)).1 hx
    exact missingReturnRule_cond (mem_missingReturnRule_of_mem hx' ht hs hm)
  · rintro ⟨h1, h2, h3⟩
    obtain ⟨x, hx⟩ := missingReturnRule_fires h1 h2 h3
    have hmem : x ∈ missingReturnRule code.data := by rw [hx]; exact List.mem_singleton.2 rfl
    have hk := missingReturnRule_kind hmem
    refine ⟨x, ?_, hk⟩
    exact (mem_fallback_iff (by rw [hk.1]; decide)).2
      (mem_pythonIssues.2 (Or.inr (Or.inr (Or.inr (Or.inr (Or.inr hmem))))))

/-- Witness of C10: a function whose body only passes gets the issue. -/
theorem missingReturn_issue_witness :
    ∃ issues, detectIssues "def f():\n    pass" "python" = .ok issues ∧
      ∃ x ∈ issues, x.type = "logic" ∧ x.severity = "medium" ∧
        x.message = "Function may not return a value" := by
  obtain ⟨issues, h, hiff⟩ := missingReturn_issue "def f():\n    pass"
  exact ⟨issues, h, hiff.2 ⟨by decide, by decide, by decide⟩⟩

/-- C9: the issues of type `style` in the result of the detector on Python code, which are its
unused-variable issues, are exactly, in order, one issue of severity `low` and message
`Variable '<name>' is assigned but never used` per successive match of the assignment pattern
whose name (the text before the first equals sign, trimmed) occurs exactly once in the code as
a whole word and is not `_`. Consequently a name reported by such a message occurs exactly once
as a whole word and is not `_`. -/
theorem unusedVariable_issues (code : String) :
    ∃ issues, detectIssues code "python" = .ok issues ∧
      issues.filter (fun x => x.type == "style") =
        ((matchAll reAssign code.data).filter (fun m =>
          wholeWordOccurrences (varNameOf m) code.data == 1 && varNameOf m != "_".toList)).map
          (fun m =>
            { type := "style"
              severity := "low"
              line := some (lineOf (fun l => includes l m) code.data)
              message := "Variable '" ++ String.mk (varNameOf m) ++ "' is assigned but never used"
              explanation := "Did you forget to use this variable, or is it unnecessary?" }) ∧
      (∀ name : Str,
        (∃ x ∈ issues,
          x.message = "Variable '" ++ String.mk name ++ "' is assigned but never used") →
        wholeWordOccurrences name code.data = 1 ∧ name ≠ "_".toList) := by
  refine ⟨_, detectIssues_python code, ?_, ?_⟩
  · show _ = List.map (unusedIssue code.data) _
    rw [← unusedIssues_eq, ← filter_style_pythonIssues]
    split_ifs with h
    · rw [h]; rfl
    · rfl
  · rintro name ⟨x, hx, hm⟩
    have hx' : x ∈ pythonIssues code.data := by
      split_ifs at hx with he
      · rw [List.mem_singleton] at hx
        subst hx
        exact absurd hm (ne_unusedMessage (by decide))
      · exact hx
    rcases mem_pythonIssues.1 hx' with h' | h' | h' | h' | h' | h'
    · rw [(baseCaseRule_kind h').2.2] at hm
      exact absurd hm (ne_unusedMessage (by decide))
    · rw [(indentationIssues_kind h').2.2] at hm
      exact absurd hm (ne_unusedMessage (by decide))
    · rw [(infiniteLoopRule_kind h').2.2] at hm
      exact absurd hm (ne_unusedMessage (by decide))
    · rw [(offByOneRule_kind h').2.2] at hm
      exact absurd hm (ne_unusedMessage (by decide))
    · obtain ⟨m, hmem, hcount, hne, rfl⟩ := mem_unusedIssues.1 h'
      have hname : varNameOf m = name := unusedMessage_inj hm
      obtain ⟨hne', hw⟩ := varNameOf_mem_matchAll hmem
      rw [← hname, ← usageCount_eq hne' hw]
      exact ⟨hcount, hne⟩
    · rw [(missingReturnRule_kind h').2.2] at hm
      exact absurd hm (ne_unusedMessage (by decide))

/-- Witness of C9 on the scenario of the specification: `x` is reported, and only `x`. -/
theorem unusedVariable_issues_witness :
    ∃ issues, detectIssues "x = 5\nprint('hi')" "python" = .ok issues ∧
      issues.filter (fun x => x.type == "style") =
        [{ type := "style"
           severity := "low"
           line := some 1
           message := "Variable 'x' is assigned but never used"
           explanation := "Did you forget to use this variable, or is it unnecessary?" }] := by
  obtain ⟨issues, h, hf, _⟩ := unusedVariable_issues "x = 5\nprint('hi')"
  refine ⟨issues, h, ?_⟩
  rw [hf]
  decide

/-! ## The C, C++ and C# batteries -/

theorem batteryIssues_c {language : String} (code : Str)
    (hl : language = "c" ∨ language = "cpp") : batteryIssues code language = cRules code := by
  rcases hl with rfl | rfl <;> simp [batteryIssues]

theorem batteryIssues_csharp (code : Str) : batteryIssues code "csharp" = csharpRules code := by
  simp [batteryIssues]

theorem missingSemicolonLoop_eq :
    ∀ (lines : List Str) (idx : Nat),
      missingSemicolonLoop idx lines =
        ((lines.enumFrom idx).filter (fun p => lacksSemicolon (trim p.2))).map
          (fun p => semicolonIssue p.1) := by
  intro lines
  induction lines with
  | nil => intro idx; rfl
  | cons l rest ih =>
    intro idx
    rw [missingSemicolonLoop, ih, List.enumFrom_cons]
    by_cases h : lacksSemicolon (trim l) = true
    · rw [if_pos h, List.filter_cons_of_pos (by exact h)]
      rfl
    · rw [if_neg h, List.filter_cons_of_neg (by exact h)]
      rfl

/-- Among the issues of the C battery, those with the message `Missing semicolon` are the ones
of the missing-semicolon loop. -/
theorem filter_semicolon_cRules (code : Str) :
    (cRules code).filter (fun x => x.message == "Missing semicolon") =
      missingSemicolonLoop 0 (split '\n' code) := by
  have hnil : ∀ l : List Issue, (∀ x ∈ l, x.message ≠ "Missing semicolon") →
      l.filter (fun x => x.message == "Missing semicolon") = [] := by
    intro l h
    rw [List.filter_eq_nil_iff]
    intro x hx hs
    exact h x hx (by simpa using hs)
  have h1 : (missingSemicolonLoop 0 (split '\n' code)).filter
      (fun x => x.message == "Missing semicolon") = missingSemicolonLoop 0 (split '\n' code) := by
    rw [List.filter_eq_self]
    intro x hx
    rw [(missingSemicolonLoop_kind _ _ hx).2.2]
    rfl
  have h2 := hnil (arrayBoundsRule code) (fun x hx => by
    rw [(arrayBoundsRule_kind hx).2.2]; decide)
  have h3 := hnil (memoryLeakRule code) (fun x hx => by
    rw [(memoryLeakRule_kind hx).2.2]; decide)
  have h4 := hnil (uninitializedRule code) (fun x hx => by
    rw [(uninitializedRule_kind hx).2.2]; decide)
  simp only [cRules, List.filter_append, h1, h2, h3, h4, List.append_nil]

theorem memoryLeakRule_cond {code : Str} {x : Issue} (h : x ∈ memoryLeakRule code) :
    (includes code "malloc".toList = true ∨ includes code "new".toList = true) ∧
      includes code "free".toList = false ∧ includes code "delete".toList = false := by
  unfold memoryLeakRule at h
  split_ifs at h with hc
  · simp only [Bool.and_eq_true, Bool.or_eq_true, Bool.not_eq_true'] at hc
    exact ⟨hc.1.1, hc.1.2, hc.2⟩
  · simp at h

theorem memoryLeakRule_fires {code : Str}
    (h1 : includes code "malloc".toList = true ∨ includes code "new".toList = true)
    (h2 : includes code "free".toList = false) (h3 : includes code "delete".toList = false) :
    ∃ x, memoryLeakRule code = [x] := by
  have hor : (includes code "malloc".toList || includes code "new".toList) = true := by
    rw [Bool.or_eq_true]; exact h1
  unfold memoryLeakRule
  rw [hor, h2, h3]
  exact ⟨_, rfl⟩

theorem nullReferenceRule_cond {code : Str} {x : Issue} (h : x ∈ nullReferenceRule code) :
    (includes code ".".toList = true ∧ includes code "if".toList = false ∧
      includes code "?.".toList = false) ∧ x.line = some 1 := by
  unfold nullReferenceRule at h
  split_ifs at h with hc
  · rw [List.mem_singleton] at h
    subst h
    simp only [Bool.and_eq_true, Bool.not_eq_true'] at hc
    exact ⟨⟨hc.1.1, hc.1.2, hc.2⟩, rfl⟩
  · simp at h

theorem nullReferenceRule_fires {code : Str} (h1 : includes code ".".toList = true)
    (h2 : includes code "if".toList = false) (h3 : includes code "?.".toList = false) :
    ∃ x, nullReferenceRule code = [x] := by
  unfold nullReferenceRule
  rw [h1, h2, h3]
  exact ⟨_, rfl⟩

/-- Among the issues of the C battery, only the memory-leak rule pushes one of type `logic`,
severity `high` and message `Potential memory leak`. -/
theorem mem_memoryLeakRule_of_mem {code : Str} {x : Issue} (h : x ∈ cRules code)
    (hm : x.message = "Potential memory leak") : x ∈ memoryLeakRule code := by
  simp only [cRules, List.mem_append] at h
  rcases h with ((h | h) | h) | h
  · have := (missingSemicolonLoop_kind _ _ h).2.2; rw [hm] at this; exact absurd this (by decide)
  · have := (arrayBoundsRule_kind h).2.2; rw [hm] at this; exact absurd this (by decide)
  · exact h
  · have := (uninitializedRule_kind h).2.2; rw [hm] at this; exact absurd this (by decide)

/-- Among the issues of the C# battery, only the null-reference rule pushes one with the message
`Potential null reference exception`. -/
theorem mem_nullReferenceRule_of_mem {code : Str} {x : Issue} (h : x ∈ csharpRules code)
    (hm : x.message = "Potential null reference exception") : x ∈ nullReferenceRule code := by
  simp only [csharpRules, List.mem_append] at h
  rcases h with (h | h) | h
  · exact h
  · have := (disposeRule_kind h).2.2; rw [hm] at this; exact absurd this (by decide)
  · have := (genericCatchRule_kind h).2.2; rw [hm] at this; exact absurd this (by decide)

/-! ## The claims about the C, C++ and C# batteries and about the order of the issues -/

/-- C11: for the languages `c` and `cpp`, the issues with the message `Missing semicolon` in
the result of the detector are exactly, in line order, one issue of type `syntax` and severity
`high` per line whose trimmed text is not empty, does not end with a semicolon or a brace, does
not start with `#` or `//` and contains none of `if`, `for`, `while`; its line is the 1-based
number of that line. -/
theorem missingSemicolon_issues (code language : String)
    (hl : language = "c" ∨ language = "cpp") :
    ∃ issues, detectIssues code language = .ok issues ∧
      issues.filter (fun x => x.message == "Missing semicolon") =
        ((split '\n' code.data).enum.filter (fun p =>
          !(trim p.2).isEmpty &&
          !endsWith (trim p.2) ";".toList &&
          !endsWith (trim p.2) "\x7b".toList &&
          !endsWith (trim p.2) "\x7d".toList &&
          !startsWith (trim p.2) "#".toList &&
          !startsWith (trim p.2) "//".toList &&
          !includes (trim p.2) "if".toList &&
          !includes (trim p.2) "for".toList &&
          !includes (trim p.2) "while".toList)).map
          (fun p =>
            { type := "syntax"
              severity := "high"
              line := some ((p.1 : Int) + 1)
              message := "Missing semicolon"
              explanation := "In C/C++, most statements must end with a semicolon. Did you forget one here?" }) := by
  refine ⟨_, detectIssues_eq code language, ?_⟩
  rw [batteryIssues_c code.data hl]
  show _ = List.map (fun p => semicolonIssue p.1)
    (List.filter (fun p => lacksSemicolon (trim p.2)) (List.enumFrom 0 (split '\n' code.data)))
  rw [← missingSemicolonLoop_eq, ← filter_semicolon_cRules]
  split_ifs with h
  · rw [h]; rfl
  · rfl

/-- Witness of C11: of three lines of C++, the second lacks its semicolon. -/
theorem missingSemicolon_issues_witness :
    ∃ issues, detectIssues "int x = 1;\nx = 2\nreturn x;" "cpp" = .ok issues ∧
      issues.filter (fun x => x.message == "Missing semicolon") =
        [{ type := "syntax"
           severity := "high"
           line := some 2
           message := "Missing semicolon"
           explanation := "In C/C++, most statements must end with a semicolon. Did you forget one here?" }] := by
  obtain ⟨issues, h, hf⟩ :=
    missingSemicolon_issues "int x = 1;\nx = 2\nreturn x;" "cpp" (Or.inr rfl)
  refine ⟨issues, h, ?_⟩
  rw [hf]
  decide

/-- C12: for the languages `c` and `cpp`, the result of the detector includes an issue of type
`logic`, severity `high` and message `Potential memory leak` if and only if the code contains
`malloc` or `new` and contains neither `free` nor `delete`. -/
theorem memoryLeak_issue (code language : String) (hl : language = "c" ∨ language = "cpp") :
    ∃ issues, detectIssues code language = .ok issues ∧
      ((∃ x ∈ issues, x.type = "logic" ∧ x.severity = "high" ∧
          x.message = "Potential memory leak") ↔
        ((includes code.data "malloc".toList = true ∨ includes code.data "new".toList = true) ∧
          includes code.data "free".toList = false ∧
          includes code.data "delete".toList = false)) := by
  refine ⟨_, detectIssues_eq code language, ?_, ?_⟩
  · rintro ⟨x, hx, ht, _, hm⟩
    rw [batteryIssues_c code.data hl] at hx
    have hx' := (mem_fallback_iff (by rw [ht]; decide)).1 hx
    exact memoryLeakRule_cond (mem_memoryLeakRule_of_mem hx' hm)
  · rintro ⟨h1, h2, h3⟩
    obtain ⟨x, hx⟩ := memoryLeakRule_fires h1 h2 h3
    have hmem : x ∈ memoryLeakRule code.data := by rw [hx]; exact List.mem_singleton.2 rfl
    have hk := memoryLeakRule_kind hmem
    refine ⟨x, ?_, hk⟩
    rw [batteryIssues_c code.data hl]
    refine (mem_fallback_iff (by rw [hk.1]; decide)).2 ?_
    simp only [cRules, List.mem_append]
    exact Or.inl (Or.inr hmem)

/-- Witness of C12 on the scenario of the specification: an array allocated with `new` and
never deleted. -/
theorem memoryLeak_issue_witness :
    ∃ issues, detectIssues "int* p = new int[5];" "cpp" = .ok issues ∧
      ∃ x ∈ issues, x.type = "logic" ∧ x.severity = "high" ∧
        x.message = "Potential memory leak" := by
  obtain ⟨issues, h, hiff⟩ := memoryLeak_issue "int* p = new int[5];" "cpp" (Or.inr rfl)
  exact ⟨issues, h, hiff.2 ⟨Or.inr (by decide), by decide, by decide⟩⟩

/-- C13: the result of the detector on C# code includes an issue of type `logic`, severity
`medium`, message `Potential null reference exception` and line 1 if and only if the code
contains a dot and contains neither `if` nor `?.`. -/
theorem nullReference_issue (code : String) :
    ∃ issues, detectIssues code "csharp" = .ok issues ∧
      ((∃ x ∈ issues, x.type = "logic" ∧ x.severity = "medium" ∧
          x.message = "Potential null reference exception" ∧ x.line = some 1) ↔
        (includes code.data ".".toList = true ∧ includes code.data "if".toList = false ∧
          includes code.data "?.".toList = false)) := by
  refine ⟨_, detectIssues_eq code "csharp", ?_, ?_⟩
  · rintro ⟨x, hx, ht, _, hm, _⟩
    rw [batteryIssues_csharp] at hx
    have hx' := (mem_fallback_iff (by rw [ht]; decide)).1 hx
    exact (nullReferenceRule_cond (mem_nullReferenceRule_of_mem hx' hm)).1
  · rintro ⟨h1, h2, h3⟩
    obtain ⟨x, hx⟩ := nullReferenceRule_fires h1 h2 h3
    have hmem : x ∈ nullReferenceRule code.data := by rw [hx]; exact List.mem_singleton.2 rfl
    have hk := nullReferenceRule_kind hmem
    refine ⟨x, ?_, hk.1, hk.2.1, hk.2.2, (nullReferenceRule_cond hmem).2⟩
    rw [batteryIssues_csharp]
    refine (mem_fallback_iff (by rw [hk.1]; decide)).2 ?_
    simp only [csharpRules, List.mem_append]
    exact Or.inl (Or.inl hmem)

/-- Witness of C13: a member access on the second line, reported on line 1. -/
theorem nullReference_issue_witness :
    ∃ issues, detectIssues "var s = GetName();\nConsole.WriteLine(s.Length);" "csharp"
        = .ok issues ∧
      ∃ x ∈ issues, x.type = "logic" ∧ x.severity = "medium" ∧
        x.message = "Potential null reference exception" ∧ x.line = some 1 := by
  obtain ⟨issues, h, hiff⟩ :=
    nullReference_issue "var s = GetName();\nConsole.WriteLine(s.Length);"
  exact ⟨issues, h, hiff.2 ⟨by decide, by decide, by decide⟩⟩

/-- C14: the issues of a result that is not the success fallback are grouped by rule in the
order in which the battery declares its rules. For `python`: base case, indentation, infinite
loop, off-by-one, the unused-variable issues in the order of their assignment matches, missing
return. For `c` and `cpp`: the missing-semicolon issues in line order, array bounds, memory
leak, uninitialized variable. For `csharp`: null reference, undisposed resource, generic
catch. -/
theorem detectIssues_order (code : String) :
    (∃ issues, detectIssues code "python" = .ok issues ∧
      (issues = [successIssue] ∨
        ∃ base indent loop range unused ret ms,
          issues = base ++ indent ++ loop ++ range ++ unused ++ ret ∧
          (∀ x ∈ base, x.message = "Incomplete base case in recursive function") ∧
          (∀ x ∈ indent, x.message = "Indentation error") ∧
          (∀ x ∈ loop, x.message = "Potential infinite loop") ∧
          (∀ x ∈ range, x.message = "Potential off-by-one error") ∧
          List.Sublist ms (matchAll reAssign code.data) ∧
          unused.map Issue.message = ms.map (fun m =>
            "Variable '" ++ String.mk (varNameOf m) ++ "' is assigned but never used") ∧
          (∀ x ∈ ret, x.message = "Function may not return a value"))) ∧
    (∀ language, language = "c" ∨ language = "cpp" →
      ∃ issues, detectIssues code language = .ok issues ∧
        (issues = [successIssue] ∨
          ∃ semis bounds leak uninit idxs,
            issues = semis ++ bounds ++ leak ++ uninit ∧
            (∀ x ∈ semis, x.message = "Missing semicolon") ∧
            List.Sublist idxs (List.range (split '\n' code.data).length) ∧
            semis.map Issue.line = idxs.map (fun (i : Nat) => some ((i : Int) + 1)) ∧
            (∀ x ∈ bounds, x.message = "Potential array bounds violation") ∧
            (∀ x ∈ leak, x.message = "Potential memory leak") ∧
            (∀ x ∈ uninit, x.message = "Potentially uninitialized variable"))) ∧
    (∃ issues, detectIssues code "csharp" = .ok issues ∧
      (issues = [successIssue] ∨
        ∃ nullRef dispose generic,
          issues = nullRef ++ dispose ++ generic ∧
          (∀ x ∈ nullRef, x.message = "Potential null reference exception") ∧
          (∀ x ∈ dispose, x.message = "Resource not properly disposed") ∧
          (∀ x ∈ generic, x.message = "Catching generic Exception"))) := by
  refine ⟨⟨_, detectIssues_python code, ?_⟩, ?_, ⟨_, detectIssues_eq code "csharp", ?_⟩⟩
  · split_ifs with h
    · exact Or.inl rfl
    · right
      refine ⟨baseCaseRule code.data, indentationIssues code.data, infiniteLoopRule code.data,
        offByOneRule code.data, unusedIssues code.data, missingReturnRule code.data,
        (matchAll reAssign code.data).filter (fun m =>
          wholeWordOccurrences (varNameOf m) code.data == 1 && varNameOf m != "_".toList),
        rfl, fun x hx => (baseCaseRule_kind hx).2.2, fun x hx => (indentationIssues_kind hx).2.2,
        fun x hx => (infiniteLoopRule_kind hx).2.2, fun x hx => (offByOneRule_kind hx).2.2,
        List.filter_sublist _, ?_, fun x hx => (missingReturnRule_kind hx).2.2⟩
      rw [unusedIssues_eq, List.map_map]
      rfl
  · intro language hl
    refine ⟨_, detectIssues_eq code language, ?_⟩
    rw [batteryIssues_c code.data hl]
    split_ifs with h
    · exact Or.inl rfl
    · right
      refine ⟨missingSemicolonLoop 0 (split '\n' code.data), arrayBoundsRule code.data,
        memoryLeakRule code.data, uninitializedRule code.data,
        (((split '\n' code.data).enum.filter (fun p => lacksSemicolon (trim p.2))).map Prod.fst),
        rfl, fun x hx => (missingSemicolonLoop_kind _ _ hx).2.2, ?_, ?_,
        fun x hx => (arrayBoundsRule_kind hx).2.2, fun x hx => (memoryLeakRule_kind hx).2.2,
        fun x hx => (uninitializedRule_kind hx).2.2⟩
      · rw [← List.enum_map_fst]
        exact (List.filter_sublist _).map _
      · rw [missingSemicolonLoop_eq, List.map_map, List.map_map]
        rfl
  · rw [batteryIssues_csharp]
    split_ifs with h
    · exact Or.inl rfl
    · right
      exact ⟨nullReferenceRule code.data, disposeRule code.data, genericCatchRule code.data,
        rfl, fun x hx => (nullReferenceRule_kind hx).2.2, fun x hx => (disposeRule_kind hx).2.2,
        fun x hx => (genericCatchRule_kind hx).2.2⟩

/-- Witness of C14 on C code: a line without semicolon and an allocation never freed give the
missing-semicolon issue first and the memory-leak issue after it. -/
theorem detectIssues_order_witness :
    ∃ issues, detectIssues "p = malloc(4)" "c" = .ok issues ∧
      issues.map Issue.message = ["Missing semicolon", "Potential memory leak"] ∧
      ∃ semis bounds leak uninit,
        issues = semis ++ bounds ++ leak ++ uninit ∧
        (∀ x ∈ semis, x.message = "Missing semicolon") ∧
        (∀ x ∈ leak, x.message = "Potential memory leak") := by
  obtain ⟨issues, h, hd⟩ := (detectIssues_order "p = malloc(4)").2.1 "c" (Or.inl rfl)
  have hval : detectIssues "p = malloc(4)" "c" = .ok
      [semicolonIssue 0,
       { type := "logic"
         severity := "high"
         line := some 1
         message := "Potential memory leak"
         explanation := "You allocated memory but never freed it. Every malloc() needs a free(), and every new needs a delete." }] := by
    decide
  have hiss := Except.ok.inj (h.symm.trans hval)
  refine ⟨issues, h, by rw [hiss]; decide, ?_⟩
  rcases hd with hs | ⟨semis, bounds, leak, uninit, _, heq, hsemi, _, _, _, hleak, _⟩
  · rw [hiss] at hs
    exact absurd hs (by decide)
  · exact ⟨semis, bounds, leak, uninit, heq, hsemi, hleak⟩

/-! ## The feedback generator -/

theorem Appends.comp {f g : Feedback → Feedback} (hf : Appends f) (hg : Appends g) :
    Appends (fun feedback => g (f feedback)) := by
  intro feedback
  have h1 := hg (f feedback)
  have h2 := hg (f emptyFeedback)
  have h3 := hf feedback
  show g (f feedback) =
    { summary := feedback.summary
      teaching := feedback.teaching ++ (g (f emptyFeedback)).teaching
      questions := feedback.questions ++ (g (f emptyFeedback)).questions
      nextSteps := feedback.nextSteps }
  rw [h1, h2, h3]
  simp [List.append_assoc]

theorem appends_pushBaseCase (skillLevel : String) (issue : Issue) :
    Appends (fun feedback => pushBaseCase skillLevel feedback issue) := by
  intro feedback
  simp only [pushBaseCase, emptyFeedback]
  split_ifs <;> simp

theorem appends_pushInfiniteLoop (issue : Issue) :
    Appends (fun feedback => pushInfiniteLoop feedback issue) := by
  intro feedback
  simp only [pushInfiniteLoop, emptyFeedback]
  split_ifs <;> simp

theorem appends_pushMemoryLeak (issue : Issue) :
    Appends (fun feedback => pushMemoryLeak feedback issue) := by
  intro feedback
  simp only [pushMemoryLeak, emptyFeedback]
  split_ifs <;> simp

theorem appends_pushSemicolon (skillLevel : String) (issue : Issue) :
    Appends (fun feedback => pushSemicolon skillLevel feedback issue) := by
  intro feedback
  simp only [pushSemicolon, emptyFeedback]
  split_ifs <;> simp

theorem appends_pushNullReference (issue : Issue) :
    Appends (fun feedback => pushNullReference feedback issue) := by
  intro feedback
  simp only [pushNullReference, emptyFeedback]
  split_ifs <;> simp

theorem appends_pushTeaching (skillLevel : String) (issue : Issue) :
    Appends (fun feedback => pushTeaching skillLevel feedback issue) :=
  ((((appends_pushBaseCase skillLevel issue).comp (appends_pushInfiniteLoop issue)).comp
    (appends_pushMemoryLeak issue)).comp (appends_pushSemicolon skillLevel issue)).comp
    (appends_pushNullReference issue)

theorem pushTeaching_eq (skillLevel : String) (feedback : Feedback) (issue : Issue) :
    pushTeaching skillLevel feedback issue =
      { summary := feedback.summary
        teaching := feedback.teaching ++ teachingOf skillLevel issue
        questions := feedback.questions ++ questionsOf skillLevel issue
        nextSteps := feedback.nextSteps } :=
  appends_pushTeaching skillLevel issue feedback

theorem foldl_pushTeaching (skillLevel : String) :
    ∀ (issues : List Issue) (feedback : Feedback),
      issues.foldl (pushTeaching skillLevel) feedback =
        { summary := feedback.summary
          teaching := feedback.teaching ++ issues.flatMap (teachingOf skillLevel)
          questions := feedback.questions ++ issues.flatMap (questionsOf skillLevel)
          nextSteps := feedback.nextSteps } := by
  intro issues
  induction issues with
  | nil => intro feedback; simp
  | cons i rest ih =>
    intro feedback
    rw [List.foldl_cons, ih, pushTeaching_eq]
    simp [List.flatMap_cons, List.append_assoc]

/-- The feedback for a list whose first issue has type `success`. -/
theorem generateFeedback_success {issues : List Issue} (skillLevel : String)
    (h : issues[0]?.map Issue.type = some "success") :
    generateFeedback issues skillLevel =
      { summary :=
          if skillLevel = "beginner" then "Great work! Your code looks solid. Keep practicing!"
          else "Code structure is sound. Consider edge cases and optimization."
        teaching := []
        questions := []
        nextSteps :=
          ["Test your code with various inputs",
           "Think about edge cases (empty input, very large numbers, etc.)",
           "Consider time and space complexity"] } := by
  unfold generateFeedback
  simp only [h, if_true]

/-- The summary written when the first issue does not have type `success`, for `n` issues of
severity `high`. -/
theorem generateFeedback_summary {issues : List Issue} (skillLevel : String)
    (h : issues[0]?.map Issue.type ≠ some "success") :
    (generateFeedback issues skillLevel).summary =
      if (issues.filter (fun i => i.severity == "high")).length > 0 then
        if skillLevel = "beginner" then
          "I found " ++ toString (issues.filter (fun i => i.severity == "high")).length
            ++ " critical issue"
            ++ (if (issues.filter (fun i => i.severity == "high")).length > 1 then "s" else "")
            ++ " that will prevent your code from running correctly. Let's work through them together!"
        else
          toString (issues.filter (fun i => i.severity == "high")).length ++ " critical issue"
            ++ (if (issues.filter (fun i => i.severity == "high")).length > 1 then "s" else "")
            ++ " detected. Review the base cases and control flow."
      else "Your code runs, but there are some improvements we can make." := by
  unfold generateFeedback
  simp only [h, if_false, foldl_pushTeaching]

theorem generateFeedback_teaching {issues : List Issue} (skillLevel : String)
    (h : issues[0]?.map Issue.type ≠ some "success") :
    (generateFeedback issues skillLevel).teaching = issues.flatMap (teachingOf skillLevel) := by
  unfold generateFeedback
  simp only [h, if_false, foldl_pushTeaching, List.nil_append]

theorem generateFeedback_questions {issues : List Issue} (skillLevel : String)
    (h : issues[0]?.map Issue.type ≠ some "success") :
    (generateFeedback issues skillLevel).questions =
      issues.flatMap (questionsOf skillLevel) := by
  unfold generateFeedback
  simp only [h, if_false, foldl_pushTeaching, List.nil_append]

theorem generateFeedback_nextSteps {issues : List Issue} (skillLevel : String)
    (h : issues[0]?.map Issue.type ≠ some "success") :
    (generateFeedback issues skillLevel).nextSteps =
      if issues.any (fun i => i.type == "logic") = true then
        ["Fix the logical issues identified above",
         "Test your code with edge cases",
         "Add comments explaining your logic"]
      else
        ["Run your code with test cases",
         "Consider code readability and style",
         "Think about performance optimization"] := by
  unfold generateFeedback
  simp only [h, if_false]

theorem pushInfiniteLoop_teaching (feedback : Feedback) (issue : Issue) :
    (pushInfiniteLoop feedback issue).teaching =
      feedback.teaching ++ (pushInfiniteLoop emptyFeedback issue).teaching :=
  congrArg Feedback.teaching (appends_pushInfiniteLoop issue feedback)

theorem pushMemoryLeak_teaching (feedback : Feedback) (issue : Issue) :
    (pushMemoryLeak feedback issue).teaching =
      feedback.teaching ++ (pushMemoryLeak emptyFeedback issue).teaching :=
  congrArg Feedback.teaching (appends_pushMemoryLeak issue feedback)

theorem pushSemicolon_teaching (skillLevel : String) (feedback : Feedback) (issue : Issue) :
    (pushSemicolon skillLevel feedback issue).teaching =
      feedback.teaching ++ (pushSemicolon skillLevel emptyFeedback issue).teaching :=
  congrArg Feedback.teaching (appends_pushSemicolon skillLevel issue feedback)

theorem pushNullReference_teaching (feedback : Feedback) (issue : Issue) :
    (pushNullReference feedback issue).teaching =
      feedback.teaching ++ (pushNullReference emptyFeedback issue).teaching :=
  congrArg Feedback.teaching (appends_pushNullReference issue feedback)

theorem pushInfiniteLoop_questions (feedback : Feedback) (issue : Issue) :
    (pushInfiniteLoop feedback issue).questions =
      feedback.questions ++ (pushInfiniteLoop emptyFeedback issue).questions :=
  congrArg Feedback.questions (appends_pushInfiniteLoop issue feedback)

theorem pushMemoryLeak_questions (feedback : Feedback) (issue : Issue) :
    (pushMemoryLeak feedback issue).questions =
      feedback.questions ++ (pushMemoryLeak emptyFeedback issue).questions :=
  congrArg Feedback.questions (appends_pushMemoryLeak issue feedback)

theorem pushSemicolon_questions (skillLevel : String) (feedback : Feedback) (issue : Issue) :
    (pushSemicolon skillLevel feedback issue).questions =
      feedback.questions ++ (pushSemicolon skillLevel emptyFeedback issue).questions :=
  congrArg Feedback.questions (appends_pushSemicolon skillLevel issue feedback)

theorem pushNullReference_questions (feedback : Feedback) (issue : Issue) :
    (pushNullReference feedback issue).questions =
      feedback.questions ++ (pushNullReference emptyFeedback issue).questions :=
  congrArg Feedback.questions (appends_pushNullReference issue feedback)

/-- The teaching entries pushed for an issue, statement by statement. -/
theorem teachingOf_eq (skillLevel : String) (issue : Issue) :
    teachingOf skillLevel issue =
      (pushBaseCase skillLevel emptyFeedback issue).teaching ++
      (pushInfiniteLoop emptyFeedback issue).teaching ++
      (pushMemoryLeak emptyFeedback issue).teaching ++
      (pushSemicolon skillLevel emptyFeedback issue).teaching ++
      (pushNullReference emptyFeedback issue).teaching := by
  unfold teachingOf pushTeaching
  dsimp only
  rw [pushNullReference_teaching (pushSemicolon skillLevel _ issue),
    pushSemicolon_teaching skillLevel (pushMemoryLeak _ issue),
    pushMemoryLeak_teaching (pushInfiniteLoop _ issue),
    pushInfiniteLoop_teaching (pushBaseCase skillLevel _ issue)]

/-- The questions pushed for an issue, statement by statement. -/
theorem questionsOf_eq (skillLevel : String) (issue : Issue) :
    questionsOf skillLevel issue =
      (pushBaseCase skillLevel emptyFeedback issue).questions ++
      (pushInfiniteLoop emptyFeedback issue).questions ++
      (pushMemoryLeak emptyFeedback issue).questions ++
      (pushSemicolon skillLevel emptyFeedback issue).questions ++
      (pushNullReference emptyFeedback issue).questions := by
  unfold questionsOf pushTeaching
  dsimp only
  rw [pushNullReference_questions (pushSemicolon skillLevel _ issue),
    pushSemicolon_questions skillLevel (pushMemoryLeak _ issue),
    pushMemoryLeak_questions (pushInfiniteLoop _ issue),
    pushInfiniteLoop_questions (pushBaseCase skillLevel _ issue)]

/-- Counting through `flatMap`: when each element contributes one match or none. -/
theorem length_filter_flatMap {α β : Type} (f : α → List β) (p : β → Bool) (c : α → Bool)
    (h : ∀ a, ((f a).filter p).length = if c a = true then 1 else 0) :
    ∀ l : List α, ((l.flatMap f).filter p).length = (l.filter c).length := by
  intro l
  induction l with
  | nil => rfl
  | cons a l ih =>
    rw [List.flatMap_cons, List.filter_append, List.length_append, ih, h a]
    by_cases hc : c a = true
    · rw [if_pos hc, List.filter_cons_of_pos hc, List.length_cons, Nat.add_comm]
    · rw [if_neg hc, List.filter_cons_of_neg hc, Nat.zero_add]

/-- Counting through `flatMap`: when no element contributes a match. -/
theorem length_filter_flatMap_zero {α β : Type} (f : α → List β) (p : β → Bool)
    (h : ∀ a, ((f a).filter p).length = 0) :
    ∀ l : List α, ((l.flatMap f).filter p).length = 0 := by
  intro l
  induction l with
  | nil => rfl
  | cons a l ih =>
    rw [List.flatMap_cons, List.filter_append, List.length_append, ih, h a]

/-! ## The base-case trigger -/

theorem count_recursiveBaseCases (skillLevel : String) (issue : Issue) :
    ((teachingOf skillLevel issue).filter
        (fun t => t.concept == "Recursive Base Cases")).length =
      if (decide (skillLevel = "beginner") &&
          (issue.type == "logic" && includes issue.message.data "base case".toList)) = true
      then 1 else 0 := by
  rw [teachingOf_eq]
  simp only [pushBaseCase, pushInfiniteLoop, pushMemoryLeak, pushSemicolon, pushNullReference,
    emptyFeedback]
  split_ifs <;> simp_all

theorem count_edgeCaseHandling (skillLevel : String) (issue : Issue) :
    ((teachingOf skillLevel issue).filter
        (fun t => t.concept == "Edge Case Handling")).length =
      if (!decide (skillLevel = "beginner") &&
          (issue.type == "logic" && includes issue.message.data "base case".toList)) = true
      then 1 else 0 := by
  rw [teachingOf_eq]
  simp only [pushBaseCase, pushInfiniteLoop, pushMemoryLeak, pushSemicolon, pushNullReference,
    emptyFeedback]
  split_ifs <;> simp_all

theorem count_baseCaseQuestion (skillLevel : String) (issue : Issue) :
    ((questionsOf skillLevel issue).filter
        (fun q => q == "What would happen if someone calls factorial(0)? Walk through the steps.")).length =
      if (decide (skillLevel = "beginner") &&
          (issue.type == "logic" && includes issue.message.data "base case".toList)) = true
      then 1 else 0 := by
  rw [questionsOf_eq]
  simp only [pushBaseCase, pushInfiniteLoop, pushMemoryLeak, pushSemicolon, pushNullReference,
    emptyFeedback]
  split_ifs <;> simp_all

/-! ## The claims about the feedback generator -/

/-- C15: for an issue list whose first issue has type `success`, whatever follows it, the
feedback has no teaching entry and no question, its next steps are the fixed generic-testing
list, and its summary is one of two fixed sentences, chosen by whether the skill level is
`beginner`. -/
theorem generateFeedback_success_first (first : Issue) (rest : List Issue)
    (skillLevel : String) (h : first.type = "success") :
    (generateFeedback (first :: rest) skillLevel).teaching = [] ∧
    (generateFeedback (first :: rest) skillLevel).questions = [] ∧
    (generateFeedback (first :: rest) skillLevel).nextSteps =
      ["Test your code with various inputs",
       "Think about edge cases (empty input, very large numbers, etc.)",
       "Consider time and space complexity"] ∧
    (skillLevel = "beginner" →
      (generateFeedback (first :: rest) skillLevel).summary =
        "Great work! Your code looks solid. Keep practicing!") ∧
    (skillLevel ≠ "beginner" →
      (generateFeedback (first :: rest) skillLevel).summary =
        "Code structure is sound. Consider edge cases and optimization.") := by
  have hfirst : (first :: rest)[0]?.map Issue.type = some "success" := by simp [h]
  rw [generateFeedback_success skillLevel hfirst]
  refine ⟨rfl, rfl, rfl, ?_, ?_⟩
  · intro hs; simp only [hs, if_true]
  · intro hs; simp only [hs, if_false]

/-- Witness of C15: a success issue followed by a base-case issue of high severity, for an
advanced learner. -/
theorem generateFeedback_success_first_witness :
    (generateFeedback
        [successIssue,
         { type := "logic"
           severity := "high"
           line := some 2
           message := "Incomplete base case in recursive function"
           explanation := "" }] "advanced").teaching = [] ∧
    (generateFeedback
        [successIssue,
         { type := "logic"
           severity := "high"
           line := some 2
           message := "Incomplete base case in recursive function"
           explanation := "" }] "advanced").summary =
      "Code structure is sound. Consider edge cases and optimization." :=
  ⟨(generateFeedback_success_first successIssue _ "advanced" rfl).1,
   (generateFeedback_success_first successIssue _ "advanced" rfl).2.2.2.2 (by decide)⟩

/-- C16: for every issue list, the empty list and the lists that start with a success issue
included, and every skill level, the next steps of the feedback have exactly 3 entries. -/
theorem generateFeedback_nextSteps_length (issues : List Issue) (skillLevel : String) :
    (generateFeedback issues skillLevel).nextSteps.length = 3 := by
  by_cases h : issues[0]?.map Issue.type = some "success"
  · rw [generateFeedback_success skillLevel h]
    rfl
  · rw [generateFeedback_nextSteps skillLevel h]
    split_ifs <;> rfl

/-- C17, as the code has it: for an issue list whose first issue does not have type `success`,
the next steps are the list that starts with `Fix the logical issues identified above` when
some issue has type `logic`, and the list that starts with `Run your code with test cases` when
no issue has type `logic`. -/
theorem generateFeedback_nextSteps_logic (issues : List Issue) (skillLevel : String)
    (hfirst : issues[0]?.map Issue.type ≠ some "success") :
    ((∃ i ∈ issues, i.type = "logic") →
      (generateFeedback issues skillLevel).nextSteps =
        ["Fix the logical issues identified above",
         "Test your code with edge cases",
         "Add comments explaining your logic"]) ∧
    ((∀ i ∈ issues, i.type ≠ "logic") →
      (generateFeedback issues skillLevel).nextSteps =
        ["Run your code with test cases",
         "Consider code readability and style",
         "Think about performance optimization"]) := by
  rw [generateFeedback_nextSteps skillLevel hfirst]
  constructor
  · rintro ⟨i, hi, ht⟩
    have hany : issues.any (fun i => i.type == "logic") = true := by
      rw [List.any_eq_true]
      exact ⟨i, hi, by rw [ht]; rfl⟩
    rw [if_pos hany]
  · intro hno
    have hany : ¬ issues.any (fun i => i.type == "logic") = true := by
      rw [List.any_eq_true]
      rintro ⟨i, hi, ht⟩
      exact hno i hi (by simpa using ht)
    rw [if_neg hany]

/-- Witness of C17 as amended: a single logic issue, and a single style issue. -/
theorem generateFeedback_nextSteps_logic_witness :
    (generateFeedback
        [{ type := "logic"
           severity := "medium"
           line := some 1
           message := "Potential infinite loop"
           explanation := "" }] "beginner").nextSteps =
      ["Fix the logical issues identified above",
       "Test your code with edge cases",
       "Add comments explaining your logic"] ∧
    (generateFeedback
        [{ type := "style"
           severity := "low"
           line := some 1
           message := "Catching generic Exception"
           explanation := "" }] "beginner").nextSteps =
      ["Run your code with test cases",
       "Consider code readability and style",
       "Think about performance optimization"] :=
  ⟨(generateFeedback_nextSteps_logic _ "beginner" (by decide)).1
      ⟨_, List.mem_singleton.2 rfl, rfl⟩,
   (generateFeedback_nextSteps_logic _ "beginner" (by decide)).2
      (fun i hi => by rw [List.mem_singleton.1 hi]; decide)⟩

/-- Counterexample to C17 as stated: on the result of the detector for the empty code, which
is the single success issue and has no issue of type `logic`, the next steps are neither of the
two lists of the claim. -/
theorem generateFeedback_nextSteps_counterexample :
    detectIssues "" "python" = .ok [successIssue] ∧
    (∀ i ∈ [successIssue], i.type ≠ "logic") ∧
    (generateFeedback [successIssue] "beginner").nextSteps ≠
      ["Fix the logical issues identified above",
       "Test your code with edge cases",
       "Add comments explaining your logic"] ∧
    (generateFeedback [successIssue] "beginner").nextSteps ≠
      ["Run your code with test cases",
       "Consider code readability and style",
       "Think about performance optimization"] := by
  refine ⟨by decide, by decide, by decide, by decide⟩

/-- C18: for an issue list whose first issue does not have type `success`, with `n` the number
of issues of severity `high`: when `n` is 0 the summary is the generic sentence; when `n` is 1
it is the beginner or the other template with `1 critical issue`; when `n` is 2 or more it is
the same template with `n` written in decimal and the plural `issues`. -/
theorem generateFeedback_summary_plural (issues : List Issue) (skillLevel : String) (n : Nat)
    (hfirst : issues[0]?.map Issue.type ≠ some "success")
    (hn : n = (issues.filter (fun i => i.severity == "high")).length) :
    (n = 0 → (generateFeedback issues skillLevel).summary =
      "Your code runs, but there are some improvements we can make.") ∧
    (n = 1 →
      (skillLevel = "beginner" → (generateFeedback issues skillLevel).summary =
        "I found 1 critical issue that will prevent your code from running correctly. Let's work through them together!") ∧
      (skillLevel ≠ "beginner" → (generateFeedback issues skillLevel).summary =
        "1 critical issue detected. Review the base cases and control flow.")) ∧
    (2 ≤ n →
      (skillLevel = "beginner" → (generateFeedback issues skillLevel).summary =
        "I found " ++ toString n ++ " critical issues that will prevent your code from running correctly. Let's work through them together!") ∧
      (skillLevel ≠ "beginner" → (generateFeedback issues skillLevel).summary =
        toString n ++ " critical issues detected. Review the base cases and control flow.")) := by
  rw [generateFeedback_summary skillLevel hfirst, ← hn]
  refine ⟨?_, ?_, ?_⟩
  · intro h0
    rw [if_neg (by omega)]
  · intro h1
    subst h1
    constructor
    · intro hs; rw [if_pos (by decide), if_pos hs]; decide
    · intro hs; rw [if_pos (by decide), if_neg hs]; decide
  · intro h2
    have hpos : n > 0 := by omega
    have hgt : n > 1 := by omega
    constructor
    · intro hs
      rw [if_pos hpos, if_pos hs, if_pos hgt, String.append_assoc, String.append_assoc]
      rfl
    · intro hs
      rw [if_pos hpos, if_neg hs, if_pos hgt, String.append_assoc, String.append_assoc]
      rfl

/-- Witness of C18: two issues of high severity and one of low severity, for a beginner. -/
theorem generateFeedback_summary_plural_witness :
    (generateFeedback
        [{ type := "syntax", severity := "high", line := some 1, message := "Missing semicolon",
           explanation := "" },
         { type := "style", severity := "low", line := some 1,
           message := "Catching generic Exception", explanation := "" },
         { type := "logic", severity := "high", line := some 1,
           message := "Potential memory leak", explanation := "" }] "beginner").summary =
      "I found 2 critical issues that will prevent your code from running correctly. Let's work through them together!" :=
  ((generateFeedback_summary_plural _ "beginner" 2 (by decide) (by decide)).2.2
    (by decide)).1 rfl

/-- C20: two skill levels both different from `beginner` give the same feedback record for
every issue list. -/
theorem generateFeedback_skill_binary (issues : List Issue) (level1 level2 : String)
    (h1 : level1 ≠ "beginner") (h2 : level2 ≠ "beginner") :
    generateFeedback issues level1 = generateFeedback issues level2 := by
  have hpush : pushTeaching level1 = pushTeaching level2 := by
    funext feedback issue
    simp only [pushTeaching, pushBaseCase, pushSemicolon, h1, h2, if_false]
  unfold generateFeedback
  simp only [h1, h2, if_false, hpush]

/-- Witness of C20: `intermediate` and `advanced` on a base-case issue. -/
theorem generateFeedback_skill_binary_witness :
    generateFeedback
        [{ type := "logic", severity := "high", line := some 2,
           message := "Incomplete base case in recursive function", explanation := "" }]
        "intermediate" =
      generateFeedback
        [{ type := "logic", severity := "high", line := some 2,
           message := "Incomplete base case in recursive function", explanation := "" }]
        "advanced" :=
  generateFeedback_skill_binary _ "intermediate" "advanced" (by decide) (by decide)

/-- C19: an issue of type `logic` whose message contains `base case` makes the callback push
exactly one teaching entry of the base-case trigger: for a beginner the entry has the concept
`Recursive Base Cases` and the question about `factorial(0)` is pushed once; for any other
skill level the entry has the concept `Edge Case Handling` and that question is not pushed.
So, in the feedback for a list whose first issue does not have type `success`, with `n` the
number of such issues, a beginner gets `n` entries `Recursive Base Cases` and `n` times the
question, and any other learner gets `n` entries `Edge Case Handling` and never the
question. -/
theorem generateFeedback_baseCase (issues : List Issue) (skillLevel : String) (n : Nat)
    (hfirst : issues[0]?.map Issue.type ≠ some "success")
    (hn : n = (issues.filter (fun i =>
      i.type == "logic" && includes i.message.data "base case".toList)).length) :
    (∀ (feedback : Feedback) (issue : Issue), issue.type = "logic" →
      includes issue.message.data "base case".toList = true →
      (skillLevel = "beginner" →
        (((pushTeaching skillLevel feedback issue).teaching.filter
            (fun t => t.concept == "Recursive Base Cases")).length =
          (feedback.teaching.filter (fun t => t.concept == "Recursive Base Cases")).length + 1 ∧
         ((pushTeaching skillLevel feedback issue).teaching.filter
            (fun t => t.concept == "Edge Case Handling")).length =
          (feedback.teaching.filter (fun t => t.concept == "Edge Case Handling")).length ∧
         ((pushTeaching skillLevel feedback issue).questions.filter (fun q => q ==
            "What would happen if someone calls factorial(0)? Walk through the steps.")).length =
          (feedback.questions.filter (fun q => q ==
            "What would happen if someone calls factorial(0)? Walk through the steps.")).length
            + 1)) ∧
      (skillLevel ≠ "beginner" →
        (((pushTeaching skillLevel feedback issue).teaching.filter
            (fun t => t.concept == "Edge Case Handling")).length =
          (feedback.teaching.filter (fun t => t.concept == "Edge Case Handling")).length + 1 ∧
         ((pushTeaching skillLevel feedback issue).teaching.filter
            (fun t => t.concept == "Recursive Base Cases")).length =
          (feedback.teaching.filter (fun t => t.concept == "Recursive Base Cases")).length ∧
         ((pushTeaching skillLevel feedback issue).questions.filter (fun q => q ==
            "What would happen if someone calls factorial(0)? Walk through the steps.")).length =
          (feedback.questions.filter (fun q => q ==
            "What would happen if someone calls factorial(0)? Walk through the steps.")).length)))
    ∧
    (skillLevel = "beginner" →
      ((generateFeedback issues skillLevel).teaching.filter
          (fun t => t.concept == "Recursive Base Cases")).length = n ∧
      ((generateFeedback issues skillLevel).teaching.filter
          (fun t => t.concept == "Edge Case Handling")).length = 0 ∧
      ((generateFeedback issues skillLevel).questions.filter (fun q => q ==
          "What would happen if someone calls factorial(0)? Walk through the steps.")).length
        = n) ∧
    (skillLevel ≠ "beginner" →
      ((generateFeedback issues skillLevel).teaching.filter
          (fun t => t.concept == "Edge Case Handling")).length = n ∧
      ((generateFeedback issues skillLevel).teaching.filter
          (fun t => t.concept == "Recursive Base Cases")).length = 0 ∧
      ((generateFeedback issues skillLevel).questions.filter (fun q => q ==
          "What would happen if someone calls factorial(0)? Walk through the steps.")).length
        = 0) := by
  refine ⟨?_, ?_, ?_⟩
  · intro feedback issue ht hm
    have hb : (issue.type == "logic" && includes issue.message.data "base case".toList)
        = true := by rw [ht, hm]; rfl
    rw [pushTeaching_eq]
    simp only [List.filter_append, List.length_append, count_recursiveBaseCases,
      count_edgeCaseHandling, count_baseCaseQuestion, hb, Bool.and_true]
    constructor
    · intro hs; simp [hs]
    · intro hs; simp [hs]
  · intro hs
    rw [generateFeedback_teaching skillLevel hfirst, generateFeedback_questions skillLevel hfirst,
      hn]
    refine ⟨?_, ?_, ?_⟩
    · apply length_filter_flatMap
      intro i; rw [count_recursiveBaseCases]; simp [hs]
    · apply length_filter_flatMap_zero
      intro i; rw [count_edgeCaseHandling]; simp [hs]
    · apply length_filter_flatMap
      intro i; rw [count_baseCaseQuestion]; simp [hs]
  · intro hs
    rw [generateFeedback_teaching skillLevel hfirst, generateFeedback_questions skillLevel hfirst,
      hn]
    refine ⟨?_, ?_, ?_⟩
    · apply length_filter_flatMap
      intro i; rw [count_edgeCaseHandling]; simp [hs]
    · apply length_filter_flatMap_zero
      intro i; rw [count_recursiveBaseCases]; simp [hs]
    · apply length_filter_flatMap_zero
      intro i; rw [count_baseCaseQuestion]; simp [hs]

/-- Witness of C19 on the scenario of the specification: one base-case issue, for a beginner,
gives one entry `Recursive Base Cases` and the question once. -/
theorem generateFeedback_baseCase_witness :
    ((generateFeedback
        [{ type := "logic", severity := "high", line := some 2,
           message := "Incomplete base case in recursive function", explanation := "" }]
        "beginner").teaching.filter (fun t => t.concept == "Recursive Base Cases")).length = 1 ∧
    ((generateFeedback
        [{ type := "logic", severity := "high", line := some 2,
           message := "Incomplete base case in recursive function", explanation := "" }]
        "beginner").questions.filter (fun q => q ==
          "What would happen if someone calls factorial(0)? Walk through the steps.")).length
      = 1 :=
  ⟨((generateFeedback_baseCase _ "beginner" 1 (by decide) (by decide)).2.1 rfl).1,
   ((generateFeedback_baseCase _ "beginner" 1 (by decide) (by decide)).2.1 rfl).2.2⟩

/-! ## Substrings -/

theorem includes_iff {s p : Str} : includes s p = true ↔ ∃ pre post, s = pre ++ p ++ post := by
  induction s with
  | nil =>
    simp only [includes, List.isPrefixOf_iff_prefix]
    constructor
    · intro h
      have hp : p = [] := List.prefix_nil.1 h
      exact ⟨[], [], by simp [hp]⟩
    · rintro ⟨pre, post, h⟩
      have h' := h.symm
      simp only [List.append_eq_nil] at h'
      rw [h'.1.2]
  | cons c s ih =>
    simp only [includes, Bool.or_eq_true, List.isPrefixOf_iff_prefix]
    constructor
    · rintro (⟨t, ht⟩ | h)
      · exact ⟨[], t, by simp [ht]⟩
      · obtain ⟨pre, post, rfl⟩ := ih.1 h
        exact ⟨c :: pre, post, by simp⟩
    · rintro ⟨pre, post, h⟩
      cases pre with
      | nil => exact Or.inl ⟨post, by simpa using h.symm⟩
      | cons d pre =>
        simp only [List.cons_append, List.cons.injEq] at h
        exact Or.inr (ih.2 ⟨pre, post, h.2⟩)

theorem includes_of_includes_append_right {s a b : Str} (h : includes s (a ++ b) = true) :
    includes s b = true := by
  obtain ⟨pre, post, rfl⟩ := includes_iff.1 h
  exact includes_iff.2 ⟨pre ++ a, post, by simp⟩

/-! ## No message of an unused-variable issue contains `null reference` -/

theorem spaceBeforeR_append_left (pre s : Str) (h : spaceBeforeR s = true) :
    spaceBeforeR (pre ++ s) = true := by
  induction pre with
  | nil => exact h
  | cons c pre ih => simp [spaceBeforeR, ih]

theorem spaceBeforeR_append_right (post : Str) :
    ∀ s : Str, spaceBeforeR s = true → spaceBeforeR (s ++ post) = true := by
  intro s
  induction s with
  | nil => intro h; simp [spaceBeforeR] at h
  | cons c s ih =>
    intro h
    simp only [spaceBeforeR, Bool.or_eq_true, Bool.and_eq_true] at h
    simp only [List.cons_append, spaceBeforeR, Bool.or_eq_true, Bool.and_eq_true]
    rcases h with ⟨hc, hr⟩ | h
    · left
      refine ⟨hc, ?_⟩
      cases s with
      | nil => simp at hr
      | cons d s => simpa using hr
    · exact Or.inr (ih h)

theorem spaceBeforeR_of_includes {s p : Str} (h : includes s p = true)
    (hp : spaceBeforeR p = true) : spaceBeforeR s = true := by
  obtain ⟨pre, post, rfl⟩ := includes_iff.1 h
  rw [List.append_assoc]
  exact spaceBeforeR_append_left _ _ (spaceBeforeR_append_right _ _ hp)

theorem spaceBeforeR_append_of_no_space (post : Str) :
    ∀ name : Str, (∀ c ∈ name, c ≠ ' ') →
      spaceBeforeR (name ++ post) = spaceBeforeR post := by
  intro name
  induction name with
  | nil => intro _; rfl
  | cons c name ih =>
    intro h
    have hc : (c == ' ') = false := by simpa using h c (List.mem_cons_self _ _)
    simp only [List.cons_append, spaceBeforeR, hc, Bool.false_and, Bool.false_or]
    exact ih (fun d hd => h d (List.mem_cons_of_mem _ hd))

/-- The message of an unused-variable issue for a name without space never contains
`null reference`: in it no space is followed by the letter `r`. -/
theorem not_includes_nullReference_unusedMessage {name : Str} (h : ∀ c ∈ name, c ≠ ' ') :
    includes ("Variable '" ++ String.mk name ++ "' is assigned but never used").data
      "null reference".toList = false := by
  rw [Bool.eq_false_iff]
  intro hin
  have hs := spaceBeforeR_of_includes hin (by decide)
  simp only [String.data_append, List.append_assoc] at hs
  have h2 : spaceBeforeR (name ++ "' is assigned but never used".data) = false := by
    rw [spaceBeforeR_append_of_no_space _ _ h]
    decide
  have h3 : ∀ rest : Str, spaceBeforeR ("Variable '".data ++ rest) = spaceBeforeR rest := by
    intro rest
    simp [spaceBeforeR]
  rw [h3, h2] at hs
  exact absurd hs (by decide)

theorem teachingOf_probe (skillLevel : String) (issue : Issue) :
    teachingOf skillLevel issue = teachingOf skillLevel (probe issue.type issue.message) := rfl

theorem questionsOf_probe (skillLevel : String) (issue : Issue) :
    questionsOf skillLevel issue = questionsOf skillLevel (probe issue.type issue.message) := rfl

theorem concepts_of_fixed {issue : Issue} {t m : String} (ht : issue.type = t)
    (hm : issue.message = m)
    (h : (teachingOf "beginner" (probe t m)).map Teaching.concept = (conceptFor m).toList) :
    (teachingOf "beginner" issue).map Teaching.concept = (conceptFor issue.message).toList := by
  rw [teachingOf_probe, ht, hm]
  exact h

/-- An issue of type `style` whose message does not contain `null reference` makes the callback
push nothing. -/
theorem teachingOf_style {issue : Issue} (skillLevel : String) (ht : issue.type = "style")
    (hnull : includes issue.message.data "null reference".toList = false) :
    teachingOf skillLevel issue = [] ∧ questionsOf skillLevel issue = [] := by
  have h1 : ¬ issue.type = "logic" := by rw [ht]; decide
  have h2 : ¬ issue.type = "syntax" := by rw [ht]; decide
  rw [teachingOf_eq, questionsOf_eq]
  simp only [pushBaseCase, pushInfiniteLoop, pushMemoryLeak, pushSemicolon, pushNullReference,
    h1, h2, hnull, false_and, if_false, emptyFeedback, List.append_nil, Bool.false_eq_true,
    and_self]

theorem conceptFor_unusedMessage (name : Str) :
    conceptFor ("Variable '" ++ String.mk name ++ "' is assigned but never used") = none := by
  unfold conceptFor
  rw [if_neg (ne_unusedMessage (by decide)).symm, if_neg (ne_unusedMessage (by decide)).symm,
    if_neg (ne_unusedMessage (by decide)).symm, if_neg (ne_unusedMessage (by decide)).symm,
    if_neg (ne_unusedMessage (by decide)).symm]

theorem no_space_of_isWordChar {name : Str} (h : ∀ c ∈ name, isWordChar c = true) :
    ∀ c ∈ name, c ≠ ' ' :=
  fun c hc => ne_of_isWordChar (h c hc) (by decide)

/-- An unused-variable issue makes the callback push nothing. -/
theorem teachingOf_unusedIssue {code : Str} {x : Issue} (skillLevel : String)
    (h : x ∈ unusedIssues code) :
    teachingOf skillLevel x = [] ∧ questionsOf skillLevel x = [] ∧
      conceptFor x.message = none := by
  obtain ⟨m, hm, _, _, rfl⟩ := mem_unusedIssues.1 h
  have hw := (varNameOf_mem_matchAll hm).2
  have hnull := not_includes_nullReference_unusedMessage (no_space_of_isWordChar hw)
  obtain ⟨h1, h2⟩ := @teachingOf_style (unusedIssue code m) skillLevel rfl hnull
  exact ⟨h1, h2, conceptFor_unusedMessage _⟩

/-- The concepts pushed for an issue of a battery, for a beginner, are what the wording of its
message calls for. -/
theorem concepts_of_batteryIssue {code : Str} {language : String} {i : Issue}
    (h : i ∈ batteryIssues code language) :
    (teachingOf "beginner" i).map Teaching.concept = (conceptFor i.message).toList := by
  simp only [batteryIssues, List.mem_append] at h
  rcases h with (h | h) | h
  · split_ifs at h
    · rcases mem_pythonIssues.1 h with h | h | h | h | h | h
      · have hk := baseCaseRule_kind h; exact concepts_of_fixed hk.1 hk.2.2 (by decide)
      · have hk := indentationIssues_kind h; exact concepts_of_fixed hk.1 hk.2.2 (by decide)
      · have hk := infiniteLoopRule_kind h; exact concepts_of_fixed hk.1 hk.2.2 (by decide)
      · have hk := offByOneRule_kind h; exact concepts_of_fixed hk.1 hk.2.2 (by decide)
      · obtain ⟨h1, _, h3⟩ := teachingOf_unusedIssue "beginner" h
        rw [h1, h3]; rfl
      · have hk := missingReturnRule_kind h; exact concepts_of_fixed hk.1 hk.2.2 (by decide)
    · simp at h
  · split_ifs at h
    · simp only [cRules, List.mem_append] at h
      rcases h with ((h | h) | h) | h
      · have hk := missingSemicolonLoop_kind _ _ h
        exact concepts_of_fixed hk.1 hk.2.2 (by decide)
      · have hk := arrayBoundsRule_kind h; exact concepts_of_fixed hk.1 hk.2.2 (by decide)
      · have hk := memoryLeakRule_kind h; exact concepts_of_fixed hk.1 hk.2.2 (by decide)
      · have hk := uninitializedRule_kind h; exact concepts_of_fixed hk.1 hk.2.2 (by decide)
    · simp at h
  · split_ifs at h
    · simp only [csharpRules, List.mem_append] at h
      rcases h with (h | h) | h
      · have hk := nullReferenceRule_kind h; exact concepts_of_fixed hk.1 hk.2.2 (by decide)
      · have hk := disposeRule_kind h; exact concepts_of_fixed hk.1 hk.2.2 (by decide)
      · have hk := genericCatchRule_kind h; exact concepts_of_fixed hk.1 hk.2.2 (by decide)
    · simp at h

theorem map_flatMap_eq_filterMap {α β γ : Type} (f : α → List β) (g : β → γ)
    (k : α → Option γ) :
    ∀ l : List α, (∀ a ∈ l, (f a).map g = (k a).toList) →
      (l.flatMap f).map g = l.filterMap k := by
  intro l
  induction l with
  | nil => intro _; rfl
  | cons a l ih =>
    intro h
    rw [List.flatMap_cons, List.map_append, h a (List.mem_cons_self _ _),
      ih (fun b hb => h b (List.mem_cons_of_mem _ hb)), List.filterMap_cons]
    cases k a <;> rfl

/-- The first issue of a non-empty battery result does not have type `success`. -/
theorem batteryIssues_first {code : Str} {language : String} :
    (batteryIssues code language)[0]?.map Issue.type ≠ some "success" := by
  cases h : batteryIssues code language with
  | nil => simp
  | cons i rest =>
    have hi : i ∈ batteryIssues code language := by rw [h]; exact List.mem_cons_self _ _
    simpa using (batteryIssues_kind hi).type_ne_success

/-! ## The semicolon and null-reference triggers -/

/-- What the callback pushes for an issue of type `syntax` whose message contains `semicolon`
and not `null reference`. -/
theorem teachingOf_semicolon {issue : Issue} (skillLevel : String)
    (ht : issue.type = "syntax")
    (hsemi : includes issue.message.data "semicolon".toList = true)
    (hnull : includes issue.message.data "null reference".toList = false) :
    teachingOf skillLevel issue =
      (if skillLevel = "beginner" then
        [{ concept := "Statement Terminators"
           explanation := "In C/C++/Java/C#, most statements end with a semicolon. It tells the compiler where one statement ends and another begins."
           exampleText := "int x = 5; // semicolon required" }]
      else []) ∧
    questionsOf skillLevel issue = [] := by
  have h1 : ¬ issue.type = "logic" := by rw [ht]; decide
  rw [teachingOf_eq, questionsOf_eq]
  simp only [pushBaseCase, pushInfiniteLoop, pushMemoryLeak, pushSemicolon, pushNullReference,
    h1, false_and, if_false, emptyFeedback]
  simp only [ht, hsemi, hnull, true_and, if_true, Bool.false_eq_true, if_false]
  split_ifs <;> simp

theorem count_nullSafety (skillLevel : String) (issue : Issue) :
    ((teachingOf skillLevel issue).filter (fun t => t.concept == "Null Safety")).length =
      if includes issue.message.data "null reference".toList = true then 1 else 0 := by
  rw [teachingOf_eq]
  simp only [pushBaseCase, pushInfiniteLoop, pushMemoryLeak, pushSemicolon, pushNullReference,
    emptyFeedback]
  split_ifs <;> simp_all

theorem count_nullQuestion (skillLevel : String) (issue : Issue) :
    ((questionsOf skillLevel issue).filter (fun q => q ==
        "What happens if the object is null when you try to access its properties?")).length =
      if includes issue.message.data "null reference".toList = true then 1 else 0 := by
  rw [questionsOf_eq]
  simp only [pushBaseCase, pushInfiniteLoop, pushMemoryLeak, pushSemicolon, pushNullReference,
    emptyFeedback]
  split_ifs <;> simp_all

/-- Only an issue of type `logic` gets an entry of the base-case, infinite-loop or memory-leak
trigger. -/
theorem concept_of_not_logic {issue : Issue} (skillLevel : String)
    (ht : issue.type ≠ "logic") :
    ∀ t ∈ teachingOf skillLevel issue,
      t.concept = "Statement Terminators" ∨ t.concept = "Null Safety" := by
  rw [teachingOf_eq]
  simp only [pushBaseCase, pushInfiniteLoop, pushMemoryLeak, pushSemicolon, pushNullReference,
    ht, false_and, if_false, emptyFeedback]
  split_ifs <;> simp

/-- Only an issue of type `syntax` gets an entry of the semicolon trigger. -/
theorem concept_of_not_syntax {issue : Issue} (skillLevel : String)
    (ht : issue.type ≠ "syntax") :
    ∀ t ∈ teachingOf skillLevel issue, t.concept ≠ "Statement Terminators" := by
  rw [teachingOf_eq]
  simp only [pushBaseCase, pushInfiniteLoop, pushMemoryLeak, pushSemicolon, pushNullReference,
    ht, false_and, if_false, emptyFeedback]
  split_ifs <;> simp

theorem length_questionsOf_le (skillLevel : String) (issue : Issue) :
    (questionsOf skillLevel issue).length ≤ (teachingOf skillLevel issue).length := by
  rw [teachingOf_eq, questionsOf_eq]
  simp only [pushBaseCase, pushInfiniteLoop, pushMemoryLeak, pushSemicolon, pushNullReference,
    emptyFeedback]
  split_ifs <;> simp

theorem length_flatMap_le {α β γ : Type} (f : α → List β) (g : α → List γ)
    (h : ∀ a, (f a).length ≤ (g a).length) :
    ∀ l : List α, (l.flatMap f).length ≤ (l.flatMap g).length := by
  intro l
  induction l with
  | nil => exact Nat.le_refl _
  | cons a l ih =>
    rw [List.flatMap_cons, List.flatMap_cons, List.length_append, List.length_append]
    exact Nat.add_le_add (h a) ih

theorem foldl_pushTeaching_empty (skillLevel : String) (issues : List Issue) :
    (issues.foldl (pushTeaching skillLevel) emptyFeedback).teaching =
        issues.flatMap (teachingOf skillLevel) ∧
      (issues.foldl (pushTeaching skillLevel) emptyFeedback).questions =
        issues.flatMap (questionsOf skillLevel) := by
  rw [foldl_pushTeaching]
  exact ⟨List.nil_append _, List.nil_append _⟩

/-! ## The first misindented line -/

theorem violatesAt_iff (lines : List Str) (i : Nat) :
    violatesAt lines i = true ↔ MisindentedAt lines i := by
  unfold violatesAt MisindentedAt
  cases hi : lines[i]? with
  | none => simp
  | some line =>
    cases hp : lines[i - 1]? with
    | none => simp
    | some before =>
      simp only [truthy, Bool.and_eq_true, Bool.not_eq_true', decide_eq_true_eq,
        Option.some.injEq, exists_and_left, exists_eq_left', List.isEmpty_eq_false]
      constructor
      · rintro ⟨⟨⟨⟨⟨h1, h2⟩, h3⟩, h4⟩, h5⟩, h6⟩
        exact ⟨h5, h1, h2, h3, h4, h6⟩
      · rintro ⟨h5, h1, h2, h3, h4, h6⟩
        exact ⟨⟨⟨⟨⟨h1, h2⟩, h3⟩, h4⟩, h5⟩, h6⟩

/-- The indentation rule pushes at most one issue, for the first misindented line. -/
theorem indentationIssues_first (code : Str) :
    indentationIssues code = [] ∨
      ∃ i, indentationIssues code = [indentationIssue i] ∧
        MisindentedAt (split '\n' code) i ∧
        ∀ j < i, ¬ MisindentedAt (split '\n' code) j := by
  unfold indentationIssues
  split_ifs
  · cases hf : (List.range (split '\n' code).length).find? (violatesAt (split '\n' code)) with
    | none => exact Or.inl rfl
    | some i =>
      right
      rw [List.find?_range_eq_some] at hf
      refine ⟨i, rfl, (violatesAt_iff _ _).1 hf.1, ?_⟩
      intro j hj hmis
      have := hf.2.2 j hj
      rw [(violatesAt_iff _ _).2 hmis] at this
      exact absurd this (by decide)
  · exact Or.inl rfl

/-- Among the issues of the Python battery, those with the message `Indentation error` are the
ones of the indentation rule. -/
theorem filter_indentation_pythonIssues (code : Str) :
    (pythonIssues code).filter (fun x => x.message == "Indentation error") =
      indentationIssues code := by
  have hnil : ∀ l : List Issue, (∀ x ∈ l, x.message ≠ "Indentation error") →
      l.filter (fun x => x.message == "Indentation error") = [] := by
    intro l h
    rw [List.filter_eq_nil_iff]
    intro x hx hs
    exact h x hx (by simpa using hs)
  have h1 := hnil (baseCaseRule code) (fun x hx => by
    rw [(baseCaseRule_kind hx).2.2]; decide)
  have h2 : (indentationIssues code).filter (fun x => x.message == "Indentation error") =
      indentationIssues code := by
    rw [List.filter_eq_self]
    intro x hx
    rw [(indentationIssues_kind hx).2.2]
    rfl
  have h3 := hnil (infiniteLoopRule code) (fun x hx => by
    rw [(infiniteLoopRule_kind hx).2.2]; decide)
  have h4 := hnil (offByOneRule code) (fun x hx => by
    rw [(offByOneRule_kind hx).2.2]; decide)
  have h5 := hnil (unusedIssues code) (fun x hx => by
    obtain ⟨m, _, _, _, rfl⟩ := mem_unusedIssues.1 hx
    exact (ne_unusedMessage (by decide)).symm)
  have h6 := hnil (missingReturnRule code) (fun x hx => by
    rw [(missingReturnRule_kind hx).2.2]; decide)
  simp only [pythonIssues, List.filter_append, h1, h2, h3, h4, h5, h6, List.nil_append,
    List.append_nil]

/-! ## The pattern of the off-by-one rule matches within a line -/

theorem greedy_some_split {p : Char → Bool} {k : Option Char → Str → Option Str} :
    ∀ (s : Str) (prev : Option Char) (m : Str), greedy p k prev s = some m →
      ∃ a s1 b, s = a ++ s1 ∧ m = a ++ b ∧ (∀ c ∈ a, p c = true) ∧
        k (lastOr prev a) s1 = some b := by
  intro s
  induction s with
  | nil =>
    intro prev m h
    exact ⟨[], [], m, rfl, rfl, by simp, h⟩
  | cons c s ih =>
    intro prev m h
    simp only [greedy] at h
    by_cases hp : p c = true
    · simp only [hp, if_true] at h
      cases hg : greedy p k (some c) s with
      | none =>
        rw [hg] at h
        exact ⟨[], c :: s, m, rfl, rfl, by simp, h⟩
      | some m1 =>
        rw [hg] at h
        obtain ⟨a, s1, b, rfl, rfl, ha, hk⟩ := ih _ _ hg
        refine ⟨c :: a, s1, b, rfl, ?_, ?_, hk⟩
        · simpa using h.symm
        · intro d hd
          rcases List.mem_cons.1 hd with rfl | hd
          · exact hp
          · exact ha d hd
    · simp only [hp] at h
      exact ⟨[], c :: s, m, rfl, rfl, by simp, h⟩

theorem greedy_isSome_of {p : Char → Bool} {k : Option Char → Str → Option Str} (rest : Str) :
    ∀ (w : Str) (prev : Option Char), (∀ c ∈ w, p c = true) →
      (k (lastOr prev w) rest).isSome = true → (greedy p k prev (w ++ rest)).isSome = true := by
  intro w
  induction w with
  | nil =>
    intro prev _ hk
    cases rest with
    | nil => exact hk
    | cons c r =>
      simp only [List.nil_append, greedy]
      split_ifs
      · cases greedy p k (some c) r with
        | none => exact hk
        | some m => rfl
      · exact hk
  | cons c w ih =>
    intro prev hw hk
    have hc : p c = true := hw c (List.mem_cons_self _ _)
    have := ih (some c) (fun d hd => hw d (List.mem_cons_of_mem _ hd)) hk
    simp only [List.cons_append, greedy, hc, if_true]
    cases hg : greedy p k (some c) (w ++ rest) with
    | none => rw [hg] at this; exact absurd this (by decide)
    | some m => rfl

/-- The end of the pattern of the off-by-one rule, `\w+\)`, matches at the start of `t` exactly
when `t` starts with a non-empty run of word characters followed by a closing parenthesis. -/
theorem matchHere_wordsParen (prev : Option Char) (t : Str) :
    (matchHere [.cls isWordChar .plus, .lit ')'] prev t).isSome = true ↔
      ∃ w rest, w ≠ [] ∧ (∀ c ∈ w, isWordChar c = true) ∧ t = w ++ ')' :: rest := by
  have hk : ∀ (q : Option Char) (u : Str),
      (matchHere [Atom.lit ')'] q u).isSome = true ↔ ∃ rest, u = ')' :: rest := by
    intro q u
    cases u with
    | nil => simp [Atom.lit, matchHere]
    | cons d u =>
      by_cases hd : d = ')'
      · subst hd; simp [Atom.lit, matchHere]
      · simp [Atom.lit, matchHere, hd]
  constructor
  · intro h
    cases t with
    | nil => simp [matchHere] at h
    | cons c t =>
      simp only [matchHere] at h
      by_cases hc : isWordChar c = true
      · simp only [hc, if_true, Option.isSome_map'] at h
        obtain ⟨m, hm⟩ := Option.isSome_iff_exists.1 h
        obtain ⟨a, s1, b, rfl, _, ha, hb⟩ := greedy_some_split _ _ _ hm
        have hb' : (matchHere [Atom.lit ')'] (lastOr (some c) a) s1).isSome = true := by
          show (matchHere (Atom.lit ')' :: []) (lastOr (some c) a) s1).isSome = true
          simp only [Atom.lit, matchHere]
          rw [hb]; rfl
        obtain ⟨rest, rfl⟩ := (hk _ _).1 hb'
        refine ⟨c :: a, rest, by simp, ?_, by simp⟩
        intro d hd
        rcases List.mem_cons.1 hd with rfl | hd
        · exact hc
        · exact ha d hd
      · simp [hc] at h
  · rintro ⟨w, rest, hne, hw, rfl⟩
    cases w with
    | nil => exact absurd rfl hne
    | cons c w =>
      have hc : isWordChar c = true := hw c (List.mem_cons_self _ _)
      simp only [List.cons_append, matchHere, hc, if_true, Option.isSome_map']
      have := @greedy_isSome_of isWordChar (matchHere [Atom.lit ')']) (')' :: rest)
        w (some c) (fun d hd => hw d (List.mem_cons_of_mem _ hd)) ((hk _ _).2 ⟨rest, rfl⟩)
      simpa [Atom.lit, matchHere] using this

/-- The text of a match of the pattern of the off-by-one rule around the word `w`. -/
theorem matchHere_reRange (prev : Option Char) (s : Str) :
    (matchHere reRange prev s).isSome = true ↔
      ∃ w, w ≠ [] ∧ (∀ c ∈ w, isWordChar c = true) ∧
        ("range(".toList ++ (w ++ [')'])).isPrefixOf s = true := by
  unfold reRange
  rw [matchHere_literal]
  by_cases hp : "range(".toList.isPrefixOf s = true
  · obtain ⟨t, rfl⟩ := List.isPrefixOf_iff_prefix.1 hp
    simp only [hp, if_true, Option.isSome_map', List.drop_left, matchHere_wordsParen]
    constructor
    · rintro ⟨w, rest, hne, hw, rfl⟩
      refine ⟨w, hne, hw, ?_⟩
      rw [List.isPrefixOf_iff_prefix]
      exact ⟨rest, by simp⟩
    · rintro ⟨w, hne, hw, h⟩
      obtain ⟨rest, hrest⟩ := List.isPrefixOf_iff_prefix.1 h
      refine ⟨w, rest, hne, hw, ?_⟩
      rw [List.append_assoc, List.append_assoc] at hrest
      have := List.append_cancel_left hrest
      simpa using this.symm
  · have hp' : "range(".toList.isPrefixOf s = false := (Bool.not_eq_true _).mp hp
    simp only [hp', Bool.false_eq_true, if_false, Option.isSome_none]
    constructor
    · intro h; exact absurd h (by decide)
    · rintro ⟨w, _, _, h⟩
      obtain ⟨rest, hrest⟩ := List.isPrefixOf_iff_prefix.1 h
      exact absurd (List.isPrefixOf_iff_prefix.2 ⟨w ++ [')'] ++ rest, by
        rw [← hrest]; simp⟩) hp

/-- The pattern of the off-by-one rule is found in a text exactly when the text contains
`range(`, a non-empty run of word characters and a closing parenthesis, one after the other. -/
theorem test_reRange_iff (s : Str) :
    test reRange s = true ↔
      ∃ w, w ≠ [] ∧ (∀ c ∈ w, isWordChar c = true) ∧
        includes s ("range(".toList ++ (w ++ [')'])) = true := by
  have key : ∀ (s : Str) (prev : Option Char), (search reRange prev s).isSome = true ↔
      ∃ w, w ≠ [] ∧ (∀ c ∈ w, isWordChar c = true) ∧
        includes s ("range(".toList ++ (w ++ [')'])) = true := by
    intro s
    induction s with
    | nil =>
      intro prev
      simp only [search, includes]
      exact matchHere_reRange prev []
    | cons c s ih =>
      intro prev
      simp only [search, includes, Bool.or_eq_true]
      cases hm : matchHere reRange prev (c :: s) with
      | some m =>
        have h1 := (matchHere_reRange prev (c :: s)).1 (by rw [hm]; rfl)
        obtain ⟨w, hne, hw, hpre⟩ := h1
        simp only [Option.isSome_some, true_iff]
        exact ⟨w, hne, hw, Or.inl hpre⟩
      | none =>
        simp only []
        rw [ih (some c)]
        constructor
        · rintro ⟨w, hne, hw, h⟩
          exact ⟨w, hne, hw, Or.inr h⟩
        · rintro ⟨w, hne, hw, h | h⟩
          · have := (matchHere_reRange prev (c :: s)).2 ⟨w, hne, hw, h⟩
            rw [hm] at this
            exact absurd this (by decide)
          · exact ⟨w, hne, hw, h⟩
  exact key s none

/-- When the pattern of the off-by-one rule is found in the code, it is found in one of its
lines: a match holds no newline. -/
theorem exists_line_test_reRange {code : Str} (h : test reRange code = true) :
    ∃ l ∈ split '\n' code, test reRange l = true := by
  obtain ⟨w, hne, hw, hin⟩ := (test_reRange_iff code).1 h
  have hnl : ∀ x ∈ "range(".toList ++ (w ++ [')']), x ≠ '\n' := by
    intro x hx
    rcases List.mem_append.1 hx with hx | hx
    · intro hxe; subst hxe; exact absurd hx (by decide)
    · rcases List.mem_append.1 hx with hx | hx
      · exact ne_of_isWordChar (hw x hx) (by decide)
      · rw [List.mem_singleton.1 hx]; decide
  obtain ⟨l, hl, hlin⟩ := exists_line_includes '\n' _ hnl code hin
  exact ⟨l, hl, (test_reRange_iff l).2 ⟨w, hne, hw, hlin⟩⟩

/-! ## The line numbers of the issues -/

theorem lineOf_in_range {code : Str} {p : Str → Bool} {x : Issue}
    (hex : ∃ l ∈ split '\n' code, p l = true) (hline : x.line = some (lineOf p code)) :
    LineInRange code x := by
  obtain ⟨k, hk, ⟨l, hl, _⟩, _⟩ := findIndex_of_exists p (split '\n' code) hex
  have hlt : k < (split '\n' code).length := by
    by_contra hge
    rw [List.getElem?_eq_none (by omega)] at hl
    exact absurd hl (by simp)
  refine ⟨k + 1, ?_, by omega, by omega⟩
  rw [hline, lineOf, hk]
  rfl

theorem one_in_range {code : Str} {x : Issue} (hline : x.line = some 1) :
    LineInRange code x := by
  obtain ⟨l, ls, h⟩ := exists_split '\n' code
  exact ⟨1, hline, Nat.le_refl _, by rw [h]; simp⟩

theorem baseCaseRule_line {code : Str} {x : Issue} (h : x ∈ baseCaseRule code) :
    LineInRange code x := by
  unfold baseCaseRule at h
  split_ifs at h with hc
  · rw [List.mem_singleton] at h
    subst h
    simp only [Bool.and_eq_true, Bool.not_eq_true'] at hc
    exact lineOf_in_range (exists_line_includes '\n' _ (by decide) code hc.1.2) rfl
  · simp at h

theorem indentationIssues_line {code : Str} {x : Issue} (h : x ∈ indentationIssues code) :
    LineInRange code x := by
  rcases indentationIssues_first code with h0 | ⟨i, hi, hmis, _⟩
  · rw [h0] at h; simp at h
  · rw [hi, List.mem_singleton] at h
    subst h
    obtain ⟨_, line, _, hl, _⟩ := hmis
    have hlt : i < (split '\n' code).length := by
      by_contra hge
      rw [List.getElem?_eq_none (by omega)] at hl
      exact absurd hl (by simp)
    exact ⟨i + 1, rfl, by omega, by omega⟩

theorem infiniteLoopRule_line {code : Str} {x : Issue} (h : x ∈ infiniteLoopRule code) :
    LineInRange code x := by
  obtain ⟨⟨h1, _⟩, hline⟩ := infiniteLoopRule_cond h
  exact lineOf_in_range (exists_line_includes '\n' _ (by decide) code h1) hline

theorem offByOneRule_line {code : Str} {x : Issue} (h : x ∈ offByOneRule code) :
    LineInRange code x := by
  unfold offByOneRule at h
  split_ifs at h with hc
  · rw [List.mem_singleton] at h
    subst h
    exact lineOf_in_range (exists_line_test_reRange hc) rfl
  · simp at h

theorem missingReturnRule_line {code : Str} {x : Issue} (h : x ∈ missingReturnRule code) :
    LineInRange code x := by
  unfold missingReturnRule at h
  split_ifs at h with hc
  · rw [List.mem_singleton] at h
    subst h
    simp only [Bool.and_eq_true, Bool.not_eq_true'] at hc
    exact lineOf_in_range (exists_line_includes '\n' _ (by decide) code hc.1.1) rfl
  · simp at h

theorem missingSemicolonLoop_line {x : Issue} :
    ∀ (lines : List Str) (idx : Nat), x ∈ missingSemicolonLoop idx lines →
      ∃ j : Nat, x.line = some ((j : Int) + 1) ∧ idx ≤ j ∧ j < idx + lines.length := by
  intro lines
  induction lines with
  | nil => intro idx h; simp [missingSemicolonLoop] at h
  | cons l rest ih =>
    intro idx h
    simp only [missingSemicolonLoop, List.mem_append] at h
    rcases h with h | h
    · split_ifs at h
      · rw [List.mem_singleton] at h
        subst h
        exact ⟨idx, rfl, Nat.le_refl _, by simp⟩
      · simp at h
    · obtain ⟨j, hj, h1, h2⟩ := ih _ h
      exact ⟨j, hj, by omega, by simp only [List.length_cons]; omega⟩

theorem memoryLeakRule_line {code : Str} {x : Issue} (h : x ∈ memoryLeakRule code) :
    LineInRange code x := by
  unfold memoryLeakRule at h
  split_ifs at h with hc
  · rw [List.mem_singleton] at h
    subst h
    simp only [Bool.and_eq_true, Bool.or_eq_true, Bool.not_eq_true'] at hc
    refine lineOf_in_range ?_ rfl
    rcases hc.1.1 with h1 | h1
    · obtain ⟨l, hl, hin⟩ := exists_line_includes '\n' _ (by decide) code h1
      exact ⟨l, hl, by simp only [hin, Bool.true_or]⟩
    · obtain ⟨l, hl, hin⟩ := exists_line_includes '\n' _ (by decide) code h1
      exact ⟨l, hl, by simp only [hin, Bool.or_true]⟩
  · simp at h

theorem disposeRule_line {code : Str} {x : Issue} (h : x ∈ disposeRule code) :
    LineInRange code x := by
  unfold disposeRule at h
  split_ifs at h with hc
  · rw [List.mem_singleton] at h
    subst h
    simp only [Bool.and_eq_true, Bool.or_eq_true, Bool.not_eq_true'] at hc
    refine lineOf_in_range ?_ rfl
    rcases hc.1 with h1 | h1
    · have h2 : includes code "StreamReader".toList = true :=
        @includes_of_includes_append_right code "new ".toList "StreamReader".toList h1
      obtain ⟨l, hl, hin⟩ := exists_line_includes '\n' _ (by decide) code h2
      exact ⟨l, hl, by simp only [hin, Bool.true_or]⟩
    · have h2 : includes code "FileStream".toList = true :=
        @includes_of_includes_append_right code "new ".toList "FileStream".toList h1
      obtain ⟨l, hl, hin⟩ := exists_line_includes '\n' _ (by decide) code h2
      exact ⟨l, hl, by simp only [hin, Bool.or_true]⟩
  · simp at h

theorem genericCatchRule_line {code : Str} {x : Issue} (h : x ∈ genericCatchRule code) :
    LineInRange code x := by
  unfold genericCatchRule at h
  split_ifs at h with hc
  · rw [List.mem_singleton] at h
    subst h
    exact lineOf_in_range (exists_line_includes '\n' _ (by decide) code hc) rfl
  · simp at h

theorem arrayBoundsRule_line {code : Str} {x : Issue} (h : x ∈ arrayBoundsRule code) :
    LineInRange code x := by
  unfold arrayBoundsRule at h
  split_ifs at h
  · rw [List.mem_singleton] at h; subst h; exact one_in_range rfl
  · simp at h

theorem uninitializedRule_line {code : Str} {x : Issue} (h : x ∈ uninitializedRule code) :
    LineInRange code x := by
  unfold uninitializedRule at h
  split_ifs at h
  · rw [List.mem_singleton] at h; subst h; exact one_in_range rfl
  · simp at h

/-- Every issue of a battery other than the unused-variable issues has its line in range. -/
theorem batteryIssues_line {code : Str} {language : String} {x : Issue}
    (h : x ∈ batteryIssues code language) (hx : x ∉ unusedIssues code) :
    LineInRange code x := by
  simp only [batteryIssues, List.mem_append] at h
  rcases h with (h | h) | h
  · split_ifs at h
    · rcases mem_pythonIssues.1 h with h | h | h | h | h | h
      · exact baseCaseRule_line h
      · exact indentationIssues_line h
      · exact infiniteLoopRule_line h
      · exact offByOneRule_line h
      · exact absurd h hx
      · exact missingReturnRule_line h
    · simp at h
  · split_ifs at h
    · simp only [cRules, List.mem_append] at h
      rcases h with ((h | h) | h) | h
      · obtain ⟨j, hj, _, h2⟩ := missingSemicolonLoop_line _ _ h
        exact ⟨j + 1, hj, by omega, by omega⟩
      · exact arrayBoundsRule_line h
      · exact memoryLeakRule_line h
      · exact uninitializedRule_line h
    · simp at h
  · split_ifs at h
    · simp only [csharpRules, List.mem_append] at h
      rcases h with (h | h) | h
      · exact one_in_range (nullReferenceRule_cond h).2
      · exact disposeRule_line h
      · exact genericCatchRule_line h
    · simp at h

/-! ## The copies of `App.js` -/

theorem extraTrigger_of_fixed {issue : Issue} {t m : String} (ht : issue.type = t)
    (hm : issue.message = m) (h : extraTrigger (probe t m) = false) :
    extraTrigger issue = false := by
  have : extraTrigger issue = extraTrigger (probe issue.type issue.message) := rfl
  rw [this, ht, hm]
  exact h

/-- None of the three triggers that `App.js` lacks fires on an issue of the Python battery. -/
theorem extraTrigger_pythonIssue {code : Str} {x : Issue} (h : x ∈ pythonIssues code) :
    extraTrigger x = false := by
  rcases mem_pythonIssues.1 h with h | h | h | h | h | h
  · have hk := baseCaseRule_kind h; exact extraTrigger_of_fixed hk.1 hk.2.2 (by decide)
  · have hk := indentationIssues_kind h; exact extraTrigger_of_fixed hk.1 hk.2.2 (by decide)
  · have hk := infiniteLoopRule_kind h; exact extraTrigger_of_fixed hk.1 hk.2.2 (by decide)
  · have hk := offByOneRule_kind h; exact extraTrigger_of_fixed hk.1 hk.2.2 (by decide)
  · obtain ⟨m, hm, _, _, rfl⟩ := mem_unusedIssues.1 h
    have hnull := not_includes_nullReference_unusedMessage
      (no_space_of_isWordChar (varNameOf_mem_matchAll hm).2)
    have h1 : ((unusedIssue code m).type == "logic") = false := by
      show ("style" == "logic") = false
      decide
    have h2 : ((unusedIssue code m).type == "syntax") = false := by
      show ("style" == "syntax") = false
      decide
    unfold extraTrigger
    rw [h1, h2]
    exact hnull
  · have hk := missingReturnRule_kind h; exact extraTrigger_of_fixed hk.1 hk.2.2 (by decide)

/-- On an issue on which none of the three other triggers fires, the callback of `App.js`
pushes what the callback of `feedbackGenerator.js` pushes. -/
theorem pushTeaching_eq_app {issue : Issue} (h : extraTrigger issue = false)
    (skillLevel : String) (feedback : Feedback) :
    pushTeaching skillLevel feedback issue = App.pushTeaching skillLevel feedback issue := by
  simp only [extraTrigger, Bool.or_eq_false_iff, Bool.and_eq_false_iff, beq_eq_false_iff_ne,
    ne_eq] at h
  obtain ⟨⟨h1, h2⟩, h3⟩ := h
  have e1 : ∀ fb, pushMemoryLeak fb issue = fb := by
    intro fb
    unfold pushMemoryLeak
    rw [if_neg]
    rintro ⟨ht, hm⟩
    rcases h1 with h1 | h1
    · exact h1 ht
    · rw [hm] at h1; exact absurd h1 (by decide)
  have e2 : ∀ fb, pushSemicolon skillLevel fb issue = fb := by
    intro fb
    unfold pushSemicolon
    rw [if_neg]
    rintro ⟨ht, hm⟩
    rcases h2 with h2 | h2
    · exact h2 ht
    · rw [hm] at h2; exact absurd h2 (by decide)
  have e3 : ∀ fb, pushNullReference fb issue = fb := by
    intro fb
    unfold pushNullReference
    rw [if_neg]
    rw [h3]
    decide
  simp only [pushTeaching, App.pushTeaching, e1, e2, e3]

theorem foldl_congr_mem {α β : Type} (f g : β → α → β) :
    ∀ (l : List α) (b : β), (∀ a ∈ l, ∀ b, f b a = g b a) → l.foldl f b = l.foldl g b := by
  intro l
  induction l with
  | nil => intro _ _; rfl
  | cons a l ih =>
    intro b h
    rw [List.foldl_cons, List.foldl_cons, h a (List.mem_cons_self _ _),
      ih _ (fun x hx => h x (List.mem_cons_of_mem _ hx))]

/-- The two feedback generators agree on a list on whose issues none of the three other
triggers fires. -/
theorem generateFeedback_eq_app {issues : List Issue} (skillLevel : String)
    (h : ∀ i ∈ issues, extraTrigger i = false) :
    App.generateFeedback issues skillLevel = generateFeedback issues skillLevel := by
  unfold App.generateFeedback generateFeedback
  have hfold : ∀ fb, issues.foldl (App.pushTeaching skillLevel) fb =
      issues.foldl (pushTeaching skillLevel) fb := by
    intro fb
    exact foldl_congr_mem _ _ issues fb
      (fun i hi b => (pushTeaching_eq_app (h i hi) skillLevel b).symm)
  simp only [hfold]

theorem appDetectIssues_python (code : String) :
    App.detectIssues code "python" =
      .ok (if pythonIssues code.data = [] then [successIssue] else pythonIssues code.data) := by
  simp only [App.detectIssues, if_true, pythonRules_eq, bind, Except.bind, pure, Except.pure,
    List.length_eq_zero]
  split_ifs <;> rfl

/-! ## The claims about the triggers, the line numbers and the copies of `App.js` -/

/-- C21: with `issues` the result of the detector on any code and language, the concepts of the
teaching entries of the feedback for a beginner are, in order, one per issue whose message is
`Incomplete base case in recursive function`, `Potential infinite loop`,
`Potential memory leak`, `Missing semicolon` or `Potential null reference exception`, namely
`Recursive Base Cases`, `Loop Termination`, `Memory Management`, `Statement Terminators` and
`Null Safety`; the callback pushes exactly that entry for such an issue and nothing for any
other detected issue, an unused-variable issue in particular, whatever its variable name. -/
theorem teaching_of_detected (code language : String) :
    ∃ issues, detectIssues code language = .ok issues ∧
      (generateFeedback issues "beginner").teaching.map Teaching.concept =
        issues.filterMap (fun i => conceptFor i.message) ∧
      (∀ i ∈ issues, ∀ feedback : Feedback,
        (pushTeaching "beginner" feedback i).teaching.map Teaching.concept =
          feedback.teaching.map Teaching.concept ++ (conceptFor i.message).toList) ∧
      (∀ i ∈ issues, ∀ name : Str,
        i.message = "Variable '" ++ String.mk name ++ "' is assigned but never used" →
        ∀ feedback : Feedback,
          (pushTeaching "beginner" feedback i).teaching = feedback.teaching) := by
  have hsucc : (teachingOf "beginner" successIssue).map Teaching.concept =
      (conceptFor successIssue.message).toList := by decide
  have hper : ∀ i ∈ (if batteryIssues code.data language = [] then [successIssue]
      else batteryIssues code.data language),
      (teachingOf "beginner" i).map Teaching.concept = (conceptFor i.message).toList := by
    intro i hi
    split_ifs at hi with h
    · rw [List.mem_singleton.1 hi]; exact hsucc
    · exact concepts_of_batteryIssue hi
  refine ⟨_, detectIssues_eq code language, ?_, ?_, ?_⟩
  · split_ifs with h
    · rfl
    · rw [generateFeedback_teaching "beginner" batteryIssues_first]
      exact map_flatMap_eq_filterMap _ _ _ _ (fun i hi => concepts_of_batteryIssue hi)
  · intro i hi feedback
    rw [pushTeaching_eq]
    show (feedback.teaching ++ teachingOf "beginner" i).map Teaching.concept = _
    rw [List.map_append, hper i hi]
  · intro i hi name hname feedback
    have hc : conceptFor i.message = none := by rw [hname]; exact conceptFor_unusedMessage name
    have hmap := hper i hi
    rw [hc] at hmap
    have hnil : teachingOf "beginner" i = [] := List.map_eq_nil_iff.1 hmap
    rw [pushTeaching_eq]
    show feedback.teaching ++ teachingOf "beginner" i = _
    rw [hnil, List.append_nil]

/-- Witness of C21: C code with a line lacking its semicolon, an unchecked array access and an
allocation never freed gives the entries `Statement Terminators` and `Memory Management`. -/
theorem teaching_of_detected_witness :
    ∃ issues, detectIssues "p = malloc(4)\na[i] = 0;" "c" = .ok issues ∧
      issues.map Issue.message =
        ["Missing semicolon", "Potential array bounds violation", "Potential memory leak"] ∧
      (generateFeedback issues "beginner").teaching.map Teaching.concept =
        ["Statement Terminators", "Memory Management"] := by
  obtain ⟨issues, h, hagg, _⟩ := teaching_of_detected "p = malloc(4)\na[i] = 0;" "c"
  have hval : (detectIssues "p = malloc(4)\na[i] = 0;" "c").toOption.map
      (fun l => l.map Issue.message) =
      some ["Missing semicolon", "Potential array bounds violation",
        "Potential memory leak"] := by decide
  rw [h] at hval
  have hmsg : issues.map Issue.message = ["Missing semicolon",
      "Potential array bounds violation", "Potential memory leak"] := by
    simpa [Except.toOption] using hval
  refine ⟨issues, h, hmsg, ?_⟩
  rw [hagg]
  have : issues.filterMap (fun i => conceptFor i.message) =
      (issues.map Issue.message).filterMap conceptFor := by
    rw [List.filterMap_map]; rfl
  rw [this, hmsg]
  decide

/-- C22, as the code has it: in the feedback for a list whose first issue does not have type
`success`, built by running the callback on each issue in turn, an issue of type `syntax` whose
message contains `semicolon` and does not contain `null reference` makes the callback push
exactly one teaching entry, of concept `Statement Terminators`, when the skill level is
`beginner`, no teaching entry for any other skill level, and no question at any skill level. -/
theorem generateFeedback_semicolon (issues : List Issue) (skillLevel : String)
    (hfirst : issues[0]?.map Issue.type ≠ some "success") :
    (generateFeedback issues skillLevel).teaching =
      (issues.foldl (pushTeaching skillLevel) emptyFeedback).teaching ∧
    (generateFeedback issues skillLevel).questions =
      (issues.foldl (pushTeaching skillLevel) emptyFeedback).questions ∧
    ∀ issue ∈ issues, issue.type = "syntax" →
      includes issue.message.data "semicolon".toList = true →
      includes issue.message.data "null reference".toList = false →
      ∀ feedback : Feedback,
        (pushTeaching skillLevel feedback issue).questions = feedback.questions ∧
        (skillLevel = "beginner" →
          ∃ t, (pushTeaching skillLevel feedback issue).teaching = feedback.teaching ++ [t] ∧
            t.concept = "Statement Terminators") ∧
        (skillLevel ≠ "beginner" →
          (pushTeaching skillLevel feedback issue).teaching = feedback.teaching) := by
  obtain ⟨hT, hQ⟩ := foldl_pushTeaching_empty skillLevel issues
  refine ⟨by rw [generateFeedback_teaching skillLevel hfirst, hT],
    by rw [generateFeedback_questions skillLevel hfirst, hQ], ?_⟩
  intro issue _ ht hsemi hnull feedback
  obtain ⟨h1, h2⟩ := teachingOf_semicolon skillLevel ht hsemi hnull
  rw [pushTeaching_eq]
  refine ⟨?_, ?_, ?_⟩
  · show feedback.questions ++ questionsOf skillLevel issue = _
    rw [h2, List.append_nil]
  · intro hs
    rw [if_pos hs] at h1
    exact ⟨_, congrArg (fun l => feedback.teaching ++ l) h1, rfl⟩
  · intro hs
    show feedback.teaching ++ teachingOf skillLevel issue = _
    rw [h1, if_neg hs, List.append_nil]

/-- Witness of C22 as amended: the missing-semicolon issue of the detector, for a beginner. -/
theorem generateFeedback_semicolon_witness :
    ∃ t, (pushTeaching "beginner" emptyFeedback (semicolonIssue 0)).teaching =
        emptyFeedback.teaching ++ [t] ∧ t.concept = "Statement Terminators" :=
  ((generateFeedback_semicolon [semicolonIssue 0] "beginner" (by decide)).2.2
    (semicolonIssue 0) (List.mem_singleton.2 rfl) rfl (by decide) (by decide)
    emptyFeedback).2.1 rfl

/-- Counterexample to C22 as stated: an issue of type `syntax` whose message contains
`semicolon`, and also `null reference`, gets one teaching entry and one question at the skill
level `advanced`. -/
theorem generateFeedback_semicolon_counterexample :
    includes "Missing semicolon after null reference".data "semicolon".toList = true ∧
    (generateFeedback
      [{ type := "syntax", severity := "high", line := some 1,
         message := "Missing semicolon after null reference", explanation := "" }]
      "advanced").teaching.map Teaching.concept = ["Null Safety"] ∧
    (generateFeedback
      [{ type := "syntax", severity := "high", line := some 1,
         message := "Missing semicolon after null reference", explanation := "" }]
      "advanced").questions =
      ["What happens if the object is null when you try to access its properties?"] := by
  refine ⟨by decide, by decide, by decide⟩

/-- C23: in the feedback for a list whose first issue does not have type `success`, at every
skill level, each issue whose message contains `null reference` gets a teaching entry of
concept `Null Safety` and the question about the null object, whatever its type and severity:
the callback pushes one of each, and in the whole feedback there are as many of each as there
are such issues. By contrast, an issue whose type is not `logic` gets no entry of the
base-case, infinite-loop and memory-leak triggers, and an issue whose type is not `syntax` gets
no entry of the semicolon trigger. -/
theorem generateFeedback_nullReference (issues : List Issue) (skillLevel : String) (n : Nat)
    (hfirst : issues[0]?.map Issue.type ≠ some "success")
    (hn : n = (issues.filter
      (fun i => includes i.message.data "null reference".toList)).length) :
    ((generateFeedback issues skillLevel).teaching.filter
        (fun t => t.concept == "Null Safety")).length = n ∧
    ((generateFeedback issues skillLevel).questions.filter (fun q => q ==
        "What happens if the object is null when you try to access its properties?")).length
      = n ∧
    (∀ issue ∈ issues, includes issue.message.data "null reference".toList = true →
      ∀ feedback : Feedback,
        ((pushTeaching skillLevel feedback issue).teaching.filter
            (fun t => t.concept == "Null Safety")).length =
          (feedback.teaching.filter (fun t => t.concept == "Null Safety")).length + 1 ∧
        ((pushTeaching skillLevel feedback issue).questions.filter (fun q => q ==
            "What happens if the object is null when you try to access its properties?")).length
          = (feedback.questions.filter (fun q => q ==
            "What happens if the object is null when you try to access its properties?")).length
            + 1) ∧
    (∀ issue : Issue, issue.type ≠ "logic" →
      ∀ t ∈ (pushTeaching skillLevel emptyFeedback issue).teaching,
        t.concept = "Statement Terminators" ∨ t.concept = "Null Safety") ∧
    (∀ issue : Issue, issue.type ≠ "syntax" →
      ∀ t ∈ (pushTeaching skillLevel emptyFeedback issue).teaching,
        t.concept ≠ "Statement Terminators") := by
  refine ⟨?_, ?_, ?_, ?_, ?_⟩
  · rw [generateFeedback_teaching skillLevel hfirst, hn]
    exact length_filter_flatMap _ _ _ (fun i => count_nullSafety skillLevel i) issues
  · rw [generateFeedback_questions skillLevel hfirst, hn]
    exact length_filter_flatMap _ _ _ (fun i => count_nullQuestion skillLevel i) issues
  · intro issue _ hnull feedback
    rw [pushTeaching_eq]
    simp only [List.filter_append, List.length_append, count_nullSafety, count_nullQuestion,
      hnull, if_true, and_self]
  · intro issue ht
    exact concept_of_not_logic skillLevel ht
  · intro issue ht
    exact concept_of_not_syntax skillLevel ht

/-- Witness of C23: an issue of type `style` and severity `low` whose message contains
`null reference`, for an advanced learner. -/
theorem generateFeedback_nullReference_witness :
    ((generateFeedback
      [{ type := "style", severity := "low", line := none,
         message := "A null reference may escape", explanation := "" }]
      "advanced").teaching.filter (fun t => t.concept == "Null Safety")).length = 1 :=
  (generateFeedback_nullReference _ "advanced" 1 (by decide) (by decide)).1

/-- C24: for a list `first :: rest` whose first issue does not have type `success` and any list
`ys`, the teaching entries of the feedback for `first :: rest ++ ys` are those for
`first :: rest` followed by the entries the callback pushes for the issues of `ys` alone, in
order, and likewise for the questions. And the feedback for any list has no more questions
than teaching entries. -/
theorem generateFeedback_append (first : Issue) (rest ys : List Issue) (skillLevel : String)
    (hfirst : first.type ≠ "success") :
    (generateFeedback (first :: rest ++ ys) skillLevel).teaching =
      (generateFeedback (first :: rest) skillLevel).teaching ++
        (ys.foldl (pushTeaching skillLevel) emptyFeedback).teaching ∧
    (generateFeedback (first :: rest ++ ys) skillLevel).questions =
      (generateFeedback (first :: rest) skillLevel).questions ++
        (ys.foldl (pushTeaching skillLevel) emptyFeedback).questions ∧
    ∀ issues : List Issue,
      (generateFeedback issues skillLevel).questions.length ≤
        (generateFeedback issues skillLevel).teaching.length := by
  have h1 : (first :: rest ++ ys)[0]?.map Issue.type ≠ some "success" := by simpa using hfirst
  have h2 : (first :: rest)[0]?.map Issue.type ≠ some "success" := by simpa using hfirst
  obtain ⟨hT, hQ⟩ := foldl_pushTeaching_empty skillLevel ys
  refine ⟨?_, ?_, ?_⟩
  · rw [generateFeedback_teaching skillLevel h1, generateFeedback_teaching skillLevel h2, hT,
      List.flatMap_append]
  · rw [generateFeedback_questions skillLevel h1, generateFeedback_questions skillLevel h2, hQ,
      List.flatMap_append]
  · intro issues
    by_cases h : issues[0]?.map Issue.type = some "success"
    · rw [generateFeedback_success skillLevel h]
      exact Nat.le_refl _
    · rw [generateFeedback_teaching skillLevel h, generateFeedback_questions skillLevel h]
      exact length_flatMap_le _ _ (length_questionsOf_le skillLevel) issues

/-- Witness of C24: a base-case issue followed by a list that starts with a success issue and
ends with an infinite-loop issue, for a beginner. -/
theorem generateFeedback_append_witness :
    (generateFeedback
      ([{ type := "logic", severity := "high", line := some 2,
          message := "Incomplete base case in recursive function", explanation := "" }] ++
        [successIssue,
         { type := "logic", severity := "medium", line := some 1,
           message := "Potential infinite loop", explanation := "" }])
      "beginner").teaching.map Teaching.concept =
      ["Recursive Base Cases", "Loop Termination"] := by
  have h := (generateFeedback_append
    { type := "logic", severity := "high", line := some 2,
      message := "Incomplete base case in recursive function", explanation := "" } []
    [successIssue,
     { type := "logic", severity := "medium", line := some 1,
       message := "Potential infinite loop", explanation := "" }]
    "beginner" (by decide)).1
  rw [h]
  decide

/-- C25: the result of the detector on Python code has at most one issue with the message
`Indentation error`, and the line of such an issue is `i + 1` for the smallest 0-based index
`i` of a misindented line: `i` is at least 1, line `i` is not blank and starts neither with a
space nor with `def` nor with `#`, and line `i - 1`, once trimmed, ends with a colon. So the
line is at least 2. -/
theorem indentation_first (code : String) :
    ∃ issues, detectIssues code "python" = .ok issues ∧
      (issues.filter (fun x => x.message == "Indentation error")).length ≤ 1 ∧
      ∀ x ∈ issues, x.message = "Indentation error" →
        ∃ i : Nat, x.line = some ((i : Int) + 1) ∧
          MisindentedAt (split '\n' code.data) i ∧
          (∀ j < i, ¬ MisindentedAt (split '\n' code.data) j) ∧
          (2 : Int) ≤ (i : Int) + 1 := by
  have hfilter : (if pythonIssues code.data = [] then [successIssue]
      else pythonIssues code.data).filter (fun x => x.message == "Indentation error") =
      indentationIssues code.data := by
    rw [← filter_indentation_pythonIssues]
    split_ifs with h
    · rw [h]; rfl
    · rfl
  refine ⟨_, detectIssues_python code, ?_, ?_⟩
  · rw [hfilter]
    rcases indentationIssues_first code.data with h | ⟨i, h, _⟩ <;> rw [h] <;> simp
  · intro x hx hm
    have hx' : x ∈ indentationIssues code.data := by
      rw [← hfilter, List.mem_filter]
      exact ⟨hx, by rw [hm]; rfl⟩
    rcases indentationIssues_first code.data with h | ⟨i, h, hmis, hmin⟩
    · rw [h] at hx'; simp at hx'
    · rw [h, List.mem_singleton] at hx'
      subst hx'
      refine ⟨i, rfl, hmis, hmin, ?_⟩
      have := hmis.1
      omega

/-- Witness of C25: lines 2 and 4 are both misindented, and the only indentation issue is on
line 2. -/
theorem indentation_first_witness :
    ∃ issues, detectIssues "def f():\nx = 1\nif x:\ny = x" "python" = .ok issues ∧
      (issues.filter (fun x => x.message == "Indentation error")).length ≤ 1 ∧
      (issues.filter (fun x => x.message == "Indentation error")).map Issue.line = [some 2] ∧
      MisindentedAt (split '\n' "def f():\nx = 1\nif x:\ny = x".data) 1 ∧
      MisindentedAt (split '\n' "def f():\nx = 1\nif x:\ny = x".data) 3 := by
  obtain ⟨issues, h, hlen, _⟩ := indentation_first "def f():\nx = 1\nif x:\ny = x"
  have hval : (detectIssues "def f():\nx = 1\nif x:\ny = x" "python").toOption.map
      (fun l => (l.filter (fun x => x.message == "Indentation error")).map Issue.line) =
      some [some 2] := by decide
  rw [h] at hval
  refine ⟨issues, h, hlen, by simpa [Except.toOption] using hval, ?_, ?_⟩
  · exact (violatesAt_iff _ _).1 (by decide)
  · exact (violatesAt_iff _ _).1 (by decide)

/-- C26: every issue in the result of the detector, other than the success fallback and the
unused-variable issues, carries a line number between 1 and the number of lines of the code:
the text or match that made its rule fire holds no newline, so it lies in one line and the
search for that line succeeds. An unused-variable issue can carry line 0: it does for the
Python code made of the two lines `x =` and `5`, whose assignment match spans the newline. -/
theorem line_in_range (code language : String) :
    (∃ issues, detectIssues code language = .ok issues ∧
      ∀ x ∈ issues, x.type ≠ "success" →
        (∀ name : Str,
          x.message ≠ "Variable '" ++ String.mk name ++ "' is assigned but never used") →
        ∃ k : Nat, x.line = some (k : Int) ∧ 1 ≤ k ∧ k ≤ (split '\n' code.data).length) ∧
    (∃ issues, detectIssues "x =\n5" "python" = .ok issues ∧
      matchAll reAssign "x =\n5".data = ["x =\n5".data] ∧
      ∃ x ∈ issues, x.message = "Variable 'x' is assigned but never used" ∧
        x.line = some 0) := by
  constructor
  · refine ⟨_, detectIssues_eq code language, ?_⟩
    intro x hx ht hname
    have hx' := (mem_fallback_iff ht).1 hx
    refine batteryIssues_line hx' ?_
    intro hun
    obtain ⟨m, _, _, _, rfl⟩ := mem_unusedIssues.1 hun
    exact hname (varNameOf m) rfl
  · exact ⟨[{ type := "style", severity := "low", line := some 0,
              message := "Variable 'x' is assigned but never used",
              explanation := "Did you forget to use this variable, or is it unnecessary?" }],
      by decide, by decide, _, List.mem_singleton.2 rfl, rfl, rfl⟩

/-- Witness of C26: the off-by-one issue of a loop on the second line carries line 2. -/
theorem line_in_range_witness :
    ∃ issues, detectIssues "n = 3\nfor i in range(n):\n    print(i)" "python" = .ok issues ∧
      ∃ x ∈ issues, x.message = "Potential off-by-one error" ∧
        ∃ k : Nat, x.line = some (k : Int) ∧ 1 ≤ k ∧
          k ≤ (split '\n' "n = 3\nfor i in range(n):\n    print(i)".data).length := by
  obtain ⟨issues, h, hall⟩ :=
    (line_in_range "n = 3\nfor i in range(n):\n    print(i)" "python").1
  have hval : detectIssues "n = 3\nfor i in range(n):\n    print(i)" "python" = .ok
      [{ type := "concept", severity := "low", line := some 2,
         message := "Potential off-by-one error",
         explanation := "Remember: range(n) goes from 0 to n-1, not 0 to n. Is this what you intended?" }] := by
    decide
  have hiss := Except.ok.inj (h.symm.trans hval)
  subst hiss
  exact ⟨_, h, _, List.mem_singleton.2 rfl, rfl,
    hall _ (List.mem_singleton.2 rfl) (by decide) (fun name => ne_unusedMessage (by decide))⟩

/-- C27: on Python the copies embedded in `App.js` agree with the utility modules: for every
code and skill level the two detectors return the same list, and on that list the two feedback
generators return the same record. -/
theorem app_agrees_on_python (code skillLevel : String) :
    ∃ issues, detectIssues code "python" = .ok issues ∧
      App.detectIssues code "python" = .ok issues ∧
      App.generateFeedback issues skillLevel = generateFeedback issues skillLevel := by
  refine ⟨_, detectIssues_python code, appDetectIssues_python code, ?_⟩
  apply generateFeedback_eq_app
  intro i hi
  split_ifs at hi with h
  · rw [List.mem_singleton.1 hi]; decide
  · exact extraTrigger_pythonIssue hi

end CodeMentor
